import Mathlib

/-!
# Record mapper (`record_mapper.go`, package `dsc`)

A shallow embedding of the record-mapping engine: the mapper factory
(`NewRecordMapper`), the structured mapper (`metaRecordMapper`), the
columnar mapper (`columnarRecordMapper`) and the row extractor (`ScanRow`).

Conventions of the embedding.

* A Go `panic` is an explicit outcome (`Outcome.panic`); a call that returns
  yields `Outcome.ret`.
* `reflect.Type` values are terms of `GoType`; the struct instance created by
  `reflect.New` and the `[]interface{}` holder slices are the two components of
  a `Store`; a pointer handed to the scanner is a `Loc` into that store.
* The collaborators that live outside the package (package `toolbox`,
  `strings.ToLower`, the iteration order of a Go map) are the fields of `Env`.
  Go draws the iteration order afresh at every `range`, so an `Env` describes
  one call of `Map`; statements about two calls take the order of each call.
* A `Scanner` reports its column names and, given the scan targets, the list
  of writes it performs through them together with its error.
* Where calls of `Map` follow one another, `scanDataOn` is `scanData` as a step
  on a heap that holds the mapper and the frames of the earlier calls.
-/

namespace Dsc

/-! ## Outcomes, errors, values -/

/-- Result of running Go code: either it panics or it returns a value. -/
inductive Outcome (α : Type) where
  | panic (msg : String)
  | ret (a : α)
  deriving DecidableEq, Repr

/-- A Go `error` value, identified by the text its `Error()` method returns. -/
structure GoError where
  Error : String
  deriving DecidableEq, Repr

/-- Dynamic values that travel through `interface{}`: what a scanner writes
and what a struct field stores. `bytes` is a `[]byte` value, its payload being
the text `string(b)`. -/
inductive Value where
  | nil
  | bool (b : Bool)
  | int (n : Int)
  | str (s : String)
  | bytes (b : String)
  | other (tag : String)
  deriving DecidableEq, Repr

/-! ## Types as seen through `reflect` -/

/-- The kinds of `reflect.Kind`. -/
inductive Kind where
  | Invalid | Bool | Int | Int8 | Int16 | Int32 | Int64
  | Uint | Uint8 | Uint16 | Uint32 | Uint64 | Uintptr
  | Float32 | Float64 | Complex64 | Complex128
  | Array | Chan | Func | Interface | Map | Ptr | Slice | String | Struct
  | UnsafePointer
  deriving DecidableEq, Repr

/-- Kinds of types that have neither an element type nor fields. -/
inductive LeafKind where
  | Bool | Int | Int8 | Int16 | Int32 | Int64
  | Uint | Uint8 | Uint16 | Uint32 | Uint64 | Uintptr
  | Float32 | Float64 | Complex64 | Complex128
  | Func | Interface | String | UnsafePointer
  deriving DecidableEq, Repr

/-- The `reflect.Kind` of a leaf kind. -/
def LeafKind.toKind : LeafKind → Kind
  | .Bool => .Bool | .Int => .Int | .Int8 => .Int8 | .Int16 => .Int16
  | .Int32 => .Int32 | .Int64 => .Int64
  | .Uint => .Uint | .Uint8 => .Uint8 | .Uint16 => .Uint16
  | .Uint32 => .Uint32 | .Uint64 => .Uint64 | .Uintptr => .Uintptr
  | .Float32 => .Float32 | .Float64 => .Float64
  | .Complex64 => .Complex64 | .Complex128 => .Complex128
  | .Func => .Func | .Interface => .Interface | .String => .String
  | .UnsafePointer => .UnsafePointer

/-- The method `Kind.String()`; in the embedding `Kind.String` names the kind
of strings. -/
def kindText : Kind → String
  | .Invalid => "invalid" | .Bool => "bool" | .Int => "int" | .Int8 => "int8"
  | .Int16 => "int16" | .Int32 => "int32" | .Int64 => "int64"
  | .Uint => "uint" | .Uint8 => "uint8" | .Uint16 => "uint16" | .Uint32 => "uint32"
  | .Uint64 => "uint64" | .Uintptr => "uintptr"
  | .Float32 => "float32" | .Float64 => "float64"
  | .Complex64 => "complex64" | .Complex128 => "complex128"
  | .Array => "array" | .Chan => "chan" | .Func => "func" | .Interface => "interface"
  | .Map => "map" | .Ptr => "ptr" | .Slice => "slice" | .String => "string"
  | .Struct => "struct" | .UnsafePointer => "unsafe.Pointer"

/-- A field of a struct type: its name, the kind of its type and whether it is
exported (`reflect` refuses `Interface()` on a value reached through an
unexported field). -/
structure Field where
  name : String
  kind : Kind
  exported : Bool
  deriving DecidableEq, Repr

/-- A `reflect.Type`. -/
inductive GoType where
  | leaf (k : LeafKind) (name : String)
  | struct (name : String) (fields : List Field)
  | ptr (elem : GoType)
  | slice (elem : GoType)
  | array (len : Nat) (elem : GoType)
  | chan (elem : GoType)
  | map (key : GoType) (elem : GoType)
  deriving DecidableEq, Repr

/-- The method `Type.Kind()`. -/
def GoType.Kind : GoType → Kind
  | .leaf k _ => k.toKind
  | .struct _ _ => .Struct
  | .ptr _ => .Ptr
  | .slice _ => .Slice
  | .array _ _ => .Array
  | .chan _ => .Chan
  | .map _ _ => .Map

/-- The method `Type.Name()`: the name of a defined type, empty for an unnamed one. -/
def GoType.Name : GoType → String
  | .leaf _ n => n
  | .struct n _ => n
  | _ => ""

/-- The method `Type.String()`, which `reflect` and `fmt` print in their
messages. A type of the embedding carries one name, which stands for the text
`String()` prints for a defined type as well as for its `Name()`. -/
def GoType.String : GoType → String
  | .leaf _ n => n
  | .struct n _ => n
  | .ptr e => "*" ++ e.String
  | .slice e => "[]" ++ e.String
  | .array len e => "[" ++ toString len ++ "]" ++ e.String
  | .chan e => "chan " ++ e.String
  | .map k e => "map[" ++ k.String ++ "]" ++ e.String

/-- The method `Type.Elem()`: panics unless the kind is Array, Chan, Map, Ptr or Slice. -/
def GoType.Elem : GoType → Outcome GoType
  | .ptr e => .ret e
  | .slice e => .ret e
  | .array _ e => .ret e
  | .chan e => .ret e
  | .map _ e => .ret e
  | t => .panic ("reflect: Elem of invalid type " ++ t.String)

/-! ## The mappers -/

/-- A `toolbox.Converter` value, as built by `toolbox.NewColumnConverter`. -/
structure Converter where
  dateLayout : String
  deriving DecidableEq, Repr

/-- The type `map[string](map[string]string)`, as its list of entries; a
lookup returns the first entry with the key. -/
abbrev ColumnMap := List (String × List (String × String))

/-- The struct `metaRecordMapper`. -/
structure metaRecordMapper where
  converter : Converter
  structType : GoType
  columnToFieldMap : ColumnMap
  usePointer : Bool
  deriving DecidableEq, Repr

/-- The struct `columnarRecordMapper`. -/
structure columnarRecordMapper where
  usePointer : Bool
  targetSlice : GoType
  deriving DecidableEq, Repr

/-- A non-nil `RecordMapper` interface value: a pointer to one of the two
implementations. -/
inductive RecordMapper where
  | meta (rm : metaRecordMapper)
  | columnar (rm : columnarRecordMapper)
  deriving DecidableEq, Repr

/-- A location a pointer can refer to while a row is mapped: the storage of
a named field of the freshly allocated struct, or an element of the freshly
allocated `[]interface{}` slice. -/
inductive Loc where
  | field (name : String)
  | slot (i : Nat)
  deriving DecidableEq, Repr

/-- A scan target, an `interface{}`: nil, or a pointer. -/
abbrev Target := Option Loc

/-- Collaborators outside the package. -/
structure Env where
  /-- The function `strings.ToLower`. -/
  ToLower : String → String
  /-- The function `toolbox.NewColumnConverter`. -/
  NewColumnConverter : String → Converter
  /-- The function `toolbox.NewFieldSettingByKey`. -/
  NewFieldSettingByKey : GoType → String → ColumnMap
  /-- The function `toolbox.DiscoverTypeByKind`. -/
  DiscoverTypeByKind : GoType → Kind → Outcome GoType
  /-- The function `toolbox.AsString`. -/
  AsString : Value → String
  /-- The function `toolbox.MakeStringMap`, returning the entries of the map. -/
  MakeStringMap : String → String → String → List (String × String)
  /-- The method `Converter.AssignConverted` on a pointer to a field: the value
  stored in the field, or the error. -/
  AssignConverted : Converter → Field → String → Except GoError Value
  /-- The order in which the `range` over `fieldsValueMap` (line 61) yields the
  entries of the map in the call of `Map` at hand. Go draws the order afresh at
  every `range`: an `Env` describes one call, and two calls are compared with
  one `Env` each, equal except for `mapRange`. -/
  mapRange : List (String × Nat) → List (String × Nat)

/-- Whether `toolbox.DiscoverTypeByKind` finds a struct in the type: it follows
pointers and slices to their element and panics on any other type that is not
a struct. -/
def resolvesToStruct : GoType → Bool
  | .struct _ _ => true
  | .ptr e => resolvesToStruct e
  | .slice e => resolvesToStruct e
  | _ => false

/-- The function `NewMetaRecordMapped`. The call `toolbox.NewFieldSettingByKey`
first resolves the struct of `targetType` and panics when there is none;
`env.NewFieldSettingByKey` is the map it returns otherwise. -/
def NewMetaRecordMapped (env : Env) (targetType : GoType) (usePointer : Bool) :
    Outcome RecordMapper :=
  let build (structType : GoType) : Outcome RecordMapper :=
    if resolvesToStruct targetType then
      .ret (.meta
        { converter := env.NewColumnConverter ""
          structType := structType
          usePointer := usePointer
          columnToFieldMap := env.NewFieldSettingByKey targetType "column" })
    else
      .panic ("failed to discover type by kind " ++ kindText Kind.Struct ++ ", on "
        ++ targetType.String ++ ":")
  if usePointer then
    match targetType.Elem with
    | .panic m => .panic m
    | .ret originalType => build originalType
  else build targetType

/-- The function `NewColumnarRecordMapper`. -/
def NewColumnarRecordMapper (usePointer : Bool) (targetSlice : GoType) : RecordMapper :=
  .columnar { usePointer := usePointer, targetSlice := targetSlice }

/-- The function `NewRecordMapper`; `none` is the nil interface returned by the
statement after the `switch`. -/
def NewRecordMapper (env : Env) (targetType : GoType) : Outcome (Option RecordMapper) :=
  let some? (o : Outcome RecordMapper) : Outcome (Option RecordMapper) :=
    match o with
    | .panic m => .panic m
    | .ret r => .ret (some r)
  match targetType.Kind with
  | .Struct => some? (NewMetaRecordMapped env targetType false)
  | .Slice => .ret (some (NewColumnarRecordMapper false targetType))
  | .Ptr =>
    match targetType.Elem with
    | .panic m => .panic m
    | .ret elem =>
      if elem.Kind = .Slice then
        .ret (some (NewColumnarRecordMapper true elem))
      else if elem.Kind = .Struct then
        some? (NewMetaRecordMapped env targetType true)
      else .ret none
  | _ => .panic ("Unsupported type: " ++ targetType.Name)

/-- The function `NewRecordMapperIfNeeded`. -/
def NewRecordMapperIfNeeded (env : Env) (mapper : Option RecordMapper) (targetType : GoType) :
    Outcome (Option RecordMapper) :=
  match mapper with
  | some m => .ret (some m)
  | none => NewRecordMapper env targetType

/-! ## Rows, scanners and the per-row store -/

/-- The `Scanner` interface: `Columns()` and `Scan(dest...)`. A scan is
described by the writes it performs, each through the target at the given
position of `dest`, and by the error it returns. -/
structure Scanner where
  Columns : List String × Option GoError
  Scan : List Target → List (Nat × Value) × Option GoError

/-- The memory allocated while one row is mapped: the fields of the struct
instance made by `reflect.New`, and the elements of the `[]interface{}` slice
of holders. -/
structure Store where
  fields : List (String × Value)
  slots : List Value
  deriving DecidableEq, Repr

/-- The value a record mapper returns as its first result. -/
inductive Result where
  | nil
  | structValue (fields : List (String × Value))
  | structPointer (fields : List (String × Value))
  | values (vs : List Value)
  deriving DecidableEq, Repr

/-- The zero value of a type of the given kind. -/
def zeroValue : Kind → Value
  | .Bool => .bool false
  | .Int | .Int8 | .Int16 | .Int32 | .Int64 => .int 0
  | .Uint | .Uint8 | .Uint16 | .Uint32 | .Uint64 | .Uintptr => .int 0
  | .String => .str ""
  | .Float32 | .Float64 | .Complex64 | .Complex128 => .other "0"
  | .Array | .Struct => .other "zero"
  | _ => .nil

/-- The instance `reflect.New(t).Elem()`: every field at its zero value. -/
def zeroFields : GoType → List (String × Value)
  | .struct _ fs => fs.map fun f => (f.name, zeroValue f.kind)
  | _ => []

/-- Assignment to the field with the given name. -/
def setField : List (String × Value) → String → Value → List (String × Value)
  | [], _, _ => []
  | (n, x) :: rest, name, v =>
    if n = name then (n, v) :: rest else (n, x) :: setField rest name v

/-- A store through a scan target; nothing can be stored through nil. -/
def Store.write (st : Store) : Target → Value → Store
  | none, _ => st
  | some (.field n), v => { st with fields := setField st.fields n v }
  | some (.slot i), v => { st with slots := st.slots.set i v }

/-- The effect of a scan on the store: its writes, in order, each through the
target at its position. -/
def applyWrites (targets : List Target) (st : Store) : List (Nat × Value) → Store
  | [] => st
  | (j, v) :: rest => applyWrites targets (st.write (targets.getD j none) v) rest

/-- The method `Value.FieldByName` on the struct instance: panics when the
instance is not a struct, yields the zero `Value` (here `none`) when no field
has the name. -/
def FieldByName (structType : GoType) (name : String) : Outcome (Option Field) :=
  match structType with
  | .struct _ fs => .ret (fs.find? fun f => f.name == name)
  | _ => .panic "reflect: call of reflect.Value.FieldByName on non-struct Value"

/-- The expression `field.Addr().Interface()`: a pointer to the storage of the
field, given as the field it points to. `Addr` panics on the zero `Value`,
which is not addressable, and `Interface` panics on a value obtained from an
unexported field. -/
def fieldAddr (field : Option Field) : Outcome Field :=
  match field with
  | none => .panic "reflect.Value.Addr of unaddressable value"
  | some f =>
    if f.exported then .ret f
    else .panic "reflect.Value.Interface: cannot return value obtained from unexported field or method"

/-- The method `Value.Kind()`, which is `Invalid` on the zero `Value`. -/
def fieldKind : Option Field → Kind
  | none => .Invalid
  | some f => f.kind

/-- Assignment `m[key] = v` on a Go map given by its entries. -/
def mapSet {α : Type} : List (String × α) → String → α → List (String × α)
  | [], key, v => [(key, v)]
  | (k, x) :: rest, key, v =>
    if k = key then (key, v) :: rest else (k, x) :: mapSet rest key v

/-- The order of Go strings under `<=`, on their characters. -/
def stringLE : List Char → List Char → Bool
  | [], _ => true
  | _ :: _, [] => false
  | a :: as, b :: bs =>
    if a.toNat < b.toNat then true
    else if a.toNat = b.toNat then stringLE as bs
    else false

/-- The entries of a `map[string]string` in the order `fmt` prints them: sorted
by key. -/
def sortedEntries (m : List (String × String)) : List (String × String) :=
  m.insertionSort fun a b => stringLE a.1.data b.1.data = true

/-- How `fmt` prints a `map[string]string` under the verb s. -/
def fmtStringMap (m : List (String × String)) : String :=
  "map[" ++ " ".intercalate ((sortedEntries m).map fun e => e.1 ++ ":" ++ e.2) ++ "]"

/-! ## The structured mapper -/

/-- Whether the descriptor of the column carries a `valueMap`
(lines 35-36, 50-51). -/
def hasValueMap (env : Env) (rm : metaRecordMapper) (key : String) : Bool :=
  match rm.columnToFieldMap.lookup (env.ToLower key) with
  | some mapping => (mapping.lookup "valueMap").isSome
  | none => false

/-- The loop of `getValueMappingCount`, from the current `result`. -/
def getValueMappingCountLoop (env : Env) (rm : metaRecordMapper) :
    List String → Nat → Nat
  | [], result => result
  | key :: rest, result =>
    if hasValueMap env rm key then getValueMappingCountLoop env rm rest (result + 1)
    else getValueMappingCountLoop env rm rest result

/-- The method `getValueMappingCount`. -/
def getValueMappingCount (env : Env) (rm : metaRecordMapper) (columns : List String) : Nat :=
  getValueMappingCountLoop env rm columns 0

/-- The loop of `allocateValueMapByKey` over the columns, from the current
`index` and `result`; `count` is the length of `valuesPointers`, and indexing
past it panics. A pointer `&valuesPointers[index]` is the index. -/
def allocateLoop (env : Env) (rm : metaRecordMapper) (count : Nat) :
    List String → Nat → List (String × Nat) → Outcome (List (String × Nat))
  | [], _, result => .ret result
  | key :: rest, index, result =>
    if hasValueMap env rm key then
      if index < count then
        allocateLoop env rm count rest (index + 1) (mapSet result key index)
      else .panic "runtime error: index out of range"
    else allocateLoop env rm count rest index result

/-- The method `allocateValueMapByKey`: the map from column name to holder,
together with the initial content of `valuesPointers`. -/
def allocateValueMapByKey (env : Env) (rm : metaRecordMapper) (columns : List String) :
    Outcome (List (String × Nat) × List Value) :=
  let count := getValueMappingCount env rm columns
  match allocateLoop env rm count columns 0 [] with
  | .panic m => .panic m
  | .ret result => .ret (result, List.replicate count Value.nil)

/-- The text looked up in the translation table for a non-nil raw value
(lines 74-83). -/
def textOf (env : Env) (rawValue : Value) : String :=
  let value :=
    match rawValue with
    | .bytes valueAsBytes => valueAsBytes
    | v => env.AsString v
  env.AsString (.str value)

/-- The body of the loop of `applyFieldMapValuesIfNeeded` for one entry of
`fieldsValueMap`: `.ok` continues with the next entry, `.error` returns. -/
def applyFieldMapValue (env : Env) (rm : metaRecordMapper) (structType : GoType)
    (st : Store) (key : String) (rawValue : Nat) : Outcome (Except GoError Store) :=
  let valueMapping := (rm.columnToFieldMap.lookup (env.ToLower key)).getD []
  let fieldName := (valueMapping.lookup "fieldName").getD ""
  match FieldByName structType fieldName with
  | .panic m => .panic m
  | .ret field =>
    let unwrappedValue := st.slots.getD rawValue Value.nil
    if unwrappedValue = Value.nil then
      if fieldKind field ≠ Kind.Ptr then
        .ret (.error ⟨"Failed to apply value map on " ++ fieldName ++ ", unable to set nil"⟩)
      else .ret (.ok st)
    else
      let valueMap := env.MakeStringMap ((valueMapping.lookup "valueMap").getD "") ":" ","
      let stringValue := textOf env unwrappedValue
      match valueMap.lookup stringValue with
      | some mappedValue =>
        match fieldAddr field with
        | .panic m => .panic m
        | .ret fieldValuePointer =>
          match env.AssignConverted rm.converter fieldValuePointer mappedValue with
          | .error err =>
            .ret (.error ⟨"Failed to map record, unable convert,dur to " ++ err.Error⟩)
          | .ok v => .ret (.ok (st.write (some (Loc.field fieldValuePointer.name)) v))
      | none =>
        .ret (.error ⟨"Failed to map record, unable to find valid mapping, want one of "
          ++ fmtStringMap valueMap ++ ", but had " ++ stringValue⟩)

/-- The method `applyFieldMapValuesIfNeeded`, on the entries of
`fieldsValueMap` in the order the `range` yields them: the store at return,
and the error returned. -/
def applyFieldMapValuesIfNeeded (env : Env) (rm : metaRecordMapper) (structType : GoType) :
    List (String × Nat) → Store → Outcome (Store × Option GoError)
  | [], st => .ret (st, none)
  | (key, rawValue) :: rest, st =>
    match applyFieldMapValue env rm structType st key rawValue with
    | .panic m => .panic m
    | .ret (.error err) => .ret (st, some err)
    | .ret (.ok st1) => applyFieldMapValuesIfNeeded env rm structType rest st1

/-- The loop of `scanData` that fills `fieldValuePointers` (lines 112-128):
`.ok` with the targets when every column is bound, `.error` when the loop
returns an error. -/
def bindTargets (env : Env) (rm : metaRecordMapper) (structType : GoType)
    (fieldsValueMap : List (String × Nat)) :
    List String → Outcome (Except GoError (List Target))
  | [] => .ret (.ok [])
  | key :: rest =>
    match rm.columnToFieldMap.lookup (env.ToLower key) with
    | some fieldMapping =>
      let fieldName := (fieldMapping.lookup "fieldName").getD ""
      match FieldByName structType fieldName with
      | .panic m => .panic m
      | .ret field =>
        let continueWith (target : Target) : Outcome (Except GoError (List Target)) :=
          match bindTargets env rm structType fieldsValueMap rest with
          | .panic m => .panic m
          | .ret (.error err) => .ret (.error err)
          | .ret (.ok targets) => .ret (.ok (target :: targets))
        if (fieldMapping.lookup "valueMap").isSome then
          continueWith ((fieldsValueMap.lookup key).map Loc.slot)
        else
          match fieldAddr field with
          | .panic m => .panic m
          | .ret p => continueWith (some (Loc.field p.name))
    | none => .ret (.error ⟨"Unable map column " ++ key ++ " to the result"⟩)

/-- The method `scanData`. -/
def scanData (env : Env) (rm : metaRecordMapper) (scanner : Scanner) :
    Outcome (Result × Option GoError) :=
  match env.DiscoverTypeByKind rm.structType Kind.Struct with
  | .panic m => .panic m
  | .ret structType =>
    let columns := scanner.Columns.1
    let hasFieldValueMap := decide (getValueMappingCount env rm columns > 0)
    let allocated : Outcome (List (String × Nat) × List Value) :=
      if hasFieldValueMap then allocateValueMapByKey env rm columns else .ret ([], [])
    match allocated with
    | .panic m => .panic m
    | .ret (fieldsValueMap, valuesPointers) =>
      match bindTargets env rm structType fieldsValueMap columns with
      | .panic m => .panic m
      | .ret (.error err) => .ret (Result.nil, some err)
      | .ret (.ok fieldValuePointers) =>
        let st0 : Store := { fields := zeroFields structType, slots := valuesPointers }
        let st1 := applyWrites fieldValuePointers st0 (scanner.Scan fieldValuePointers).1
        match (scanner.Scan fieldValuePointers).2 with
        | some err => .ret (Result.nil, some err)
        | none =>
          let applied : Outcome (Store × Option GoError) :=
            if hasFieldValueMap then
              applyFieldMapValuesIfNeeded env rm structType (env.mapRange fieldsValueMap) st1
            else .ret (st1, none)
          match applied with
          | .panic m => .panic m
          | .ret (_, some err) => .ret (Result.nil, some err)
          | .ret (st2, none) =>
            if !rm.usePointer then .ret (Result.structValue st2.fields, none)
            else .ret (Result.structPointer st2.fields, none)

/-- The method `metaRecordMapper.Map`. -/
def metaRecordMapper.Map (env : Env) (rm : metaRecordMapper) (scanner : Scanner) :
    Outcome (Result × Option GoError) :=
  scanData env rm scanner

/-! ## The row extractor and the columnar mapper -/

/-- The conversion of lines 226-234: a `[]byte` becomes the text `string(b)`,
any other value is passed through. -/
def bytesToText : Value → Value
  | .bytes b => .str b
  | v => v

/-- The loop of lines 216-218: `valuePointers[i] = &rowValues[i]`. -/
def rowTargets (count : Nat) : List Target :=
  (List.range count).map fun i => some (Loc.slot i)

/-- The function `ScanRow`; `none` is a nil slice or a nil error. -/
def ScanRow (scanner : Scanner) :
    Option (List Value) × Option (List String) × Option GoError :=
  let columns := scanner.Columns.1
  let count := columns.length
  let valuePointers : List Target := rowTargets count
  let st0 : Store := { fields := [], slots := List.replicate count Value.nil }
  let st1 := applyWrites valuePointers st0 (scanner.Scan valuePointers).1
  match (scanner.Scan valuePointers).2 with
  | some err => (none, none, some ⟨"Failed to scan row due to " ++ err.Error⟩)
  | none => (some (st1.slots.map bytesToText), some columns, none)

/-- The method `columnarRecordMapper.Map`. -/
def columnarRecordMapper.Map (rm : columnarRecordMapper) (scanner : Scanner) :
    Outcome (Result × Option GoError) :=
  match ScanRow scanner with
  | (_, _, some err) => .ret (Result.nil, some err)
  | (result, _, none) =>
    let value : Result :=
      match result with
      | some vs => Result.values vs
      | none => Result.nil
    if rm.usePointer then .ret (value, none) else .ret (value, none)

/-! ## Vocabulary of the statements -/

/-- The descriptor of a column: `columnToFieldMap[strings.ToLower(key)]`, the
empty map when there is no entry. -/
def descriptorOf (env : Env) (rm : metaRecordMapper) (key : String) : List (String × String) :=
  (rm.columnToFieldMap.lookup (env.ToLower key)).getD []

/-- Whether the lower-cased column name has an entry in `columnToFieldMap`. -/
def isMapped (env : Env) (rm : metaRecordMapper) (key : String) : Bool :=
  (rm.columnToFieldMap.lookup (env.ToLower key)).isSome

/-- The field name of the descriptor of a column. -/
def fieldNameOf (env : Env) (rm : metaRecordMapper) (key : String) : String :=
  ((descriptorOf env rm key).lookup "fieldName").getD ""

/-- The translation table of a column, parsed from its `valueMap` setting. -/
def valueMapOf (env : Env) (rm : metaRecordMapper) (key : String) : List (String × String) :=
  env.MakeStringMap (((descriptorOf env rm key).lookup "valueMap").getD "") ":" ","

/-- The field of the struct with the given name, if any. -/
def findField (fs : List Field) (name : String) : Option Field :=
  fs.find? fun f => f.name == name

/-- Whether a pointer to the named field can be taken through `reflect`: the
field exists and is exported. -/
def usableField (fs : List Field) (name : String) : Bool :=
  match findField fs name with
  | some f => f.exported
  | none => false

/-- The mapper's `structType` resolves to the struct `name` with the fields
`fs`: `toolbox.DiscoverTypeByKind(rm.structType, reflect.Struct)` on line 100
returns that type. -/
abbrev StructOf (env : Env) (rm : metaRecordMapper) (name : String) (fs : List Field) : Prop :=
  env.DiscoverTypeByKind rm.structType Kind.Struct = .ret (.struct name fs)

/-- Every mapped column of the list that carries no translation table names an
exported field of the struct, so that `field.Addr().Interface()` on line 123
returns a pointer for it. The descriptors the field metadata resolver makes
cover the unexported fields of the struct as well, so this is a condition on
the columns of a row, not a property of every mapper. -/
abbrev PlainExported (env : Env) (rm : metaRecordMapper) (fs : List Field)
    (columns : List String) : Prop :=
  ∀ key ∈ columns, isMapped env rm key = true → hasValueMap env rm key = false →
    usableField fs (fieldNameOf env rm key) = true

/-- Every mapped column of the list names an exported field of the struct
(lines 85 and 123). -/
abbrev ExportedFields (env : Env) (rm : metaRecordMapper) (fs : List Field)
    (columns : List String) : Prop :=
  ∀ key ∈ columns, isMapped env rm key = true →
    usableField fs (fieldNameOf env rm key) = true

/-- The record as `scanData` returns it: by value, or as a pointer. -/
def wrapRecord (usePointer : Bool) (fields : List (String × Value)) : Result :=
  if !usePointer then Result.structValue fields else Result.structPointer fields

/-- The content of a location of the store; nil when there is none. -/
def Store.read (st : Store) : Loc → Value
  | .field n => (st.fields.lookup n).getD Value.nil
  | .slot i => st.slots.getD i Value.nil

/-- Whether the store has the location. -/
def Store.has (st : Store) : Loc → Bool
  | .field n => (st.fields.lookup n).isSome
  | .slot i => decide (i < st.slots.length)

/-- The value of the last write of a scan through the target at position
`i`, if there is one. -/
def lastWrite : List (Nat × Value) → Nat → Option Value
  | [], _ => none
  | (j, v) :: rest, i =>
    match lastWrite rest i with
    | some w => some w
    | none => if j = i then some v else none

/-- The scan target `scanData` binds to a mapped column (lines 114-123): the
holder of the column when its descriptor carries a `valueMap`, the storage of
its field otherwise. -/
def boundTarget (env : Env) (rm : metaRecordMapper) (fieldsValueMap : List (String × Nat))
    (key : String) : Target :=
  if hasValueMap env rm key then (fieldsValueMap.lookup key).map Loc.slot
  else some (Loc.field (fieldNameOf env rm key))

/-- The holders `scanData` allocates for a row (`fieldsValueMap`). -/
def holdersOf (env : Env) (rm : metaRecordMapper) (columns : List String) : List (String × Nat) :=
  match allocateValueMapByKey env rm columns with
  | .ret (m, _) => m
  | .panic _ => []

/-- The scan targets `scanData` binds for a row (`fieldValuePointers`). -/
def targetsOf (env : Env) (rm : metaRecordMapper) (structType : GoType)
    (columns : List String) : List Target :=
  match bindTargets env rm structType (holdersOf env rm columns) columns with
  | .ret (.ok ts) => ts
  | _ => []

/-- The store after the scan of a row: the zero struct instance and the nil
holders, updated by the writes of the scanner. -/
def scannedStore (env : Env) (rm : metaRecordMapper) (structType : GoType)
    (scanner : Scanner) : Store :=
  let ts := targetsOf env rm structType scanner.Columns.1
  applyWrites ts
    { fields := zeroFields structType
      slots := List.replicate (getValueMappingCount env rm scanner.Columns.1) Value.nil }
    (scanner.Scan ts).1

/-- The raw value the holder of a translated column contains after the scan. -/
def rawValueOf (env : Env) (rm : metaRecordMapper) (structType : GoType)
    (scanner : Scanner) (key : String) : Value :=
  match (holdersOf env rm scanner.Columns.1).lookup key with
  | some idx => (scannedStore env rm structType scanner).slots.getD idx Value.nil
  | none => Value.nil

/-- The value the scanner delivers for the column at position `i` of the row:
the last value it writes through the scan target at that position, nil when
it writes none. -/
def deliveredAt (env : Env) (rm : metaRecordMapper) (structType : GoType)
    (scanner : Scanner) (i : Nat) : Value :=
  (lastWrite (scanner.Scan (targetsOf env rm structType scanner.Columns.1)).1 i).getD Value.nil

/-- The value the scanner delivers for a column of the row: what it delivers
at the first position where the row has the column. -/
def deliveredFor (env : Env) (rm : metaRecordMapper) (structType : GoType)
    (scanner : Scanner) (key : String) : Value :=
  deliveredAt env rm structType scanner (scanner.Columns.1.indexOf key)

/-- The translation step finds a replacement for the raw value of the holder
and takes the address of the field (line 85): the raw value is not nil and its
text is a key of the table of the column. -/
def isHit (env : Env) (rm : metaRecordMapper) (key : String) (raw : Value) : Bool :=
  decide (raw ≠ Value.nil) && ((valueMapOf env rm key).lookup (textOf env raw)).isSome

/-- What the translation step does with the holder of a column whose raw value
is `raw`: returns an error, leaves the field alone (`none`), or assigns a
value to the field. -/
def translate (env : Env) (rm : metaRecordMapper) (fs : List Field) (key : String)
    (raw : Value) : Except GoError (Option Value) :=
  if raw = Value.nil then
    if fieldKind (findField fs (fieldNameOf env rm key)) ≠ Kind.Ptr then
      .error ⟨"Failed to apply value map on " ++ fieldNameOf env rm key ++ ", unable to set nil"⟩
    else .ok none
  else
    match (valueMapOf env rm key).lookup (textOf env raw) with
    | some mappedValue =>
      match findField fs (fieldNameOf env rm key) with
      | none => .ok none
      | some f =>
        match env.AssignConverted rm.converter f mappedValue with
        | .error err => .error ⟨"Failed to map record, unable convert,dur to " ++ err.Error⟩
        | .ok v => .ok (some v)
    | none =>
      .error ⟨"Failed to map record, unable to find valid mapping, want one of "
        ++ fmtStringMap (valueMapOf env rm key) ++ ", but had " ++ textOf env raw⟩

/-- The translation step accepts the holder: it returns no error for it. -/
def accepted (env : Env) (rm : metaRecordMapper) (fs : List Field) (key : String)
    (raw : Value) : Bool :=
  match translate env rm fs key raw with
  | .ok _ => true
  | .error _ => false

/-- The error the translation step returns when it visits the holders in the
given order: the error of the first holder it does not accept. -/
def firstError (env : Env) (rm : metaRecordMapper) (fs : List Field) (slots : List Value) :
    List (String × Nat) → Option GoError
  | [] => none
  | (key, idx) :: rest =>
    match translate env rm fs key (slots.getD idx Value.nil) with
    | .error err => some err
    | .ok _ => firstError env rm fs slots rest

/-- The fields of the struct instance once the translation step has visited
the holders in the given order, from the fields after the scan. -/
def assignAll (env : Env) (rm : metaRecordMapper) (fs : List Field) (slots : List Value) :
    List (String × Nat) → List (String × Value) → List (String × Value)
  | [], fields => fields
  | (key, idx) :: rest, fields =>
    match translate env rm fs key (slots.getD idx Value.nil) with
    | .ok (some v) =>
      assignAll env rm fs slots rest (setField fields (fieldNameOf env rm key) v)
    | _ => assignAll env rm fs slots rest fields

/-- The store with every byte sequence in a holder replaced by its text. -/
def Store.asText (st : Store) : Store :=
  { st with slots := st.slots.map bytesToText }

/-- The text of the translation-miss error of a column for a raw value. -/
def missMessage (env : Env) (rm : metaRecordMapper) (key : String) (raw : Value) : String :=
  "Failed to map record, unable to find valid mapping, want one of "
    ++ fmtStringMap (valueMapOf env rm key) ++ ", but had " ++ textOf env raw

/-- The text of the cannot-assign-nil error of a column. -/
def nilMessage (env : Env) (rm : metaRecordMapper) (key : String) : String :=
  "Failed to apply value map on " ++ fieldNameOf env rm key ++ ", unable to set nil"

/-- A scan that differs from the one of `Scan` only in that a byte sequence
written through the target at position `i` is written as its text. -/
def textAt (i : Nat) (writes : List (Nat × Value)) : List (Nat × Value) :=
  writes.map fun w => if w.1 = i then (w.1, bytesToText w.2) else w

/-! ## Sample data -/

/-- A lower-casing of the ASCII letters. -/
def demoToLower (s : String) : String := ⟨s.data.map Char.toLower⟩

/-- A sample of `toolbox.DiscoverTypeByKind`: the type itself when it has the
kind, else the search goes on in the element of a pointer or of a slice. -/
def demoDiscoverTypeByKind : GoType → Kind → Outcome GoType
  | .ptr e, k => if k = Kind.Ptr then .ret (.ptr e) else demoDiscoverTypeByKind e k
  | .slice e, k => if k = Kind.Slice then .ret (.slice e) else demoDiscoverTypeByKind e k
  | t, k =>
    if t.Kind = k then .ret t
    else .panic ("failed to discover type by kind " ++ kindText k ++ ", on " ++ t.String ++ ":")

/-- A sample of `toolbox.NewFieldSettingByKey` for fields without tags: one
descriptor per field of the struct, exported or not, under the lower-cased
name of the field. -/
def demoFieldSetting : GoType → ColumnMap
  | .struct _ fs => fs.map fun f => (demoToLower f.name, [("fieldName", f.name)])
  | .ptr e => demoFieldSetting e
  | .slice e => demoFieldSetting e
  | _ => []

/-- A sample environment: the collaborators on the inputs of the samples. The
conversion of `AssignConverted` is the one for a string field, which takes the
text; for a field of another kind the converted value is kept as the text it
is converted from. The holders are visited in the order of the entries. -/
def demoEnv : Env where
  ToLower := demoToLower
  NewColumnConverter := fun layout => ⟨layout⟩
  NewFieldSettingByKey := fun t _ => demoFieldSetting t
  DiscoverTypeByKind := demoDiscoverTypeByKind
  AsString := fun v =>
    match v with
    | .str s => s
    | .bytes b => b
    | .int n => toString n
    | .bool b => if b then "true" else "false"
    | .other tag => tag
    | .nil => "<nil>"
  MakeStringMap := fun text _ _ =>
    if text = "1:ACTIVE,0:INACTIVE" then [("1", "ACTIVE"), ("0", "INACTIVE")]
    else if text = "A:alpha,B:beta" then [("A", "alpha"), ("B", "beta")]
    else []
  AssignConverted := fun _ f s =>
    if f.kind = Kind.String then .ok (.str s) else .ok (.other s)
  mapRange := fun m => m

/-- The sample environment with the holders visited in the given order. -/
def demoEnvWith (order : List (String × Nat) → List (String × Nat)) : Env :=
  { demoEnv with mapRange := order }

/-- A sample struct type with four exported fields. -/
def userFields : List Field :=
  [⟨"Id", Kind.Int, true⟩, ⟨"Status", Kind.String, true⟩, ⟨"Kind", Kind.String, true⟩,
   ⟨"Note", Kind.Ptr, true⟩]

/-- The sample struct type. -/
def userType : GoType := .struct "User" userFields

/-- A sample structured mapper for `userType`: `status`, `kind` and `note` are
translated columns. -/
def userMapper : metaRecordMapper where
  converter := ⟨""⟩
  structType := userType
  usePointer := false
  columnToFieldMap :=
    [("id", [("fieldName", "Id")]),
     ("status", [("fieldName", "Status"), ("valueMap", "1:ACTIVE,0:INACTIVE")]),
     ("kind", [("fieldName", "Kind"), ("valueMap", "A:alpha,B:beta")]),
     ("note", [("fieldName", "Note"), ("valueMap", "1:ACTIVE,0:INACTIVE")])]

/-- A sample struct type without translated fields. -/
def personFields : List Field :=
  [⟨"Id", Kind.Int, true⟩, ⟨"Name", Kind.String, true⟩, ⟨"Age", Kind.Int, true⟩]

/-- A sample structured mapper for the struct `Person`, returning pointers. -/
def personMapper : metaRecordMapper where
  converter := ⟨""⟩
  structType := .struct "Person" personFields
  usePointer := true
  columnToFieldMap :=
    [("id", [("fieldName", "Id")]), ("name", [("fieldName", "Name")]),
     ("age", [("fieldName", "Age")])]

/-- A sample struct type whose field `id` is not exported. -/
def ledgerFields : List Field :=
  [⟨"id", Kind.Int, false⟩, ⟨"Name", Kind.String, true⟩]

/-- The sample struct type `Ledger`. -/
def ledgerType : GoType := .struct "Ledger" ledgerFields

/-- The structured mapper the factory builds for `ledgerType` in the sample
environment. -/
def ledgerMapper : metaRecordMapper where
  converter := ⟨""⟩
  structType := ledgerType
  usePointer := false
  columnToFieldMap := [("id", [("fieldName", "id")]), ("name", [("fieldName", "Name")])]

/-- A sample struct type whose fields `id` and `state` are not exported. -/
def accountFields : List Field :=
  [⟨"id", Kind.Int, false⟩, ⟨"Name", Kind.String, true⟩, ⟨"state", Kind.String, false⟩,
   ⟨"Kind", Kind.String, true⟩]

/-- The sample struct type `Account`. -/
def accountType : GoType := .struct "Account" accountFields

/-- A sample structured mapper for `accountType`, with a descriptor for every
field: `state` and `kind` are translated columns. -/
def accountMapper : metaRecordMapper where
  converter := ⟨""⟩
  structType := accountType
  usePointer := false
  columnToFieldMap :=
    [("id", [("fieldName", "id")]), ("name", [("fieldName", "Name")]),
     ("state", [("fieldName", "state"), ("valueMap", "1:ACTIVE,0:INACTIVE")]),
     ("kind", [("fieldName", "Kind"), ("valueMap", "A:alpha,B:beta")])]

/-- A sample scanner: the given columns, one write per value in column order,
no error. -/
def rowScanner (columns : List String) (values : List Value) : Scanner where
  Columns := (columns, none)
  Scan := fun _ => ((List.range values.length).zip values, none)

/-- A sample scanner whose `Columns` and `Scan` both report an error. -/
def failingScanner (columns : List String) (cause : String) : Scanner where
  Columns := (columns, some ⟨"columns unavailable"⟩)
  Scan := fun _ => ([], some ⟨cause⟩)

/-! ## Calls made while a row is mapped -/

/-- A call `scanData` makes while it maps a row: `scanner.Scan(dest...)` with
its targets, or `rm.applyFieldMapValuesIfNeeded` with the holders. -/
inductive Event where
  | scan (dest : List Target)
  | applyFieldMapValues (fieldsValueMap : List (String × Nat))
  deriving DecidableEq, Repr

/-- The method `scanData` together with the calls to `Scan` and to
`applyFieldMapValuesIfNeeded` it makes, in order. -/
def scanDataTraced (env : Env) (rm : metaRecordMapper) (scanner : Scanner) :
    List Event × Outcome (Result × Option GoError) :=
  match env.DiscoverTypeByKind rm.structType Kind.Struct with
  | .panic m => ([], .panic m)
  | .ret structType =>
    let columns := scanner.Columns.1
    let hasFieldValueMap := decide (getValueMappingCount env rm columns > 0)
    let allocated : Outcome (List (String × Nat) × List Value) :=
      if hasFieldValueMap then allocateValueMapByKey env rm columns else .ret ([], [])
    match allocated with
    | .panic m => ([], .panic m)
    | .ret (fieldsValueMap, valuesPointers) =>
      match bindTargets env rm structType fieldsValueMap columns with
      | .panic m => ([], .panic m)
      | .ret (.error err) => ([], .ret (Result.nil, some err))
      | .ret (.ok fieldValuePointers) =>
        let st0 : Store := { fields := zeroFields structType, slots := valuesPointers }
        let st1 := applyWrites fieldValuePointers st0 (scanner.Scan fieldValuePointers).1
        match (scanner.Scan fieldValuePointers).2 with
        | some err => ([Event.scan fieldValuePointers], .ret (Result.nil, some err))
        | none =>
          let finish (st2 : Store) : Outcome (Result × Option GoError) :=
            if !rm.usePointer then .ret (Result.structValue st2.fields, none)
            else .ret (Result.structPointer st2.fields, none)
          if hasFieldValueMap then
            match applyFieldMapValuesIfNeeded env rm structType (env.mapRange fieldsValueMap)
                st1 with
            | .panic m =>
              ([Event.scan fieldValuePointers, Event.applyFieldMapValues fieldsValueMap],
                .panic m)
            | .ret (_, some err) =>
              ([Event.scan fieldValuePointers, Event.applyFieldMapValues fieldsValueMap],
                .ret (Result.nil, some err))
            | .ret (st2, none) =>
              ([Event.scan fieldValuePointers, Event.applyFieldMapValues fieldsValueMap],
                finish st2)
          else ([Event.scan fieldValuePointers], finish st1)

/-- The calls to `Scan` among the calls of a run, by their targets. -/
def scanCalls : List Event → List (List Target)
  | [] => []
  | Event.scan dest :: rest => dest :: scanCalls rest
  | Event.applyFieldMapValues _ :: rest => scanCalls rest

/-- The calls to `applyFieldMapValuesIfNeeded` among the calls of a run. -/
def applyCalls : List Event → List (List (String × Nat))
  | [] => []
  | Event.scan _ :: rest => applyCalls rest
  | Event.applyFieldMapValues m :: rest => m :: applyCalls rest

/-- A sample scanner whose `Scan` writes the given values and then fails. -/
def brokenScanner (columns : List String) (values : List Value) (cause : String) : Scanner where
  Columns := (columns, none)
  Scan := fun _ => ((List.range values.length).zip values, some ⟨cause⟩)

/-! ## Holders and targets of a row with distinct column names -/

/-- The holders of the translated columns of a column list, one slot each,
numbered in column order from `index`. -/
def holdersFrom (env : Env) (rm : metaRecordMapper) : Nat → List String → List (String × Nat)
  | _, [] => []
  | index, key :: rest =>
    if hasValueMap env rm key then (key, index) :: holdersFrom env rm (index + 1) rest
    else holdersFrom env rm index rest

/-- The scan targets of a column list, in column order: for a translated column
the next slot, numbered from `index`, for another column the storage of its
field. -/
def targetsFrom (env : Env) (rm : metaRecordMapper) : Nat → List String → List Target
  | _, [] => []
  | index, key :: rest =>
    if hasValueMap env rm key then
      some (Loc.slot index) :: targetsFrom env rm (index + 1) rest
    else some (Loc.field (fieldNameOf env rm key)) :: targetsFrom env rm index rest

/-- What the translation step does to the fields for one holder. -/
def assignStep (env : Env) (rm : metaRecordMapper) (fs : List Field) (slots : List Value)
    (fields : List (String × Value)) (e : String × Nat) : List (String × Value) :=
  match translate env rm fs e.1 (slots.getD e.2 Value.nil) with
  | .ok (some v) => setField fields (fieldNameOf env rm e.1) v
  | _ => fields

/-- The text of the unmapped-column error for a column. -/
def unmappedMessage (key : String) : String :=
  "Unable map column " ++ key ++ " to the result"

/-- A holder with the name of its column lower-cased: the column up to letter
case, and the slot. -/
def lowerKey (env : Env) (e : String × Nat) : String × Nat :=
  (env.ToLower e.1, e.2)

/-! ## Calls of `Map` on a shared heap -/

/-- The memory the calls of `Map` share: the mapper the receiver `rm` points
to, and the frames allocated so far. A frame is the memory one call of
`scanData` allocates, the struct instance made by `reflect.New` (line 101)
with the holders `valuesPointers` (line 46); its address is its position in
`frames`. -/
structure Heap where
  mapper : metaRecordMapper
  frames : List Store
  deriving DecidableEq, Repr

/-- A pointer into the heap: the address of a frame and a location in it. -/
structure Ptr where
  addr : Nat
  loc : Loc
  deriving DecidableEq, Repr

/-- The frames with the frame at the given address replaced by its image. -/
def updateAt : List Store → Nat → (Store → Store) → List Store
  | [], _, _ => []
  | st :: rest, 0, f => f st :: rest
  | st :: rest, n + 1, f => st :: updateAt rest n f

/-- A store through a pointer, into the frame the pointer refers to; nothing
can be stored through nil. -/
def Heap.write (h : Heap) : Option Ptr → Value → Heap
  | none, _ => h
  | some p, v => { h with frames := updateAt h.frames p.addr fun st => st.write (some p.loc) v }

/-- The content of the location a pointer refers to; nil when there is none. -/
def Heap.read (h : Heap) (p : Ptr) : Value :=
  match h.frames[p.addr]? with
  | some st => st.read p.loc
  | none => Value.nil

/-- The effect of a scan on the heap: its writes, in order, each through the
pointer at its position of `dest`. -/
def Heap.applyWrites (dest : List (Option Ptr)) (h : Heap) : List (Nat × Value) → Heap
  | [] => h
  | (j, v) :: rest => Heap.applyWrites dest (h.write (dest.getD j none) v) rest

/-- The value `scanData` returns as its first result, on the heap: nil, a copy
of the struct instance, or the pointer to it. -/
inductive HeapResult where
  | nil
  | structValue (fields : List (String × Value))
  | structPointer (addr : Nat)
  deriving DecidableEq, Repr

/-- The body of the loop of `applyFieldMapValuesIfNeeded` on the heap, for one
entry of `fieldsValueMap`: `structPointer` is the address of the struct
instance and `rawValue` the pointer to the holder; `none` continues with the
next entry, an error returns. -/
def applyFieldMapValueOn (env : Env) (structType : GoType) (h : Heap) (structPointer : Nat)
    (key : String) (rawValue : Ptr) : Heap × Outcome (Option GoError) :=
  let valueMapping := (h.mapper.columnToFieldMap.lookup (env.ToLower key)).getD []
  let fieldName := (valueMapping.lookup "fieldName").getD ""
  match FieldByName structType fieldName with
  | .panic m => (h, .panic m)
  | .ret field =>
    let unwrappedValue := h.read rawValue
    if unwrappedValue = Value.nil then
      if fieldKind field ≠ Kind.Ptr then
        (h, .ret (some ⟨"Failed to apply value map on " ++ fieldName ++ ", unable to set nil"⟩))
      else (h, .ret none)
    else
      let valueMap := env.MakeStringMap ((valueMapping.lookup "valueMap").getD "") ":" ","
      let stringValue := textOf env unwrappedValue
      match valueMap.lookup stringValue with
      | some mappedValue =>
        match fieldAddr field with
        | .panic m => (h, .panic m)
        | .ret fieldValuePointer =>
          match env.AssignConverted h.mapper.converter fieldValuePointer mappedValue with
          | .error err =>
            (h, .ret (some ⟨"Failed to map record, unable convert,dur to " ++ err.Error⟩))
          | .ok v =>
            (h.write (some ⟨structPointer, Loc.field fieldValuePointer.name⟩) v, .ret none)
      | none =>
        (h, .ret (some ⟨"Failed to map record, unable to find valid mapping, want one of "
          ++ fmtStringMap valueMap ++ ", but had " ++ stringValue⟩))

/-- The method `applyFieldMapValuesIfNeeded` on the heap, on the entries of
`fieldsValueMap` in the order the `range` yields them. -/
def applyFieldMapValuesIfNeededOn (env : Env) (structType : GoType) (structPointer : Nat) :
    List (String × Ptr) → Heap → Heap × Outcome (Option GoError)
  | [], h => (h, .ret none)
  | (key, rawValue) :: rest, h =>
    match applyFieldMapValueOn env structType h structPointer key rawValue with
    | (h1, .panic m) => (h1, .panic m)
    | (h1, .ret (some err)) => (h1, .ret (some err))
    | (h1, .ret none) => applyFieldMapValuesIfNeededOn env structType structPointer rest h1

/-- The method `scanData` as a step on the heap: the heap after the call and
what the call returns. The call reads the mapper through its receiver and
assigns to no field of it; it allocates one frame, at the next free address,
and every pointer it makes (lines 52, 85, 123) points into that frame. The
scanner is given its targets as locations of the frame of the call. -/
def scanDataOn (env : Env) (h : Heap) (scanner : Scanner) :
    Heap × Outcome (HeapResult × Option GoError) :=
  match env.DiscoverTypeByKind h.mapper.structType Kind.Struct with
  | .panic m => (h, .panic m)
  | .ret structType =>
    let structPointer := h.frames.length
    let columns := scanner.Columns.1
    let hasFieldValueMap := decide (getValueMappingCount env h.mapper columns > 0)
    let allocated : Outcome (List (String × Nat) × List Value) :=
      if hasFieldValueMap then allocateValueMapByKey env h.mapper columns else .ret ([], [])
    match allocated with
    | .panic m =>
      ({ h with frames := h.frames ++ [{ fields := zeroFields structType, slots := [] }] },
        .panic m)
    | .ret (fieldsValueMap, valuesPointers) =>
      let h0 : Heap :=
        { h with
          frames := h.frames ++ [{ fields := zeroFields structType, slots := valuesPointers }] }
      match bindTargets env h0.mapper structType fieldsValueMap columns with
      | .panic m => (h0, .panic m)
      | .ret (.error err) => (h0, .ret (HeapResult.nil, some err))
      | .ret (.ok fieldValuePointers) =>
        let dest : List (Option Ptr) := fieldValuePointers.map (Option.map (Ptr.mk structPointer))
        let h1 := Heap.applyWrites dest h0 (scanner.Scan fieldValuePointers).1
        match (scanner.Scan fieldValuePointers).2 with
        | some err => (h1, .ret (HeapResult.nil, some err))
        | none =>
          let applied : Heap × Outcome (Option GoError) :=
            if hasFieldValueMap then
              applyFieldMapValuesIfNeededOn env structType structPointer
                ((env.mapRange fieldsValueMap).map fun e =>
                  (e.1, Ptr.mk structPointer (Loc.slot e.2))) h1
            else (h1, .ret none)
          match applied with
          | (h2, .panic m) => (h2, .panic m)
          | (h2, .ret (some err)) => (h2, .ret (HeapResult.nil, some err))
          | (h2, .ret none) =>
            if !h2.mapper.usePointer then
              (h2, .ret (HeapResult.structValue
                ((h2.frames.getD structPointer { fields := [], slots := [] }).fields), none))
            else (h2, .ret (HeapResult.structPointer structPointer, none))

/-- What the caller sees of a result on a heap: a pointer to a struct instance
is read through. -/
def Heap.observe (h : Heap) :
    Outcome (HeapResult × Option GoError) → Outcome (Result × Option GoError)
  | .panic m => .panic m
  | .ret (HeapResult.nil, e) => .ret (Result.nil, e)
  | .ret (HeapResult.structValue fields, e) => .ret (Result.structValue fields, e)
  | .ret (HeapResult.structPointer addr, e) =>
    .ret (Result.structPointer ((h.frames.getD addr { fields := [], slots := [] }).fields), e)

/-- A sample scanner that writes nothing and returns no error. -/
def silentScanner (columns : List String) : Scanner where
  Columns := (columns, none)
  Scan := fun _ => ([], none)

/-! ## The mapper factory -/

/-- Every type whose kind is none of Struct, Slice and Ptr makes
`NewRecordMapper` panic with the unsupported-type message. -/
theorem NewRecordMapper_panics_of_other_kind (env : Env) (t : GoType)
    (h1 : t.Kind ≠ Kind.Struct) (h2 : t.Kind ≠ Kind.Slice) (h3 : t.Kind ≠ Kind.Ptr) :
    NewRecordMapper env t = .panic ("Unsupported type: " ++ t.Name) := by
  cases t with
  | leaf k n => cases k <;> rfl
  | struct n fs => exact absurd rfl h1
  | ptr e => exact absurd rfl h3
  | slice e => exact absurd rfl h2
  | array n e => rfl
  | chan e => rfl
  | map k e => rfl

/-- The case `reflect.Ptr` of the switch of `NewRecordMapper`. -/
theorem NewRecordMapper_ptr (env : Env) (elem : GoType) :
    NewRecordMapper env (.ptr elem) =
      if elem.Kind = Kind.Slice then .ret (some (NewColumnarRecordMapper true elem))
      else if elem.Kind = Kind.Struct then
        .ret (some (.meta
          { converter := env.NewColumnConverter ""
            structType := elem
            usePointer := true
            columnToFieldMap := env.NewFieldSettingByKey (.ptr elem) "column" }))
      else .ret none := by
  cases elem with
  | leaf k n => cases k <;> rfl
  | _ => rfl

/-- Every pointer type whose element is neither a slice nor a struct makes
`NewRecordMapper` return the nil mapper, without a panic. -/
theorem NewRecordMapper_nil_of_pointer_to_other (env : Env) (elem : GoType)
    (h1 : elem.Kind ≠ Kind.Slice) (h2 : elem.Kind ≠ Kind.Struct) :
    NewRecordMapper env (.ptr elem) = .ret none := by
  rw [NewRecordMapper_ptr, if_neg h1, if_neg h2]

/-- C1 (the code at the failing input): for the destination type pointer-to-int
`NewRecordMapper` does not panic; it returns normally, with the nil mapper. -/
theorem NewRecordMapper_pointer_to_int_returns_nil (env : Env) :
    NewRecordMapper env (.ptr (.leaf LeafKind.Int "int")) = .ret none :=
  NewRecordMapper_nil_of_pointer_to_other env _ (by decide) (by decide)

/-- C2: `NewRecordMapper` selects the mapper by the shape of the destination
type: a struct type gives a `metaRecordMapper` with `usePointer = false` and
`structType` the type; a slice type gives a `columnarRecordMapper` with
`usePointer = false` and `targetSlice` the type; a pointer to a slice gives a
`columnarRecordMapper` with `usePointer = true` and `targetSlice` the element
type; a pointer to a struct gives a `metaRecordMapper` with `usePointer = true`
and `structType` the element type. -/
theorem NewRecordMapper_selects_by_shape (env : Env) (t : GoType) :
    (t.Kind = Kind.Struct →
      ∃ rm, NewRecordMapper env t = .ret (some (.meta rm)) ∧
        rm.usePointer = false ∧ rm.structType = t) ∧
    (t.Kind = Kind.Slice →
      ∃ rm, NewRecordMapper env t = .ret (some (.columnar rm)) ∧
        rm.usePointer = false ∧ rm.targetSlice = t) ∧
    (∀ elem, t = .ptr elem → elem.Kind = Kind.Slice →
      ∃ rm, NewRecordMapper env t = .ret (some (.columnar rm)) ∧
        rm.usePointer = true ∧ rm.targetSlice = elem) ∧
    (∀ elem, t = .ptr elem → elem.Kind = Kind.Struct →
      ∃ rm, NewRecordMapper env t = .ret (some (.meta rm)) ∧
        rm.usePointer = true ∧ rm.structType = elem) := by
  refine ⟨?_, ?_, ?_, ?_⟩
  · intro h
    cases t with
    | leaf k n => cases k <;> simp [GoType.Kind, LeafKind.toKind] at h
    | struct n fs => exact ⟨_, rfl, rfl, rfl⟩
    | _ => simp [GoType.Kind] at h
  · intro h
    cases t with
    | leaf k n => cases k <;> simp [GoType.Kind, LeafKind.toKind] at h
    | slice e => exact ⟨_, rfl, rfl, rfl⟩
    | _ => simp [GoType.Kind] at h
  · intro elem ht he
    subst ht
    refine ⟨⟨true, elem⟩, ?_, rfl, rfl⟩
    rw [NewRecordMapper_ptr, if_pos he]
    rfl
  · intro elem ht he
    subst ht
    have hne : elem.Kind ≠ Kind.Slice := by rw [he]; decide
    refine ⟨⟨env.NewColumnConverter "", elem, env.NewFieldSettingByKey (.ptr elem) "column",
      true⟩, ?_, rfl, rfl⟩
    rw [NewRecordMapper_ptr, if_neg hne, if_pos he]

/-- C2 at sample types: the four supported shapes of `userType`. -/
theorem NewRecordMapper_selects_by_shape_witness :
    (∃ rm, NewRecordMapper demoEnv userType = .ret (some (.meta rm)) ∧
        rm.usePointer = false ∧ rm.structType = userType) ∧
    (∃ rm, NewRecordMapper demoEnv (.slice userType) = .ret (some (.columnar rm)) ∧
        rm.usePointer = false ∧ rm.targetSlice = .slice userType) ∧
    (∃ rm, NewRecordMapper demoEnv (.ptr (.slice userType)) = .ret (some (.columnar rm)) ∧
        rm.usePointer = true ∧ rm.targetSlice = .slice userType) ∧
    (∃ rm, NewRecordMapper demoEnv (.ptr userType) = .ret (some (.meta rm)) ∧
        rm.usePointer = true ∧ rm.structType = userType) :=
  ⟨(NewRecordMapper_selects_by_shape demoEnv userType).1 rfl,
   (NewRecordMapper_selects_by_shape demoEnv (.slice userType)).2.1 rfl,
   (NewRecordMapper_selects_by_shape demoEnv (.ptr (.slice userType))).2.2.1 _ rfl rfl,
   (NewRecordMapper_selects_by_shape demoEnv (.ptr userType)).2.2.2 _ rfl rfl⟩

/-! ## The store -/

theorem lookup_setField_self (fields : List (String × Value)) (n : String) (v : Value)
    (h : (fields.lookup n).isSome = true) : (setField fields n v).lookup n = some v := by
  induction fields with
  | nil => simp at h
  | cons e rest ih =>
    obtain ⟨k, x⟩ := e
    by_cases hk : k = n
    · simp [setField, hk, List.lookup_cons]
    · have hk2 : (n == k) = false := by simpa using fun h2 => hk h2.symm
      simp only [List.lookup_cons, hk2] at h
      simp only [setField, if_neg hk, List.lookup_cons, hk2]
      exact ih h

theorem lookup_setField_of_ne (fields : List (String × Value)) (n m : String) (v : Value)
    (h : m ≠ n) : (setField fields n v).lookup m = fields.lookup m := by
  induction fields with
  | nil => rfl
  | cons e rest ih =>
    obtain ⟨k, x⟩ := e
    by_cases hk : k = n
    · have hm : (m == k) = false := by simpa [hk] using h
      have hm2 : (m == n) = false := by simpa using h
      simp [setField, hk, List.lookup_cons, hm2]
    · simp only [setField, if_neg hk, List.lookup_cons, ih]

theorem lookup_setField_isSome (fields : List (String × Value)) (n m : String) (v : Value) :
    ((setField fields n v).lookup m).isSome = (fields.lookup m).isSome := by
  by_cases h : m = n
  · subst h
    cases hs : (fields.lookup m).isSome
    · induction fields with
      | nil => rfl
      | cons e rest ih =>
        obtain ⟨k, x⟩ := e
        by_cases hk : k = m
        · simp [List.lookup_cons, hk] at hs
        · have hk2 : (m == k) = false := by simpa using fun h2 => hk h2.symm
          simp only [List.lookup_cons, hk2] at hs
          simp only [setField, if_neg hk, List.lookup_cons, hk2]
          exact ih hs
    · rw [lookup_setField_self _ _ _ hs]; rfl
  · rw [lookup_setField_of_ne _ _ _ _ h]

theorem getD_set (l : List Value) (i j : Nat) (v : Value) :
    (l.set i v).getD j Value.nil = if i = j ∧ j < l.length then v else l.getD j Value.nil := by
  simp only [List.getD_eq_getElem?_getD, List.getElem?_set]
  by_cases h : i = j
  · subst h
    by_cases h2 : i < l.length
    · simp [h2]
    · simp [h2, List.getElem?_eq_none (Nat.le_of_not_lt h2)]
  · simp [h]

theorem Store.has_write (st : Store) (t : Target) (v : Value) (loc : Loc) :
    (st.write t v).has loc = st.has loc := by
  cases t with
  | none => rfl
  | some l =>
    cases l with
    | field n =>
      cases loc with
      | field m => exact lookup_setField_isSome _ _ _ _
      | slot j => rfl
    | slot i =>
      cases loc with
      | field m => rfl
      | slot j => simp [Store.write, Store.has]

theorem Store.read_write (st : Store) (t : Target) (v : Value) (loc : Loc)
    (h : st.has loc = true) :
    (st.write t v).read loc = if t = some loc then v else st.read loc := by
  cases t with
  | none => simp [Store.write]
  | some l =>
    cases l with
    | field n =>
      cases loc with
      | field m =>
        by_cases hm : m = n
        · subst hm
          simp [Store.write, Store.read, lookup_setField_self _ _ _ h]
        · have hne : ¬ (n = m) := fun h2 => hm h2.symm
          simp [Store.write, Store.read, lookup_setField_of_ne _ _ _ _ hm, hne]
      | slot j => simp [Store.write, Store.read]
    | slot i =>
      cases loc with
      | field m => simp [Store.write, Store.read]
      | slot j =>
        have hj : j < st.slots.length := by simpa [Store.has] using h
        simp only [Store.write, Store.read, getD_set]
        by_cases hij : i = j
        · simp [hij, hj]
        · simp [hij]

theorem has_applyWrites (targets : List Target) (loc : Loc) :
    ∀ (writes : List (Nat × Value)) (st : Store),
      (applyWrites targets st writes).has loc = st.has loc := by
  intro writes
  induction writes with
  | nil => intro st; rfl
  | cons w rest ih =>
    intro st
    obtain ⟨j, v⟩ := w
    simp only [applyWrites]
    rw [ih, Store.has_write]

/-- After a scan, a location that is the target at position `i` only holds
the last value written through that position, or its former content. -/
theorem read_applyWrites (targets : List Target) (loc : Loc) (i : Nat)
    (hi : ∀ j, targets.getD j none = some loc ↔ j = i) :
    ∀ (writes : List (Nat × Value)) (st : Store), st.has loc = true →
      (applyWrites targets st writes).read loc = (lastWrite writes i).getD (st.read loc) := by
  intro writes
  induction writes with
  | nil => intro st _; rfl
  | cons w rest ih =>
    intro st h
    obtain ⟨j, v⟩ := w
    simp only [applyWrites, lastWrite]
    rw [ih _ (by rw [Store.has_write]; exact h), Store.read_write _ _ _ _ h]
    cases hl : lastWrite rest i with
    | some w => rfl
    | none =>
      by_cases hj : j = i
      · rw [if_pos ((hi j).2 hj)]
        simp [hj]
      · rw [if_neg (fun h2 => hj ((hi j).1 h2))]
        simp [hj]

/-- A scan leaves alone every location that is not among its targets. -/
theorem read_applyWrites_of_not_target (targets : List Target) (loc : Loc)
    (hi : ∀ j, targets.getD j none ≠ some loc) :
    ∀ (writes : List (Nat × Value)) (st : Store), st.has loc = true →
      (applyWrites targets st writes).read loc = st.read loc := by
  intro writes
  induction writes with
  | nil => intro st _; rfl
  | cons w rest ih =>
    intro st h
    obtain ⟨j, v⟩ := w
    simp only [applyWrites]
    rw [ih _ (by rw [Store.has_write]; exact h), Store.read_write _ _ _ _ h, if_neg (hi j)]

theorem slots_length_write (st : Store) (t : Target) (v : Value) :
    (st.write t v).slots.length = st.slots.length := by
  cases t with
  | none => rfl
  | some l => cases l <;> simp [Store.write]

theorem slots_length_applyWrites (targets : List Target) :
    ∀ (writes : List (Nat × Value)) (st : Store),
      (applyWrites targets st writes).slots.length = st.slots.length := by
  intro writes
  induction writes with
  | nil => intro st; rfl
  | cons w rest ih =>
    intro st
    obtain ⟨j, v⟩ := w
    simp only [applyWrites]
    rw [ih, slots_length_write]

/-! ## The row extractor -/

/-- The targets of `ScanRow`: a pointer to each element of `rowValues`. -/
theorem rowTargets_getD (n j i : Nat) (hi : i < n) :
    (rowTargets n).getD j none = some (Loc.slot i) ↔ j = i := by
  simp only [rowTargets, List.getD_eq_getElem?_getD, List.getElem?_map]
  by_cases hj : j < n
  · rw [List.getElem?_range hj]
    simp
  · rw [List.getElem?_eq_none (by simpa using hj)]
    simp
    omega

/-- The element of `rowValues` at position `i` after the scan of `ScanRow`:
the last value written through `valuePointers[i]`, nil when there is none. -/
theorem rowValues_after_scan (n : Nat) (writes : List (Nat × Value)) (i : Nat) (hi : i < n) :
    (applyWrites (rowTargets n) { fields := [], slots := List.replicate n Value.nil }
      writes).slots.getD i Value.nil = (lastWrite writes i).getD Value.nil := by
  have h := read_applyWrites (rowTargets n) (Loc.slot i) i (fun j => rowTargets_getD n j i hi)
    writes { fields := [], slots := List.replicate n Value.nil } (by simp [Store.has, hi])
  simp only [Store.read] at h
  rw [h]
  simp [List.getD_eq_getElem?_getD, List.getElem?_replicate, hi]

/-- C9: when the scan of a row with n columns succeeds, `ScanRow` returns a nil
error, the column names of the scanner unchanged, and a sequence of exactly n
values; its element at position i is the value scanned for column i (the last
value the scanner wrote through the target at position i, nil if it wrote
none), with a byte sequence `b` replaced by the text `string(b)` and any other
value passed through unchanged. -/
theorem ScanRow_returns_row (scanner : Scanner)
    (hscan : (scanner.Scan (rowTargets scanner.Columns.1.length)).2 = none) :
    ∃ vals, ScanRow scanner = (some vals, some scanner.Columns.1, none) ∧
      vals.length = scanner.Columns.1.length ∧
      ∀ i, i < scanner.Columns.1.length →
        ∀ scanned,
          scanned = (lastWrite (scanner.Scan (rowTargets scanner.Columns.1.length)).1 i).getD
            Value.nil →
          (∀ b, scanned = Value.bytes b → vals[i]? = some (Value.str b)) ∧
          ((∀ b, scanned ≠ Value.bytes b) → vals[i]? = some scanned) := by
  refine ⟨(applyWrites (rowTargets scanner.Columns.1.length)
      { fields := [], slots := List.replicate scanner.Columns.1.length Value.nil }
      (scanner.Scan (rowTargets scanner.Columns.1.length)).1).slots.map bytesToText,
    ?_, ?_, ?_⟩
  · simp only [ScanRow, hscan]
  · simp [slots_length_applyWrites]
  · intro i hi scanned hsc
    have hlen : i < (applyWrites (rowTargets scanner.Columns.1.length)
        { fields := [], slots := List.replicate scanner.Columns.1.length Value.nil }
        (scanner.Scan (rowTargets scanner.Columns.1.length)).1).slots.length := by
      simpa [slots_length_applyWrites] using hi
    have hval := rowValues_after_scan scanner.Columns.1.length
      (scanner.Scan (rowTargets scanner.Columns.1.length)).1 i hi
    rw [List.getD_eq_getElem?_getD, List.getElem?_eq_getElem hlen, Option.getD_some,
      ← hsc] at hval
    rw [List.getElem?_map, List.getElem?_eq_getElem hlen, hval]
    constructor
    · intro b hb
      rw [hb]; rfl
    · intro hb
      cases scanned with
      | bytes b => exact absurd rfl (hb b)
      | _ => rfl

/-- C9 on a row of three columns, one of which holds a byte sequence. -/
theorem ScanRow_returns_row_witness :
    ScanRow (rowScanner ["id", "name", "flag"]
        [Value.int 1, Value.bytes "bob", Value.bool true]) =
      (some [Value.int 1, Value.str "bob", Value.bool true],
        some ["id", "name", "flag"], none) ∧
    ∃ vals, ScanRow (rowScanner ["id", "name", "flag"]
        [Value.int 1, Value.bytes "bob", Value.bool true]) =
        (some vals, some ["id", "name", "flag"], none) ∧
      vals.length = 3 ∧
      ∀ i, i < 3 →
        ∀ scanned,
          scanned = (lastWrite [(0, Value.int 1), (1, Value.bytes "bob"), (2, Value.bool true)]
            i).getD Value.nil →
          (∀ b, scanned = Value.bytes b → vals[i]? = some (Value.str b)) ∧
          ((∀ b, scanned ≠ Value.bytes b) → vals[i]? = some scanned) :=
  ⟨by decide,
   ScanRow_returns_row (rowScanner ["id", "name", "flag"]
     [Value.int 1, Value.bytes "bob", Value.bool true]) rfl⟩

/-- C10: `ScanRow` returns a non-nil error exactly when the `Scan` call of the
scanner fails; the error then wraps the cause as "Failed to scan row due to
<cause>", and the values and the column names returned are both nil. The
error reported by `Columns()` plays no role in the result. -/
theorem ScanRow_fails_iff_scan_fails (scanner : Scanner) :
    ((ScanRow scanner).2.2 ≠ none ↔
      (scanner.Scan (rowTargets scanner.Columns.1.length)).2 ≠ none) ∧
    (∀ cause, (scanner.Scan (rowTargets scanner.Columns.1.length)).2 = some cause →
      ScanRow scanner = (none, none, some ⟨"Failed to scan row due to " ++ cause.Error⟩)) ∧
    (∀ columnsErr,
      ScanRow { scanner with Columns := (scanner.Columns.1, columnsErr) } = ScanRow scanner) := by
  refine ⟨?_, ?_, ?_⟩
  · cases h : (scanner.Scan (rowTargets scanner.Columns.1.length)).2 <;>
      simp [ScanRow, h]
  · intro cause h
    simp only [ScanRow, h]
  · intro columnsErr
    rfl

/-- C10 on a scanner whose `Scan` fails, and on one whose `Columns` alone
reports an error. -/
theorem ScanRow_fails_iff_scan_fails_witness :
    ScanRow (failingScanner ["id", "name"] "connection lost") =
      (none, none, some ⟨"Failed to scan row due to connection lost"⟩) ∧
    (ScanRow { rowScanner ["id"] [Value.int 1] with
        Columns := (["id"], some ⟨"columns unavailable"⟩) }).2.2 = none :=
  ⟨(ScanRow_fails_iff_scan_fails (failingScanner ["id", "name"] "connection lost")).2.1
      ⟨"connection lost"⟩ rfl,
   by decide⟩

/-! ## Holder allocation -/

theorem lookup_mem {α : Type} (m : List (String × α)) (k : String) (v : α)
    (h : m.lookup k = some v) : (k, v) ∈ m := by
  induction m with
  | nil => simp at h
  | cons e rest ih =>
    obtain ⟨k', x⟩ := e
    by_cases hk : k = k'
    · subst hk
      simp [List.lookup_cons] at h
      simp [h]
    · have hk2 : (k == k') = false := by simpa using hk
      simp only [List.lookup_cons, hk2] at h
      exact List.mem_cons_of_mem _ (ih h)

theorem lookup_of_mem_of_nodup {α : Type} (m : List (String × α)) (k : String) (v : α)
    (hmem : (k, v) ∈ m) (hnd : (m.map Prod.fst).Nodup) : m.lookup k = some v := by
  induction m with
  | nil => simp at hmem
  | cons e rest ih =>
    obtain ⟨k', x⟩ := e
    simp only [List.map_cons, List.nodup_cons] at hnd
    rcases List.mem_cons.1 hmem with h | h
    · cases h
      simp [List.lookup_cons]
    · have hne : k ≠ k' := by
        intro hk
        subst hk
        exact hnd.1 (List.mem_map.2 ⟨(k, v), h, rfl⟩)
      have hk2 : (k == k') = false := by simpa using hne
      simp only [List.lookup_cons, hk2]
      exact ih h hnd.2

theorem keys_mapSet {α : Type} (m : List (String × α)) (key : String) (v : α) (k : String) :
    k ∈ (mapSet m key v).map Prod.fst ↔ k = key ∨ k ∈ m.map Prod.fst := by
  induction m with
  | nil => simp [mapSet]
  | cons e rest ih =>
    obtain ⟨k', x⟩ := e
    by_cases hk : k' = key
    · subst hk
      simp [mapSet]
    · simp only [mapSet, if_neg hk, List.map_cons, List.mem_cons, ih]
      tauto

theorem nodup_keys_mapSet {α : Type} (m : List (String × α)) (key : String) (v : α)
    (h : (m.map Prod.fst).Nodup) : ((mapSet m key v).map Prod.fst).Nodup := by
  induction m with
  | nil => simp [mapSet]
  | cons e rest ih =>
    obtain ⟨k', x⟩ := e
    simp only [List.map_cons, List.nodup_cons] at h
    by_cases hk : k' = key
    · subst hk
      simp only [mapSet, if_true, List.map_cons, List.nodup_cons]
      exact h
    · simp only [mapSet, if_neg hk, List.map_cons, List.nodup_cons]
      refine ⟨?_, ih h.2⟩
      intro hmem
      rcases (keys_mapSet rest key v k').1 hmem with h1 | h1
      · exact hk h1
      · exact h.1 h1

theorem getValueMappingCountLoop_eq (env : Env) (rm : metaRecordMapper) :
    ∀ (columns : List String) (result : Nat),
      getValueMappingCountLoop env rm columns result =
        result + columns.countP (hasValueMap env rm) := by
  intro columns
  induction columns with
  | nil => intro result; simp [getValueMappingCountLoop]
  | cons key rest ih =>
    intro result
    by_cases h : hasValueMap env rm key = true
    · simp only [getValueMappingCountLoop, if_pos h, ih, List.countP_cons_of_pos _ _ h]
      omega
    · simp only [getValueMappingCountLoop, if_neg h, ih, List.countP_cons_of_neg _ _ h]

/-- The method `getValueMappingCount` counts the positions of the column list
whose descriptor carries a `valueMap`. -/
theorem getValueMappingCount_eq (env : Env) (rm : metaRecordMapper) (columns : List String) :
    getValueMappingCount env rm columns = columns.countP (hasValueMap env rm) := by
  simp [getValueMappingCount, getValueMappingCountLoop_eq]

/-- The loop of `allocateValueMapByKey` stays within `valuesPointers`, keeps the
keys of the map distinct, and gives a holder to exactly the translated
columns. -/
theorem allocateLoop_spec (env : Env) (rm : metaRecordMapper) (count : Nat) :
    ∀ (columns : List String) (index : Nat) (result : List (String × Nat)),
      index + columns.countP (hasValueMap env rm) ≤ count →
      ∃ m, allocateLoop env rm count columns index result = .ret m ∧
        ((result.map Prod.fst).Nodup → (m.map Prod.fst).Nodup) ∧
        ∀ k, k ∈ m.map Prod.fst ↔
          k ∈ result.map Prod.fst ∨ (k ∈ columns ∧ hasValueMap env rm k = true) := by
  intro columns
  induction columns with
  | nil =>
    intro index result _
    exact ⟨result, rfl, id, by simp⟩
  | cons key rest ih =>
    intro index result h
    by_cases hk : hasValueMap env rm key = true
    · rw [List.countP_cons_of_pos _ _ hk] at h
      have hlt : index < count := by omega
      obtain ⟨m, hm, hnd, hkeys⟩ := ih (index + 1) (mapSet result key index) (by omega)
      refine ⟨m, ?_, ?_, ?_⟩
      · simp only [allocateLoop, if_pos hk, if_pos hlt, hm]
      · intro hr
        exact hnd (nodup_keys_mapSet _ _ _ hr)
      · intro k
        rw [hkeys k, keys_mapSet]
        constructor
        · rintro ((h1 | h1) | h1)
          · exact Or.inr ⟨by simp [h1], by rw [h1]; exact hk⟩
          · exact Or.inl h1
          · exact Or.inr ⟨List.mem_cons_of_mem _ h1.1, h1.2⟩
        · rintro (h1 | ⟨h1, h2⟩)
          · exact Or.inl (Or.inr h1)
          · rcases List.mem_cons.1 h1 with h3 | h3
            · exact Or.inl (Or.inl h3)
            · exact Or.inr ⟨h3, h2⟩
    · rw [List.countP_cons_of_neg _ _ hk] at h
      obtain ⟨m, hm, hnd, hkeys⟩ := ih index result h
      refine ⟨m, ?_, hnd, ?_⟩
      · simp only [allocateLoop, if_neg hk, hm]
      · intro k
        rw [hkeys k]
        constructor
        · rintro (h1 | h1)
          · exact Or.inl h1
          · exact Or.inr ⟨List.mem_cons_of_mem _ h1.1, h1.2⟩
        · rintro (h1 | ⟨h1, h2⟩)
          · exact Or.inl h1
          · rcases List.mem_cons.1 h1 with h3 | h3
            · rw [h3] at h2
              exact absurd h2 hk
            · exact Or.inr ⟨h3, h2⟩

/-- The method `allocateValueMapByKey` never panics: it returns the holders of
the row and `valuesPointers`, all nil. -/
theorem allocateValueMapByKey_eq (env : Env) (rm : metaRecordMapper) (columns : List String) :
    allocateValueMapByKey env rm columns =
      .ret (holdersOf env rm columns,
        List.replicate (getValueMappingCount env rm columns) Value.nil) := by
  obtain ⟨m, hm, -, -⟩ := allocateLoop_spec env rm (getValueMappingCount env rm columns)
    columns 0 [] (by rw [getValueMappingCount_eq]; omega)
  simp only [holdersOf, allocateValueMapByKey, hm]

theorem holdersOf_spec (env : Env) (rm : metaRecordMapper) (columns : List String) :
    ((holdersOf env rm columns).map Prod.fst).Nodup ∧
    ∀ k, k ∈ (holdersOf env rm columns).map Prod.fst ↔
      (k ∈ columns ∧ hasValueMap env rm k = true) := by
  obtain ⟨m, hm, hnd, hkeys⟩ := allocateLoop_spec env rm (getValueMappingCount env rm columns)
    columns 0 [] (by rw [getValueMappingCount_eq]; omega)
  have : holdersOf env rm columns = m := by
    simp only [holdersOf, allocateValueMapByKey, hm]
  rw [this]
  exact ⟨hnd (by simp), fun k => by simpa using hkeys k⟩

/-- Without a translated column no holder is allocated. -/
theorem holdersOf_eq_nil (env : Env) (rm : metaRecordMapper) (columns : List String)
    (h : getValueMappingCount env rm columns = 0) : holdersOf env rm columns = [] := by
  have hk := (holdersOf_spec env rm columns).2
  rw [getValueMappingCount_eq, List.countP_eq_zero] at h
  cases hm : holdersOf env rm columns with
  | nil => rfl
  | cons e rest =>
    exfalso
    have := (hk e.1).1 (by rw [hm]; simp)
    exact h e.1 this.1 this.2

/-! ## Binding the scan targets -/

theorem findField_name (fs : List Field) (name : String) (f : Field)
    (h : findField fs name = some f) : f.name = name := by
  have := List.find?_some h
  simpa using this

theorem fieldAddr_of_usable (fs : List Field) (name : String)
    (h : usableField fs name = true) :
    ∃ f, findField fs name = some f ∧ fieldAddr (findField fs name) = .ret f ∧
      f.name = name := by
  unfold usableField at h
  cases hf : findField fs name with
  | none => simp [hf] at h
  | some f =>
    simp only [hf] at h
    exact ⟨f, rfl, by simp [fieldAddr, h], findField_name fs name f hf⟩

theorem isMapped_iff (env : Env) (rm : metaRecordMapper) (key : String) :
    isMapped env rm key = true ↔
      ∃ d, rm.columnToFieldMap.lookup (env.ToLower key) = some d := by
  unfold isMapped
  cases rm.columnToFieldMap.lookup (env.ToLower key) <;> simp

theorem isMapped_of_hasValueMap (env : Env) (rm : metaRecordMapper) (key : String)
    (h : hasValueMap env rm key = true) : isMapped env rm key = true := by
  unfold hasValueMap at h
  unfold isMapped
  cases hl : rm.columnToFieldMap.lookup (env.ToLower key) with
  | none => simp [hl] at h
  | some d => rfl

/-- Columns that all name exported fields do so in particular where they carry
no translation table. -/
theorem ExportedFields.plain {env : Env} {rm : metaRecordMapper} {fs : List Field}
    {columns : List String} (hX : ExportedFields env rm fs columns) :
    PlainExported env rm fs columns :=
  fun key hk hm _ => hX key hk hm

/-- One iteration of the loop of lines 112-128 on a mapped column of a struct:
the column is bound to its target and the loop goes on. -/
theorem bindTargets_cons_mapped (env : Env) (rm : metaRecordMapper) (name : String)
    (fs : List Field) (fvm : List (String × Nat)) (key : String) (rest : List String)
    (hm : isMapped env rm key = true)
    (hu : hasValueMap env rm key = false → usableField fs (fieldNameOf env rm key) = true) :
    bindTargets env rm (.struct name fs) fvm (key :: rest) =
      match bindTargets env rm (.struct name fs) fvm rest with
      | .panic m => .panic m
      | .ret (.error err) => .ret (.error err)
      | .ret (.ok targets) => .ret (.ok (boundTarget env rm fvm key :: targets)) := by
  obtain ⟨d, hd⟩ := (isMapped_iff env rm key).1 hm
  have hv : hasValueMap env rm key = (d.lookup "valueMap").isSome := by
    simp [hasValueMap, hd]
  have hn : fieldNameOf env rm key = (d.lookup "fieldName").getD "" := by
    simp [fieldNameOf, descriptorOf, hd]
  cases hvm : hasValueMap env rm key with
  | true =>
    have hv2 : (d.lookup "valueMap").isSome = true := by rw [← hv]; exact hvm
    simp only [bindTargets, hd, FieldByName, hv2, if_true, boundTarget, hvm]
  | false =>
    have hv2 : (d.lookup "valueMap").isSome = false := by rw [← hv]; exact hvm
    obtain ⟨f, hf, hfa, hfn⟩ := fieldAddr_of_usable fs _ (hu hvm)
    rw [hn] at hf hfa hfn
    unfold findField at hf hfa
    simp only [bindTargets, hd, FieldByName, hv2, hfa, hfn, boundTarget, hvm, hn]
    simp

/-- The loop of lines 112-128 returns the unmapped-column error at the first
column without a descriptor. -/
theorem bindTargets_cons_unmapped (env : Env) (rm : metaRecordMapper) (structType : GoType)
    (fvm : List (String × Nat)) (key : String) (rest : List String)
    (hm : isMapped env rm key = false) :
    bindTargets env rm structType fvm (key :: rest) =
      .ret (.error ⟨"Unable map column " ++ key ++ " to the result"⟩) := by
  unfold isMapped at hm
  cases hl : rm.columnToFieldMap.lookup (env.ToLower key) with
  | none => simp only [bindTargets, hl]
  | some d => simp [hl] at hm

/-- When every column of the row is mapped, the loop binds each column to its
target, in column order. -/
theorem bindTargets_all_mapped (env : Env) (rm : metaRecordMapper) (name : String)
    (fs : List Field) (fvm : List (String × Nat)) :
    ∀ (columns : List String), (∀ key ∈ columns, isMapped env rm key = true) →
      PlainExported env rm fs columns →
      bindTargets env rm (.struct name fs) fvm columns =
        .ret (.ok (columns.map (boundTarget env rm fvm))) := by
  intro columns
  induction columns with
  | nil => intro _ _; rfl
  | cons key rest ih =>
    intro h hP
    have hk := h key (by simp)
    rw [bindTargets_cons_mapped env rm name fs fvm key rest hk (hP key (by simp) hk),
      ih (fun k hk2 => h k (List.mem_cons_of_mem _ hk2))
        (fun k hk2 => hP k (List.mem_cons_of_mem _ hk2))]
    rfl

/-- When the columns before `key` are mapped and `key` is not, the loop returns
the unmapped-column error naming `key`. -/
theorem bindTargets_first_unmapped (env : Env) (rm : metaRecordMapper) (name : String)
    (fs : List Field) (fvm : List (String × Nat))
    (key : String) (post : List String) (hk : isMapped env rm key = false) :
    ∀ (pre : List String), (∀ k ∈ pre, isMapped env rm k = true) →
      PlainExported env rm fs pre →
      bindTargets env rm (.struct name fs) fvm (pre ++ key :: post) =
        .ret (.error ⟨"Unable map column " ++ key ++ " to the result"⟩) := by
  intro pre
  induction pre with
  | nil => intro _ _; exact bindTargets_cons_unmapped env rm _ fvm key post hk
  | cons k rest ih =>
    intro h hP
    have hk1 := h k (by simp)
    rw [List.cons_append,
      bindTargets_cons_mapped env rm name fs fvm k _ hk1 (hP k (by simp) hk1),
      ih (fun k2 hk2 => h k2 (List.mem_cons_of_mem _ hk2))
        (fun k2 hk2 => hP k2 (List.mem_cons_of_mem _ hk2))]

/-- Whenever the loop of lines 112-128 binds all the columns, each column is
mapped and bound to its target. -/
theorem bindTargets_ok (env : Env) (rm : metaRecordMapper) (structType : GoType)
    (fvm : List (String × Nat)) :
    ∀ (columns : List String) (ts : List Target),
      bindTargets env rm structType fvm columns = .ret (.ok ts) →
      ts = columns.map (boundTarget env rm fvm) := by
  intro columns
  induction columns with
  | nil =>
    intro ts h
    simp only [bindTargets, Outcome.ret.injEq, Except.ok.injEq] at h
    simp [← h]
  | cons key rest ih =>
    intro ts h
    cases hl : rm.columnToFieldMap.lookup (env.ToLower key) with
    | none => simp [bindTargets, hl] at h
    | some d =>
      have hv : hasValueMap env rm key = (d.lookup "valueMap").isSome := by
        simp [hasValueMap, hl]
      have hn : fieldNameOf env rm key = (d.lookup "fieldName").getD "" := by
        simp [fieldNameOf, descriptorOf, hl]
      cases structType with
      | struct name fs =>
        cases hr : bindTargets env rm (.struct name fs) fvm rest with
        | panic m =>
          cases hvm : (d.lookup "valueMap").isSome <;>
            cases hfa : fieldAddr (List.find? (fun f => f.name == (d.lookup "fieldName").getD "") fs) <;>
              simp [bindTargets, hl, FieldByName, hvm, hr, hfa] at h
        | ret r =>
          cases r with
          | error e =>
            cases hvm : (d.lookup "valueMap").isSome <;>
              cases hfa : fieldAddr (List.find? (fun f => f.name == (d.lookup "fieldName").getD "") fs) <;>
                simp [bindTargets, hl, FieldByName, hvm, hr, hfa] at h
          | ok ts0 =>
            have hts0 := ih ts0 hr
            cases hvm : (d.lookup "valueMap").isSome with
            | true =>
              simp only [bindTargets, hl, FieldByName, hvm, hr, if_true, Outcome.ret.injEq,
                Except.ok.injEq] at h
              rw [← h, hts0]
              simp [boundTarget, hv, hvm]
            | false =>
              cases hfa : fieldAddr (List.find? (fun f => f.name == (d.lookup "fieldName").getD "") fs) with
              | panic m => simp [bindTargets, hl, FieldByName, hvm, hr, hfa] at h
              | ret p =>
                have hp : p.name = (d.lookup "fieldName").getD "" := by
                  cases hff : List.find? (fun f => f.name == (d.lookup "fieldName").getD "") fs with
                  | none => simp [hff, fieldAddr] at hfa
                  | some f =>
                    simp only [hff, fieldAddr] at hfa
                    split at hfa
                    · simp only [Outcome.ret.injEq] at hfa
                      rw [← hfa]
                      exact findField_name fs _ f hff
                    · simp at hfa
                simp [bindTargets, hl, FieldByName, hvm, hr, hfa] at h
                rw [← h, hts0]
                simp [boundTarget, hv, hvm, hn, hp]
      | _ => simp [bindTargets, hl, FieldByName] at h

/-! ## The translation step -/

/-- The body of the loop of `applyFieldMapValuesIfNeeded` on a holder whose
column names an exported field in case the step takes the address of the
field: it does what `translate` says for the raw value of the holder. -/
theorem applyFieldMapValue_eq (env : Env) (rm : metaRecordMapper) (name : String)
    (fs : List Field) (st : Store) (key : String) (idx : Nat)
    (hu : isHit env rm key (st.slots.getD idx Value.nil) = true →
      usableField fs (fieldNameOf env rm key) = true) :
    applyFieldMapValue env rm (.struct name fs) st key idx =
      .ret (match translate env rm fs key (st.slots.getD idx Value.nil) with
        | .error err => .error err
        | .ok none => .ok st
        | .ok (some v) => .ok (st.write (some (Loc.field (fieldNameOf env rm key))) v)) := by
  have e1 : (rm.columnToFieldMap.lookup (env.ToLower key)).getD [] = descriptorOf env rm key := rfl
  have e2 : ((descriptorOf env rm key).lookup "fieldName").getD "" = fieldNameOf env rm key := rfl
  have e3 : env.MakeStringMap (((descriptorOf env rm key).lookup "valueMap").getD "") ":" "," =
      valueMapOf env rm key := rfl
  have e4 : List.find? (fun f => f.name == fieldNameOf env rm key) fs =
      findField fs (fieldNameOf env rm key) := rfl
  simp only [applyFieldMapValue, translate, FieldByName, e1, e2, e3, e4]
  by_cases hnil : st.slots.getD idx Value.nil = Value.nil
  · simp only [hnil, if_true]
    by_cases hk : fieldKind (findField fs (fieldNameOf env rm key)) ≠ Kind.Ptr
    · simp only [if_pos hk]
    · simp only [if_neg hk]
  · simp only [if_neg hnil]
    cases hlk : (valueMapOf env rm key).lookup (textOf env (st.slots.getD idx Value.nil)) with
    | none => rfl
    | some mapped =>
      have hhit : isHit env rm key (st.slots.getD idx Value.nil) = true := by
        unfold isHit
        rw [hlk]
        simp only [Option.isSome_some, Bool.and_true, decide_eq_true_eq]
        exact hnil
      obtain ⟨f, hf, hfa, hfn⟩ := fieldAddr_of_usable fs _ (hu hhit)
      simp only [hf] at hfa ⊢
      simp only [hfa]
      cases env.AssignConverted rm.converter f mapped with
      | error e => rfl
      | ok v => simp only [hfn]

theorem slots_write_field (st : Store) (n : String) (v : Value) :
    (st.write (some (Loc.field n)) v).slots = st.slots := rfl

theorem fields_write_field (st : Store) (n : String) (v : Value) :
    (st.write (some (Loc.field n)) v).fields = setField st.fields n v := rfl

/-- The method `applyFieldMapValuesIfNeeded` on holders whose columns name
exported fields wherever the step takes the address of the field: it does not
panic, it returns the error of the first holder that is not accepted, and when
there is none the fields are those assigned by the accepted holders; the
holders themselves are left as scanned. -/
theorem applyFieldMapValuesIfNeeded_spec (env : Env) (rm : metaRecordMapper) (name : String)
    (fs : List Field) :
    ∀ (entries : List (String × Nat)) (st : Store),
      (∀ e ∈ entries, isHit env rm e.1 (st.slots.getD e.2 Value.nil) = true →
        usableField fs (fieldNameOf env rm e.1) = true) →
      ∃ st', applyFieldMapValuesIfNeeded env rm (.struct name fs) entries st =
          .ret (st', firstError env rm fs st.slots entries) ∧
        (firstError env rm fs st.slots entries = none →
          st'.fields = assignAll env rm fs st.slots entries st.fields) := by
  intro entries
  induction entries with
  | nil =>
    intro st _
    exact ⟨st, rfl, fun _ => rfl⟩
  | cons e rest ih =>
    intro st hu
    obtain ⟨key, idx⟩ := e
    have hk := hu (key, idx) (by simp)
    have hrest : ∀ e ∈ rest, isHit env rm e.1 (st.slots.getD e.2 Value.nil) = true →
        usableField fs (fieldNameOf env rm e.1) = true :=
      fun e he => hu e (List.mem_cons_of_mem _ he)
    simp only [applyFieldMapValuesIfNeeded, applyFieldMapValue_eq env rm name fs st key idx hk,
      firstError, assignAll]
    cases ht : translate env rm fs key (st.slots.getD idx Value.nil) with
    | error err => exact ⟨st, rfl, fun h => by simp at h⟩
    | ok r =>
      cases r with
      | none => exact ih st hrest
      | some v =>
        obtain ⟨st', h1, h2⟩ := ih (st.write (some (Loc.field (fieldNameOf env rm key))) v) hrest
        rw [slots_write_field] at h1 h2
        rw [fields_write_field] at h2
        exact ⟨st', h1, h2⟩

/-! ## The structured mapper, step by step -/

theorem targetsOf_eq (env : Env) (rm : metaRecordMapper) (name : String) (fs : List Field)
    (columns : List String) (hall : ∀ key ∈ columns, isMapped env rm key = true)
    (hP : PlainExported env rm fs columns) :
    targetsOf env rm (.struct name fs) columns =
      columns.map (boundTarget env rm (holdersOf env rm columns)) := by
  simp only [targetsOf, bindTargets_all_mapped env rm name fs _ columns hall hP]

theorem mapRange_nil (env : Env) (hperm : ∀ m, (env.mapRange m).Perm m) :
    env.mapRange [] = [] :=
  List.Perm.eq_nil (hperm [])

/-- The holders visited by the translation step belong to translated columns
of the row. -/
theorem mem_mapRange_holders (env : Env) (rm : metaRecordMapper)
    (hperm : ∀ m, (env.mapRange m).Perm m) (columns : List String) (e : String × Nat)
    (he : e ∈ env.mapRange (holdersOf env rm columns)) :
    e ∈ holdersOf env rm columns ∧ e.1 ∈ columns ∧ hasValueMap env rm e.1 = true := by
  have h1 : e ∈ holdersOf env rm columns := (hperm _).mem_iff.1 he
  have h2 := ((holdersOf_spec env rm columns).2 e.1).1 (List.mem_map.2 ⟨e, h1, rfl⟩)
  exact ⟨h1, h2⟩

/-- The method `scanData` on a structured mapper and a row whose columns are
all mapped: the scan error if the scan fails; otherwise the error of the first
holder the translation step does not accept; otherwise the record. -/
theorem scanData_eq (env : Env) (rm : metaRecordMapper) (name : String) (fs : List Field)
    (hT : StructOf env rm name fs) (hperm : ∀ m, (env.mapRange m).Perm m)
    (scanner : Scanner) (hall : ∀ key ∈ scanner.Columns.1, isMapped env rm key = true)
    (hX : ExportedFields env rm fs scanner.Columns.1) :
    scanData env rm scanner =
      match (scanner.Scan (targetsOf env rm (.struct name fs) scanner.Columns.1)).2 with
      | some err => .ret (Result.nil, some err)
      | none =>
        match firstError env rm fs (scannedStore env rm (.struct name fs) scanner).slots
            (env.mapRange (holdersOf env rm scanner.Columns.1)) with
        | some err => .ret (Result.nil, some err)
        | none =>
          .ret (wrapRecord rm.usePointer
            (assignAll env rm fs (scannedStore env rm (.struct name fs) scanner).slots
              (env.mapRange (holdersOf env rm scanner.Columns.1))
              (scannedStore env rm (.struct name fs) scanner).fields), none) := by
  have hTg := targetsOf_eq env rm name fs scanner.Columns.1 hall hX.plain
  have hB := bindTargets_all_mapped env rm name fs (holdersOf env rm scanner.Columns.1)
    scanner.Columns.1 hall hX.plain
  rw [← hTg] at hB
  have hA : (if decide (getValueMappingCount env rm scanner.Columns.1 > 0) = true then
        allocateValueMapByKey env rm scanner.Columns.1
      else Outcome.ret ([], [])) =
      .ret (holdersOf env rm scanner.Columns.1,
        List.replicate (getValueMappingCount env rm scanner.Columns.1) Value.nil) := by
    by_cases hc : getValueMappingCount env rm scanner.Columns.1 > 0
    · simp only [hc, decide_True, if_true, allocateValueMapByKey_eq]
    · have h0 : getValueMappingCount env rm scanner.Columns.1 = 0 := by omega
      simp [h0, holdersOf_eq_nil env rm _ h0]
  have hTs : env.DiscoverTypeByKind rm.structType Kind.Struct = .ret (.struct name fs) := hT
  simp only [scanData, hTs, hA, hB]
  cases hscan : (scanner.Scan (targetsOf env rm (.struct name fs) scanner.Columns.1)).2 with
  | some err => rfl
  | none =>
    simp only []
    by_cases hc : getValueMappingCount env rm scanner.Columns.1 > 0
    · obtain ⟨st', h1, h2⟩ := applyFieldMapValuesIfNeeded_spec env rm name fs
        (env.mapRange (holdersOf env rm scanner.Columns.1))
        (scannedStore env rm (.struct name fs) scanner)
        (fun e he _ => hX e.1 (mem_mapRange_holders env rm hperm _ e he).2.1
          (isMapped_of_hasValueMap env rm e.1
            (mem_mapRange_holders env rm hperm _ e he).2.2))
      simp only [scannedStore] at h1 h2
      simp only [hc, decide_True, if_true, h1, scannedStore]
      cases hfe : firstError env rm fs
          (applyWrites (targetsOf env rm (GoType.struct name fs) scanner.Columns.1)
            { fields := zeroFields (GoType.struct name fs),
              slots := List.replicate (getValueMappingCount env rm scanner.Columns.1) Value.nil }
            (scanner.Scan (targetsOf env rm (GoType.struct name fs) scanner.Columns.1)).1).slots
          (env.mapRange (holdersOf env rm scanner.Columns.1)) with
      | some err => rfl
      | none =>
        simp only [wrapRecord, h2 hfe]
        cases rm.usePointer <;> rfl
    · have h0 : getValueMappingCount env rm scanner.Columns.1 = 0 := by omega
      simp only [h0, holdersOf_eq_nil env rm _ h0, mapRange_nil env hperm, firstError,
        assignAll, wrapRecord, scannedStore]
      cases rm.usePointer <;> simp

theorem allocated_eq (env : Env) (rm : metaRecordMapper) (columns : List String) :
    (if decide (getValueMappingCount env rm columns > 0) = true then
        allocateValueMapByKey env rm columns
      else Outcome.ret ([], [])) =
      .ret (holdersOf env rm columns,
        List.replicate (getValueMappingCount env rm columns) Value.nil) := by
  by_cases hc : getValueMappingCount env rm columns > 0
  · simp only [hc, decide_True, if_true, allocateValueMapByKey_eq]
  · have h0 : getValueMappingCount env rm columns = 0 := by omega
    simp [h0, holdersOf_eq_nil env rm _ h0]

theorem exists_first_unmapped (p : String → Bool) :
    ∀ (columns : List String), (∃ key ∈ columns, p key = false) →
      ∃ pre key post, columns = pre ++ key :: post ∧ (∀ k ∈ pre, p k = true) ∧
        p key = false := by
  intro columns
  induction columns with
  | nil => rintro ⟨key, hk, -⟩; simp at hk
  | cons c rest ih =>
    intro h
    cases hc : p c with
    | false => exact ⟨[], c, rest, rfl, by simp, hc⟩
    | true =>
      obtain ⟨key, hk, hp⟩ := h
      have hrest : ∃ key ∈ rest, p key = false := by
        rcases List.mem_cons.1 hk with h1 | h1
        · rw [h1, hc] at hp; cases hp
        · exact ⟨key, h1, hp⟩
      obtain ⟨pre, k, post, h1, h2, h3⟩ := ih hrest
      refine ⟨c :: pre, k, post, by rw [h1]; rfl, ?_, h3⟩
      intro x hx
      rcases List.mem_cons.1 hx with h4 | h4
      · rw [h4]; exact hc
      · exact h2 x h4

/-- A mapped column without a translation table whose field is missing or not
exported makes the loop of lines 112-128 panic at line 123. -/
theorem bindTargets_cons_unusable (env : Env) (rm : metaRecordMapper) (name : String)
    (fs : List Field) (fvm : List (String × Nat)) (key : String) (rest : List String)
    (hm : isMapped env rm key = true) (hv : hasValueMap env rm key = false)
    (hu : usableField fs (fieldNameOf env rm key) = false) :
    ∃ m, bindTargets env rm (.struct name fs) fvm (key :: rest) = .panic m := by
  obtain ⟨d, hd⟩ := (isMapped_iff env rm key).1 hm
  have hv2 : (d.lookup "valueMap").isSome = false := by
    simpa [hasValueMap, hd] using hv
  have hn : fieldNameOf env rm key = (d.lookup "fieldName").getD "" := by
    simp [fieldNameOf, descriptorOf, hd]
  rw [hn] at hu
  unfold usableField findField at hu
  cases hf : List.find? (fun f => f.name == (d.lookup "fieldName").getD "") fs with
  | none =>
    exact ⟨"reflect.Value.Addr of unaddressable value",
      by simp only [bindTargets, hd, FieldByName, hv2, hf, fieldAddr]; simp⟩
  | some f =>
    rw [hf] at hu
    simp only at hu
    exact ⟨"reflect.Value.Interface: cannot return value obtained from unexported field or method",
      by simp only [bindTargets, hd, FieldByName, hv2, hf, fieldAddr, hu]; simp⟩

/-- When the columns of `pre` are mapped and one of them, without a translation
table, names a field that is missing or not exported, the loop of lines
112-128 panics, whatever columns follow. -/
theorem bindTargets_panics_of_unusable (env : Env) (rm : metaRecordMapper) (name : String)
    (fs : List Field) (fvm : List (String × Nat)) (post : List String) :
    ∀ (pre : List String), (∀ k ∈ pre, isMapped env rm k = true) →
      ¬ PlainExported env rm fs pre →
      ∃ m, bindTargets env rm (.struct name fs) fvm (pre ++ post) = .panic m := by
  intro pre
  induction pre with
  | nil =>
    intro _ h
    exact absurd (fun key hk => absurd hk (List.not_mem_nil key)) h
  | cons k rest ih =>
    intro hall hno
    have hk := hall k (by simp)
    by_cases hbad : hasValueMap env rm k = false ∧ usableField fs (fieldNameOf env rm k) = false
    · exact bindTargets_cons_unusable env rm name fs fvm k (rest ++ post) hk hbad.1 hbad.2
    · have hu : hasValueMap env rm k = false → usableField fs (fieldNameOf env rm k) = true := by
        intro hv
        cases hux : usableField fs (fieldNameOf env rm k) with
        | true => rfl
        | false => exact absurd ⟨hv, hux⟩ hbad
      have hrest : ¬ PlainExported env rm fs rest := by
        intro hP
        apply hno
        intro key hkey hm hv
        rcases List.mem_cons.1 hkey with h1 | h1
        · rw [h1]; exact hu (by rw [← h1]; exact hv)
        · exact hP key h1 hm hv
      obtain ⟨m, hm⟩ := ih (fun k2 hk2 => hall k2 (List.mem_cons_of_mem _ hk2)) hrest
      refine ⟨m, ?_⟩
      rw [List.cons_append, bindTargets_cons_mapped env rm name fs fvm k _ hk hu, hm]

/-- C3 (amended): for a structured mapper and a row with at least one column
whose lower-cased name has no entry in `columnToFieldMap`, let `key` be the
first such column in column order, as the scanner reports it. When every
column before `key` that carries no translation table names an exported field
of the struct, `Map` returns a nil record and the error "Unable map column
<key> to the result". When one of them names a field that is missing or not
exported, `Map` panics instead. -/
theorem Map_unmapped_column (env : Env) (rm : metaRecordMapper) (name : String)
    (fs : List Field) (hT : StructOf env rm name fs) (scanner : Scanner)
    (hex : ∃ key ∈ scanner.Columns.1, isMapped env rm key = false) :
    ∃ pre key post, scanner.Columns.1 = pre ++ key :: post ∧
      (∀ k ∈ pre, isMapped env rm k = true) ∧ isMapped env rm key = false ∧
      (PlainExported env rm fs pre →
        rm.Map env scanner =
          .ret (Result.nil, some ⟨"Unable map column " ++ key ++ " to the result"⟩)) ∧
      (¬ PlainExported env rm fs pre → ∃ m, rm.Map env scanner = .panic m) := by
  obtain ⟨pre, key, post, h1, h2, h3⟩ := exists_first_unmapped (isMapped env rm) _ hex
  have hTs : env.DiscoverTypeByKind rm.structType Kind.Struct = .ret (.struct name fs) := hT
  refine ⟨pre, key, post, h1, h2, h3, ?_, ?_⟩
  · intro hP
    have hB := bindTargets_first_unmapped env rm name fs (holdersOf env rm scanner.Columns.1)
      key post h3 pre h2 hP
    rw [← h1] at hB
    simp only [metaRecordMapper.Map, scanData, hTs, allocated_eq, hB]
  · intro hno
    obtain ⟨m, hm⟩ := bindTargets_panics_of_unusable env rm name fs
      (holdersOf env rm scanner.Columns.1) (key :: post) pre h2 hno
    rw [← h1] at hm
    exact ⟨m, by simp only [metaRecordMapper.Map, scanData, hTs, allocated_eq, hm]⟩

/-- The struct type of `userMapper` resolves to `userType`. -/
theorem userMapper_structOf : StructOf demoEnv userMapper "User" userFields := rfl

/-- C3 on a row whose second and third columns are unmapped: the error names
the second column, spelled as the scanner reports it. -/
theorem Map_unmapped_column_witness :
    (∃ key ∈ (rowScanner ["ID", "Statuz", "bogus"] []).Columns.1,
      isMapped demoEnv userMapper key = false) ∧
    userMapper.Map demoEnv (rowScanner ["ID", "Statuz", "bogus"] []) =
      .ret (Result.nil, some ⟨"Unable map column Statuz to the result"⟩) ∧
    ∃ pre key post, (rowScanner ["ID", "Statuz", "bogus"] []).Columns.1 = pre ++ key :: post ∧
      (∀ k ∈ pre, isMapped demoEnv userMapper k = true) ∧
      isMapped demoEnv userMapper key = false ∧
      (PlainExported demoEnv userMapper userFields pre →
        userMapper.Map demoEnv (rowScanner ["ID", "Statuz", "bogus"] []) =
          .ret (Result.nil, some ⟨"Unable map column " ++ key ++ " to the result"⟩)) ∧
      (¬ PlainExported demoEnv userMapper userFields pre →
        ∃ m, userMapper.Map demoEnv (rowScanner ["ID", "Statuz", "bogus"] []) = .panic m) :=
  ⟨⟨"Statuz", by decide, by decide⟩, by decide,
   Map_unmapped_column demoEnv userMapper "User" userFields userMapper_structOf
     (rowScanner ["ID", "Statuz", "bogus"] []) ⟨"Statuz", by decide, by decide⟩⟩

/-- C3 as stated fails on the mapper the factory builds for the struct `Ledger`,
whose field `id` is not exported: on the row with the columns id and bogus,
`bogus` is unmapped, yet `Map` does not return the unmapped-column error. It
panics at line 123, where it takes the address of the field of the column
`id`, before the loop reaches `bogus`. -/
theorem Map_unmapped_column_counterexample :
    NewRecordMapper demoEnv ledgerType = .ret (some (.meta ledgerMapper)) ∧
    StructOf demoEnv ledgerMapper "Ledger" ledgerFields ∧
    isMapped demoEnv ledgerMapper "id" = true ∧
    isMapped demoEnv ledgerMapper "bogus" = false ∧
    ledgerMapper.Map demoEnv (rowScanner ["id", "bogus"] [Value.int 7, Value.str "x"]) =
      .panic "reflect.Value.Interface: cannot return value obtained from unexported field or method" ∧
    ledgerMapper.Map demoEnv (rowScanner ["id", "bogus"] [Value.int 7, Value.str "x"]) ≠
      .ret (Result.nil, some ⟨"Unable map column bogus to the result"⟩) := by
  refine ⟨by decide, by decide, by decide, by decide, by decide, by decide⟩

/-! ## The zero-copy path -/

theorem lookup_zeroFields (name : String) (fs : List Field) (n : String) :
    (zeroFields (.struct name fs)).lookup n =
      (findField fs n).map fun f => zeroValue f.kind := by
  simp only [zeroFields, findField]
  induction fs with
  | nil => rfl
  | cons f rest ih =>
    by_cases h : n = f.name
    · subst h
      simp [List.lookup_cons, List.find?_cons]
    · have h1 : (n == f.name) = false := by simpa using h
      have h2 : (f.name == n) = false := by simpa using fun h3 => h h3.symm
      simp only [List.map_cons, List.lookup_cons, List.find?_cons, h1, h2]
      exact ih

theorem lookup_eq_some_read (st : Store) (n : String) (h : st.has (Loc.field n) = true) :
    st.fields.lookup n = some (st.read (Loc.field n)) := by
  simp only [Store.has] at h
  simp only [Store.read]
  cases hl : st.fields.lookup n with
  | none => simp [hl] at h
  | some v => rfl

/-- The targets of a row without translated columns: the storage of the field
of each column. -/
theorem plain_targets (env : Env) (rm : metaRecordMapper) (fvm : List (String × Nat))
    (columns : List String) (hplain : ∀ key ∈ columns, hasValueMap env rm key = false) :
    columns.map (boundTarget env rm fvm) =
      columns.map fun key => some (Loc.field (fieldNameOf env rm key)) := by
  apply List.map_congr_left
  intro key hk
  simp [boundTarget, hplain key hk]

theorem count_eq_zero_of_plain (env : Env) (rm : metaRecordMapper) (columns : List String)
    (hplain : ∀ key ∈ columns, hasValueMap env rm key = false) :
    getValueMappingCount env rm columns = 0 := by
  rw [getValueMappingCount_eq, List.countP_eq_zero]
  intro key hk
  simp [hplain key hk]

/-- The method `scanData` on a row whose columns are all mapped and none
translated. -/
theorem scanData_plain (env : Env) (rm : metaRecordMapper) (name : String) (fs : List Field)
    (hT : StructOf env rm name fs) (scanner : Scanner)
    (hall : ∀ key ∈ scanner.Columns.1, isMapped env rm key = true)
    (hplain : ∀ key ∈ scanner.Columns.1, hasValueMap env rm key = false)
    (hP : PlainExported env rm fs scanner.Columns.1) :
    scanData env rm scanner =
      match (scanner.Scan (scanner.Columns.1.map fun key =>
          some (Loc.field (fieldNameOf env rm key)))).2 with
      | some err => .ret (Result.nil, some err)
      | none =>
        .ret (wrapRecord rm.usePointer
          (applyWrites (scanner.Columns.1.map fun key =>
              some (Loc.field (fieldNameOf env rm key)))
            { fields := zeroFields (.struct name fs), slots := [] }
            (scanner.Scan (scanner.Columns.1.map fun key =>
              some (Loc.field (fieldNameOf env rm key)))).1).fields, none) := by
  have h0 := count_eq_zero_of_plain env rm _ hplain
  have hB := bindTargets_all_mapped env rm name fs [] scanner.Columns.1 hall hP
  rw [plain_targets env rm _ _ hplain] at hB
  have hTs : env.DiscoverTypeByKind rm.structType Kind.Struct = .ret (.struct name fs) := hT
  simp only [scanData, hTs, allocated_eq]
  rw [holdersOf_eq_nil env rm _ h0]
  simp only [hB, h0]
  cases hscan : (scanner.Scan (scanner.Columns.1.map fun key =>
      some (Loc.field (fieldNameOf env rm key)))).2 with
  | some err => rfl
  | none =>
    simp only [wrapRecord]
    cases rm.usePointer <;> simp

/-- In a row whose columns map to pairwise distinct fields, the storage of the
field of column `i` is the target at position `i` only. -/
theorem plain_target_unique (fn : String → String) (columns : List String)
    (hd : (columns.map fn).Nodup) (i : Nat) (hi : i < columns.length) (j : Nat) :
    (columns.map fun key => some (Loc.field (fn key))).getD j none =
      some (Loc.field (fn columns[i])) ↔ j = i := by
  simp only [List.getD_eq_getElem?_getD, List.getElem?_map]
  by_cases hj : j < columns.length
  · rw [List.getElem?_eq_getElem hj]
    simp only [Option.map_some', Option.getD_some, Option.some.injEq, Loc.field.injEq]
    constructor
    · intro h
      have hj2 : j < (columns.map fn).length := by simpa using hj
      have hi2 : i < (columns.map fn).length := by simpa using hi
      have := (@List.Nodup.getElem_inj_iff _ _ hd j hj2 i hi2).1 (by simpa using h)
      exact this
    · intro h
      subst h
      rfl
  · rw [List.getElem?_eq_none (by omega)]
    simp
    omega

/-- C4 (amended): for a row whose columns all match descriptors without a
translation table and map to pairwise distinct fields, and whose scan
succeeds. When every column names an exported field of the struct, the target
`Map` passes at position i is the storage of the field of column i; in the
record returned, the field of column i holds the value the scanner wrote
through that target (its zero value if the scanner wrote none), and every
field that no column names keeps its zero value. When some column names a
field that is missing or not exported, `Map` panics while it binds the
targets. -/
theorem Map_zero_copy_round_trip (env : Env) (rm : metaRecordMapper) (name : String)
    (fs : List Field) (hT : StructOf env rm name fs) (scanner : Scanner)
    (hall : ∀ key ∈ scanner.Columns.1, isMapped env rm key = true)
    (hplain : ∀ key ∈ scanner.Columns.1, hasValueMap env rm key = false)
    (hdistinct : (scanner.Columns.1.map (fieldNameOf env rm)).Nodup)
    (hscan : (scanner.Scan (scanner.Columns.1.map fun key =>
      some (Loc.field (fieldNameOf env rm key)))).2 = none) :
    (PlainExported env rm fs scanner.Columns.1 →
      bindTargets env rm (.struct name fs) [] scanner.Columns.1 =
        .ret (.ok (scanner.Columns.1.map fun key =>
          some (Loc.field (fieldNameOf env rm key)))) ∧
      ∃ record, rm.Map env scanner = .ret (wrapRecord rm.usePointer record, none) ∧
        (∀ i (hi : i < scanner.Columns.1.length),
          ∃ f, findField fs (fieldNameOf env rm scanner.Columns.1[i]) = some f ∧
            record.lookup (fieldNameOf env rm scanner.Columns.1[i]) =
              some ((lastWrite (scanner.Scan (scanner.Columns.1.map fun key =>
                some (Loc.field (fieldNameOf env rm key)))).1 i).getD (zeroValue f.kind))) ∧
        (∀ n f, findField fs n = some f → n ∉ scanner.Columns.1.map (fieldNameOf env rm) →
          record.lookup n = some (zeroValue f.kind))) ∧
    (¬ PlainExported env rm fs scanner.Columns.1 →
      ∃ m, bindTargets env rm (.struct name fs) [] scanner.Columns.1 = .panic m ∧
        rm.Map env scanner = .panic m) := by
  have hTs : env.DiscoverTypeByKind rm.structType Kind.Struct = .ret (.struct name fs) := hT
  constructor
  · intro hP
    refine ⟨?_, (applyWrites (scanner.Columns.1.map fun key =>
        some (Loc.field (fieldNameOf env rm key)))
      { fields := zeroFields (.struct name fs), slots := [] }
      (scanner.Scan (scanner.Columns.1.map fun key =>
        some (Loc.field (fieldNameOf env rm key)))).1).fields, ?_, ?_, ?_⟩
    · rw [bindTargets_all_mapped env rm name fs [] scanner.Columns.1 hall hP,
        plain_targets env rm _ _ hplain]
    · simp only [metaRecordMapper.Map, scanData_plain env rm name fs hT scanner hall hplain hP,
        hscan]
    · intro i hi
      obtain ⟨f, hf, -, -⟩ := fieldAddr_of_usable fs _
        (hP scanner.Columns.1[i] (List.getElem_mem _) (hall _ (List.getElem_mem _))
          (hplain _ (List.getElem_mem _)))
      refine ⟨f, hf, ?_⟩
      have hz := lookup_zeroFields name fs (fieldNameOf env rm scanner.Columns.1[i])
      rw [hf] at hz
      have hhas : (Store.mk (zeroFields (.struct name fs)) []).has
          (Loc.field (fieldNameOf env rm scanner.Columns.1[i])) = true := by
        simp [Store.has, hz]
      have hr := read_applyWrites _ _ i
        (plain_target_unique (fieldNameOf env rm) scanner.Columns.1 hdistinct i hi)
        (scanner.Scan (scanner.Columns.1.map fun key =>
          some (Loc.field (fieldNameOf env rm key)))).1 _ hhas
      rw [lookup_eq_some_read _ _ (by rw [has_applyWrites]; exact hhas), hr]
      simp [Store.read, hz]
    · intro n f hf hn
      have hz := lookup_zeroFields name fs n
      rw [hf] at hz
      have hhas : (Store.mk (zeroFields (.struct name fs)) []).has (Loc.field n) = true := by
        simp [Store.has, hz]
      have hr := read_applyWrites_of_not_target
        (scanner.Columns.1.map fun key => some (Loc.field (fieldNameOf env rm key)))
        (Loc.field n)
        (by
          intro j h
          apply hn
          simp only [List.getD_eq_getElem?_getD, List.getElem?_map] at h
          cases hc : scanner.Columns.1[j]? with
          | none => simp [hc] at h
          | some key =>
            simp only [hc, Option.map_some', Option.getD_some, Option.some.injEq,
              Loc.field.injEq] at h
            exact List.mem_map.2 ⟨key, List.getElem?_mem hc, h⟩)
        (scanner.Scan (scanner.Columns.1.map fun key =>
          some (Loc.field (fieldNameOf env rm key)))).1 _ hhas
      rw [lookup_eq_some_read _ _ (by rw [has_applyWrites]; exact hhas), hr]
      simp [Store.read, hz]
  · intro hno
    have h0 := count_eq_zero_of_plain env rm _ hplain
    obtain ⟨m, hm⟩ := bindTargets_panics_of_unusable env rm name fs [] [] scanner.Columns.1
      hall hno
    rw [List.append_nil] at hm
    refine ⟨m, hm, ?_⟩
    simp only [metaRecordMapper.Map, scanData, hTs, allocated_eq]
    rw [holdersOf_eq_nil env rm _ h0]
    simp only [hm]

/-! ## The holders after the scan -/

/-- The holder of a translated column of the row. -/
theorem holder_of_translated (env : Env) (rm : metaRecordMapper) (columns : List String)
    (key : String) (hkey : key ∈ columns) (htr : hasValueMap env rm key = true) :
    ∃ idx, (key, idx) ∈ holdersOf env rm columns ∧
      (holdersOf env rm columns).lookup key = some idx := by
  obtain ⟨hnd, hkeys⟩ := holdersOf_spec env rm columns
  obtain ⟨e, he, hk⟩ := List.mem_map.1 ((hkeys key).2 ⟨hkey, htr⟩)
  obtain ⟨k, idx⟩ := e
  simp only at hk
  subst hk
  exact ⟨idx, he, lookup_of_mem_of_nodup _ _ _ he hnd⟩

/-- The raw value of a column is the content of its holder after the scan. -/
theorem rawValueOf_of_mem (env : Env) (rm : metaRecordMapper) (structType : GoType)
    (scanner : Scanner) (e : String × Nat) (he : e ∈ holdersOf env rm scanner.Columns.1) :
    rawValueOf env rm structType scanner e.1 =
      (scannedStore env rm structType scanner).slots.getD e.2 Value.nil := by
  have hl := lookup_of_mem_of_nodup _ e.1 e.2 he (holdersOf_spec env rm scanner.Columns.1).1
  simp only [rawValueOf, hl]

theorem firstError_eq_none (env : Env) (rm : metaRecordMapper) (fs : List Field)
    (slots : List Value) :
    ∀ (entries : List (String × Nat)),
      (∀ e ∈ entries, accepted env rm fs e.1 (slots.getD e.2 Value.nil) = true) →
      firstError env rm fs slots entries = none := by
  intro entries
  induction entries with
  | nil => intro _; rfl
  | cons e rest ih =>
    intro h
    obtain ⟨key, idx⟩ := e
    have hk := h (key, idx) (by simp)
    simp only [accepted] at hk
    simp only [firstError]
    cases ht : translate env rm fs key (slots.getD idx Value.nil) with
    | error err => rw [ht] at hk; cases hk
    | ok r => exact ih (fun e he => h e (List.mem_cons_of_mem _ he))

theorem accepted_of_firstError_eq_none (env : Env) (rm : metaRecordMapper) (fs : List Field)
    (slots : List Value) :
    ∀ (entries : List (String × Nat)), firstError env rm fs slots entries = none →
      ∀ e ∈ entries, accepted env rm fs e.1 (slots.getD e.2 Value.nil) = true := by
  intro entries
  induction entries with
  | nil => intro _ e he; simp at he
  | cons e0 rest ih =>
    intro h e he
    obtain ⟨key, idx⟩ := e0
    simp only [firstError] at h
    cases ht : translate env rm fs key (slots.getD idx Value.nil) with
    | error err => rw [ht] at h; cases h
    | ok r =>
      simp only [ht] at h
      rcases List.mem_cons.1 he with h1 | h1
      · subst h1
        simp only [accepted, ht]
      · exact ih h e h1

/-- The translation step returns the error of the first holder it does not
accept, whatever comes after it. -/
theorem firstError_of_split (env : Env) (rm : metaRecordMapper) (fs : List Field)
    (slots : List Value) (key : String) (idx : Nat) (post : List (String × Nat))
    (err : GoError) (hk : translate env rm fs key (slots.getD idx Value.nil) = .error err) :
    ∀ (pre : List (String × Nat)),
      (∀ e ∈ pre, accepted env rm fs e.1 (slots.getD e.2 Value.nil) = true) →
      firstError env rm fs slots (pre ++ (key, idx) :: post) = some err := by
  intro pre
  induction pre with
  | nil =>
    intro _
    simp only [List.nil_append, firstError, hk]
  | cons e rest ih =>
    intro h
    obtain ⟨k, i⟩ := e
    have hk1 := h (k, i) (by simp)
    simp only [accepted] at hk1
    simp only [List.cons_append, firstError]
    cases ht : translate env rm fs k (slots.getD i Value.nil) with
    | error e => rw [ht] at hk1; cases hk1
    | ok r => exact ih (fun e he => h e (List.mem_cons_of_mem _ he))

theorem lookup_assignAll_of_not_mem (env : Env) (rm : metaRecordMapper) (fs : List Field)
    (slots : List Value) (n : String) :
    ∀ (entries : List (String × Nat)) (fields : List (String × Value)),
      n ∉ entries.map (fun e => fieldNameOf env rm e.1) →
      (assignAll env rm fs slots entries fields).lookup n = fields.lookup n := by
  intro entries
  induction entries with
  | nil => intro fields _; rfl
  | cons e rest ih =>
    intro fields hn
    obtain ⟨key, idx⟩ := e
    simp only [List.map_cons, List.mem_cons, not_or] at hn
    simp only [assignAll]
    split
    · rw [ih _ hn.2, lookup_setField_of_ne _ _ _ _ hn.1]
    · exact ih _ hn.2

/-- When the holders belong to pairwise distinct fields, the field of a holder
ends with the value the translation step assigns for that holder, and as it
was after the scan when the step assigns none. -/
theorem lookup_assignAll_of_mem (env : Env) (rm : metaRecordMapper) (fs : List Field)
    (slots : List Value) (key : String) (idx : Nat) :
    ∀ (entries : List (String × Nat)) (fields : List (String × Value)),
      (entries.map (fun e => fieldNameOf env rm e.1)).Nodup →
      (key, idx) ∈ entries →
      (fields.lookup (fieldNameOf env rm key)).isSome = true →
      (assignAll env rm fs slots entries fields).lookup (fieldNameOf env rm key) =
        match translate env rm fs key (slots.getD idx Value.nil) with
        | .ok (some v) => some v
        | _ => fields.lookup (fieldNameOf env rm key) := by
  intro entries
  induction entries with
  | nil => intro fields _ h; simp at h
  | cons e rest ih =>
    intro fields hnd hmem hsome
    obtain ⟨k, i⟩ := e
    simp only [List.map_cons, List.nodup_cons] at hnd
    rcases List.mem_cons.1 hmem with h1 | h1
    · cases h1
      simp only [assignAll]
      split
      · rw [lookup_assignAll_of_not_mem _ _ _ _ _ _ _ hnd.1, lookup_setField_self _ _ _ hsome]
      · rw [lookup_assignAll_of_not_mem _ _ _ _ _ _ _ hnd.1]
    · have hne : fieldNameOf env rm key ≠ fieldNameOf env rm k := by
        intro h
        apply hnd.1
        rw [← h]
        exact List.mem_map.2 ⟨(key, idx), h1, rfl⟩
      simp only [assignAll]
      split
      · rw [ih _ hnd.2 h1 (by rw [lookup_setField_isSome]; exact hsome),
          lookup_setField_of_ne _ _ _ _ hne]
      · exact ih _ hnd.2 h1 hsome

/-- The holders of a row whose columns map to pairwise distinct fields belong
to pairwise distinct fields, in whatever order they are visited. -/
theorem nodup_fields_mapRange (env : Env) (rm : metaRecordMapper)
    (hperm : ∀ m, (env.mapRange m).Perm m) (columns : List String)
    (hdistinct : (columns.map (fieldNameOf env rm)).Nodup) :
    ((env.mapRange (holdersOf env rm columns)).map fun e => fieldNameOf env rm e.1).Nodup := by
  obtain ⟨hnd, hkeys⟩ := holdersOf_spec env rm columns
  have h1 : ((holdersOf env rm columns).map fun e => fieldNameOf env rm e.1).Nodup := by
    have : ((holdersOf env rm columns).map Prod.fst).map (fieldNameOf env rm) =
        (holdersOf env rm columns).map fun e => fieldNameOf env rm e.1 := by
      simp [List.map_map, Function.comp_def]
    rw [← this]
    apply List.Nodup.map_on _ hnd
    intro x hx y hy hxy
    exact List.inj_on_of_nodup_map hdistinct ((hkeys x).1 hx).1 ((hkeys y).1 hy).1 hxy
  exact ((hperm _).map _).nodup_iff.2 h1

/-- A field of the struct is a field of the instance after the scan. -/
theorem scannedStore_has_field (env : Env) (rm : metaRecordMapper) (name : String)
    (fs : List Field) (scanner : Scanner) (n : String) (f : Field)
    (hf : findField fs n = some f) :
    (scannedStore env rm (.struct name fs) scanner).has (Loc.field n) = true := by
  unfold scannedStore
  rw [has_applyWrites]
  simp only [Store.has, lookup_zeroFields, hf]
  rfl

/-! ## The holders, slot by slot -/

theorem mem_mapSet {α : Type} (m : List (String × α)) (key : String) (v : α)
    (e : String × α) (h : e ∈ mapSet m key v) : e = (key, v) ∨ e ∈ m := by
  induction m with
  | nil =>
    simp only [mapSet, List.mem_singleton] at h
    exact Or.inl h
  | cons e0 rest ih =>
    obtain ⟨k, x⟩ := e0
    by_cases hk : k = key
    · simp only [mapSet, if_pos hk, List.mem_cons] at h
      rcases h with h | h
      · exact Or.inl h
      · exact Or.inr (List.mem_cons_of_mem _ h)
    · simp only [mapSet, if_neg hk, List.mem_cons] at h
      rcases h with h | h
      · exact Or.inr (by rw [h]; simp)
      · rcases ih h with h1 | h1
        · exact Or.inl h1
        · exact Or.inr (List.mem_cons_of_mem _ h1)

theorem mapSet_of_not_mem {α : Type} (m : List (String × α)) (key : String) (v : α)
    (h : key ∉ m.map Prod.fst) : mapSet m key v = m ++ [(key, v)] := by
  induction m with
  | nil => rfl
  | cons e0 rest ih =>
    obtain ⟨k, x⟩ := e0
    simp only [List.map_cons, List.mem_cons, not_or] at h
    have hk : ¬ k = key := fun h2 => h.1 h2.symm
    simp only [mapSet, if_neg hk, ih h.2, List.cons_append]

/-- Every holder the loop of `allocateValueMapByKey` hands out is an element of
`valuesPointers`. -/
theorem allocateLoop_bound (env : Env) (rm : metaRecordMapper) (count : Nat) :
    ∀ (columns : List String) (index : Nat) (result m : List (String × Nat)),
      allocateLoop env rm count columns index result = .ret m →
      (∀ e ∈ result, e.2 < count) → ∀ e ∈ m, e.2 < count := by
  intro columns
  induction columns with
  | nil =>
    intro index result m h hr
    simp only [allocateLoop, Outcome.ret.injEq] at h
    rw [← h]
    exact hr
  | cons key rest ih =>
    intro index result m h hr
    by_cases hk : hasValueMap env rm key = true
    · by_cases hlt : index < count
      · simp only [allocateLoop, if_pos hk, if_pos hlt] at h
        apply ih _ _ _ h
        intro e he
        rcases mem_mapSet _ _ _ _ he with h1 | h1
        · rw [h1]; exact hlt
        · exact hr e h1
      · simp only [allocateLoop, if_pos hk, if_neg hlt] at h
        cases h
    · simp only [allocateLoop, if_neg hk] at h
      exact ih _ _ _ h hr

/-- On pairwise distinct column names the loop of `allocateValueMapByKey` adds
one holder per translated column, slot after slot in column order. -/
theorem allocateLoop_of_nodup (env : Env) (rm : metaRecordMapper) (count : Nat) :
    ∀ (columns : List String) (index : Nat) (result : List (String × Nat)),
      columns.Nodup → (∀ k ∈ columns, k ∉ result.map Prod.fst) →
      index + columns.countP (hasValueMap env rm) ≤ count →
      allocateLoop env rm count columns index result =
        .ret (result ++ holdersFrom env rm index columns) := by
  intro columns
  induction columns with
  | nil =>
    intro index result _ _ _
    simp [allocateLoop, holdersFrom]
  | cons key rest ih =>
    intro index result hnd hdis h
    simp only [List.nodup_cons] at hnd
    by_cases hk : hasValueMap env rm key = true
    · rw [List.countP_cons_of_pos _ _ hk] at h
      have hlt : index < count := by omega
      have hset := mapSet_of_not_mem result key index (hdis key (by simp))
      simp only [allocateLoop, if_pos hk, if_pos hlt, holdersFrom, hset]
      rw [ih (index + 1) (result ++ [(key, index)]) hnd.2 ?_ (by omega)]
      · simp
      · intro k hkm
        simp only [List.map_append, List.map_cons, List.map_nil, List.mem_append,
          List.mem_singleton, not_or]
        refine ⟨hdis k (List.mem_cons_of_mem _ hkm), ?_⟩
        intro h2
        rw [h2] at hkm
        exact hnd.1 hkm
    · rw [List.countP_cons_of_neg _ _ hk] at h
      simp only [allocateLoop, if_neg hk, holdersFrom]
      exact ih index result hnd.2 (fun k hkm => hdis k (List.mem_cons_of_mem _ hkm)) h

/-- The holders of a row with pairwise distinct column names. -/
theorem holdersOf_of_nodup (env : Env) (rm : metaRecordMapper) (columns : List String)
    (hnd : columns.Nodup) : holdersOf env rm columns = holdersFrom env rm 0 columns := by
  have h := allocateLoop_of_nodup env rm (getValueMappingCount env rm columns) columns 0 []
    hnd (by simp) (by rw [getValueMappingCount_eq]; omega)
  simp only [holdersOf, allocateValueMapByKey, h, List.nil_append]

theorem holdersFrom_snd (env : Env) (rm : metaRecordMapper) :
    ∀ (columns : List String) (index : Nat),
      (holdersFrom env rm index columns).map Prod.snd =
        List.range' index (columns.countP (hasValueMap env rm)) := by
  intro columns
  induction columns with
  | nil => intro index; rfl
  | cons key rest ih =>
    intro index
    by_cases hk : hasValueMap env rm key = true
    · simp only [holdersFrom, if_pos hk, List.map_cons, ih, List.countP_cons_of_pos _ _ hk,
        List.range'_succ]
    · simp only [holdersFrom, if_neg hk, ih, List.countP_cons_of_neg _ _ hk]

theorem lookup_append_of_not_mem (pre l : List (String × Nat)) (k : String)
    (h : k ∉ pre.map Prod.fst) : (pre ++ l).lookup k = l.lookup k := by
  induction pre with
  | nil => rfl
  | cons e rest ih =>
    obtain ⟨k', x⟩ := e
    simp only [List.map_cons, List.mem_cons, not_or] at h
    have hk : (k == k') = false := by simpa using h.1
    simp only [List.cons_append, List.lookup_cons, hk]
    exact ih h.2

/-- On pairwise distinct column names the targets bound for a row are the
slots in column order for the translated columns and the storage of the
fields for the others. -/
theorem map_boundTarget_of_nodup (env : Env) (rm : metaRecordMapper) :
    ∀ (columns : List String) (index : Nat) (pre : List (String × Nat)),
      columns.Nodup → (∀ k ∈ columns, k ∉ pre.map Prod.fst) →
      columns.map (boundTarget env rm (pre ++ holdersFrom env rm index columns)) =
        targetsFrom env rm index columns := by
  intro columns
  induction columns with
  | nil => intro index pre _ _; rfl
  | cons key rest ih =>
    intro index pre hnd hdis
    simp only [List.nodup_cons] at hnd
    by_cases hk : hasValueMap env rm key = true
    · have hl : (pre ++ (key, index) :: holdersFrom env rm (index + 1) rest).lookup key =
          some index := by
        rw [lookup_append_of_not_mem _ _ _ (hdis key (by simp))]
        simp [List.lookup_cons]
      have hassoc : pre ++ (key, index) :: holdersFrom env rm (index + 1) rest =
          (pre ++ [(key, index)]) ++ holdersFrom env rm (index + 1) rest := by simp
      simp only [holdersFrom, if_pos hk, targetsFrom, List.map_cons]
      congr 1
      · simp only [boundTarget, hk, if_true, hl, Option.map_some']
      · rw [hassoc]
        apply ih (index + 1) (pre ++ [(key, index)]) hnd.2
        intro k hkm
        simp only [List.map_append, List.map_cons, List.map_nil, List.mem_append,
          List.mem_singleton, not_or]
        refine ⟨hdis k (List.mem_cons_of_mem _ hkm), ?_⟩
        intro h2
        rw [h2] at hkm
        exact hnd.1 hkm
    · simp only [holdersFrom, if_neg hk, targetsFrom, List.map_cons]
      congr 1
      · simp [boundTarget, hk]
      · exact ih index pre hnd.2 (fun k hkm => hdis k (List.mem_cons_of_mem _ hkm))

theorem targetsOf_of_nodup (env : Env) (rm : metaRecordMapper) (name : String)
    (fs : List Field) (columns : List String)
    (hall : ∀ key ∈ columns, isMapped env rm key = true)
    (hP : PlainExported env rm fs columns) (hnd : columns.Nodup) :
    targetsOf env rm (.struct name fs) columns = targetsFrom env rm 0 columns := by
  rw [targetsOf_eq env rm name fs columns hall hP, holdersOf_of_nodup env rm columns hnd]
  have := map_boundTarget_of_nodup env rm columns 0 [] hnd (by simp)
  simpa using this

/-- Every holder of a row is an element of `valuesPointers`. -/
theorem holdersOf_bound (env : Env) (rm : metaRecordMapper) (columns : List String) :
    ∀ e ∈ holdersOf env rm columns, e.2 < getValueMappingCount env rm columns := by
  obtain ⟨m, hm, -, -⟩ := allocateLoop_spec env rm (getValueMappingCount env rm columns)
    columns 0 [] (by rw [getValueMappingCount_eq]; omega)
  have hmeq : holdersOf env rm columns = m := by
    simp only [holdersOf, allocateValueMapByKey, hm]
  rw [hmeq]
  exact allocateLoop_bound env rm _ columns 0 [] m hm (by simp)

/-- The holders of a row with pairwise distinct column names are pairwise
distinct slots. -/
theorem holdersOf_snd_nodup (env : Env) (rm : metaRecordMapper) (columns : List String)
    (hnd : columns.Nodup) : ((holdersOf env rm columns).map Prod.snd).Nodup := by
  rw [holdersOf_of_nodup env rm columns hnd, holdersFrom_snd]
  exact List.nodup_range' _ _

/-- In a row with pairwise distinct column names, the holder of a translated
column is the scan target at the position of that column only. -/
theorem holder_target_unique (env : Env) (rm : metaRecordMapper) (columns : List String)
    (hnd : columns.Nodup) (i : Nat) (key : String) (hi : columns[i]? = some key)
    (htr : hasValueMap env rm key = true) (idx : Nat)
    (hl : (holdersOf env rm columns).lookup key = some idx) (j : Nat) :
    (columns.map (boundTarget env rm (holdersOf env rm columns))).getD j none =
      some (Loc.slot idx) ↔ j = i := by
  simp only [List.getD_eq_getElem?_getD, List.getElem?_map]
  constructor
  · intro h
    cases hc : columns[j]? with
    | none => simp [hc] at h
    | some k =>
      simp only [hc, Option.map_some', Option.getD_some, boundTarget] at h
      cases hv : hasValueMap env rm k with
      | false => simp [hv] at h
      | true =>
        simp only [hv, if_true] at h
        cases hlk : (holdersOf env rm columns).lookup k with
        | none => simp [hlk] at h
        | some i2 =>
          simp only [hlk, Option.map_some', Option.some.injEq, Loc.slot.injEq] at h
          subst h
          have h1 := lookup_mem _ _ _ hlk
          have h2 := lookup_mem _ _ _ hl
          have h3 := List.inj_on_of_nodup_map (holdersOf_snd_nodup env rm columns hnd) h1 h2 rfl
          have hk : k = key := congrArg Prod.fst h3
          have hj : j < columns.length := by
            by_contra hge
            rw [List.getElem?_eq_none (by omega)] at hc
            cases hc
          exact List.getElem?_inj hj hnd (by rw [hc, hi, hk])
  · intro h
    subst h
    simp [hi, boundTarget, htr, hl]

/-- In a fully mapped row with pairwise distinct column names, the raw value
in the holder of a translated column after the scan is the value the scanner
delivers for that column. -/
theorem rawValueOf_eq_deliveredFor (env : Env) (rm : metaRecordMapper) (name : String)
    (fs : List Field) (scanner : Scanner)
    (hall : ∀ key ∈ scanner.Columns.1, isMapped env rm key = true)
    (hP : PlainExported env rm fs scanner.Columns.1) (hnd : scanner.Columns.1.Nodup)
    (key : String) (hkey : key ∈ scanner.Columns.1) (htr : hasValueMap env rm key = true) :
    rawValueOf env rm (.struct name fs) scanner key =
      deliveredFor env rm (.struct name fs) scanner key := by
  obtain ⟨idx, hmem, hl⟩ := holder_of_translated env rm scanner.Columns.1 key hkey htr
  have hTg := targetsOf_eq env rm name fs scanner.Columns.1 hall hP
  have hi := List.getElem?_indexOf hkey
  have hb := holdersOf_bound env rm scanner.Columns.1 (key, idx) hmem
  have hhas : (Store.mk (zeroFields (.struct name fs))
      (List.replicate (getValueMappingCount env rm scanner.Columns.1) Value.nil)).has
      (Loc.slot idx) = true := by
    simpa [Store.has] using hb
  have hr := read_applyWrites (targetsOf env rm (.struct name fs) scanner.Columns.1)
    (Loc.slot idx) (scanner.Columns.1.indexOf key)
    (by
      intro j
      rw [hTg]
      exact holder_target_unique env rm scanner.Columns.1 hnd _ key hi htr idx hl j)
    (scanner.Scan (targetsOf env rm (.struct name fs) scanner.Columns.1)).1 _ hhas
  simp only [Store.read] at hr
  simp only [rawValueOf, hl, scannedStore, deliveredFor, deliveredAt, hr]
  congr 1
  simp [List.getD_eq_getElem?_getD, List.getElem?_replicate, hb]

/-! ## The translated path -/

/-- What `Map` returns once the scan of a fully mapped row has succeeded. -/
theorem Map_after_scan (env : Env) (rm : metaRecordMapper) (name : String) (fs : List Field)
    (hT : StructOf env rm name fs) (hperm : ∀ m, (env.mapRange m).Perm m)
    (scanner : Scanner) (hall : ∀ key ∈ scanner.Columns.1, isMapped env rm key = true)
    (hX : ExportedFields env rm fs scanner.Columns.1)
    (hscan : (scanner.Scan (targetsOf env rm (.struct name fs) scanner.Columns.1)).2 = none) :
    rm.Map env scanner =
      match firstError env rm fs (scannedStore env rm (.struct name fs) scanner).slots
          (env.mapRange (holdersOf env rm scanner.Columns.1)) with
      | some err => .ret (Result.nil, some err)
      | none =>
        .ret (wrapRecord rm.usePointer
          (assignAll env rm fs (scannedStore env rm (.struct name fs) scanner).slots
            (env.mapRange (holdersOf env rm scanner.Columns.1))
            (scannedStore env rm (.struct name fs) scanner).fields), none) := by
  simp only [metaRecordMapper.Map, scanData_eq env rm name fs hT hperm scanner hall hX, hscan]

/-- The holders the translation step visits are all accepted when the holder
of every translated column of the row is. -/
theorem accepted_entries (env : Env) (rm : metaRecordMapper) (name : String) (fs : List Field)
    (hperm : ∀ m, (env.mapRange m).Perm m) (scanner : Scanner)
    (hacc : ∀ k ∈ scanner.Columns.1, hasValueMap env rm k = true →
      accepted env rm fs k (rawValueOf env rm (.struct name fs) scanner k) = true) :
    ∀ e ∈ env.mapRange (holdersOf env rm scanner.Columns.1),
      accepted env rm fs e.1
        ((scannedStore env rm (.struct name fs) scanner).slots.getD e.2 Value.nil) = true := by
  intro e he
  obtain ⟨h1, h2, h3⟩ := mem_mapRange_holders env rm hperm _ e he
  rw [← rawValueOf_of_mem env rm (.struct name fs) scanner e h1]
  exact hacc e.1 h2 h3

/-- C5 (amended): in a fully mapped row whose columns name exported fields of
the struct, pairwise distinct, and whose scan succeeds, for a translated
column for which the scanner delivers a value that is not nil and whose text
is a key of the translation table of the column, the value `Map` assigns to
the field of the column is the replacement of the table converted for the
field (`v`): every record `Map` returns holds `v` in that field, and `Map`
does return a record when the translation step accepts what the scanner
delivers for every translated column of the row. -/
theorem Map_translation_hit (env : Env) (rm : metaRecordMapper) (name : String)
    (fs : List Field) (hT : StructOf env rm name fs)
    (hperm : ∀ m, (env.mapRange m).Perm m) (scanner : Scanner)
    (hall : ∀ key ∈ scanner.Columns.1, isMapped env rm key = true)
    (hX : ExportedFields env rm fs scanner.Columns.1)
    (hdistinct : (scanner.Columns.1.map (fieldNameOf env rm)).Nodup)
    (hscan : (scanner.Scan (targetsOf env rm (.struct name fs) scanner.Columns.1)).2 = none)
    (key : String) (hkey : key ∈ scanner.Columns.1) (htr : hasValueMap env rm key = true)
    (hnn : deliveredFor env rm (.struct name fs) scanner key ≠ Value.nil)
    (mapped : String)
    (hhit : (valueMapOf env rm key).lookup
      (textOf env (deliveredFor env rm (.struct name fs) scanner key)) = some mapped)
    (f : Field) (hf : findField fs (fieldNameOf env rm key) = some f)
    (v : Value) (hconv : env.AssignConverted rm.converter f mapped = .ok v) :
    (∀ res, rm.Map env scanner = .ret (res, none) →
      ∃ record, res = wrapRecord rm.usePointer record ∧
        record.lookup (fieldNameOf env rm key) = some v) ∧
    ((∀ k ∈ scanner.Columns.1, hasValueMap env rm k = true →
        accepted env rm fs k (deliveredFor env rm (.struct name fs) scanner k) = true) →
      ∃ record, rm.Map env scanner = .ret (wrapRecord rm.usePointer record, none) ∧
        record.lookup (fieldNameOf env rm key) = some v) := by
  have hnd : scanner.Columns.1.Nodup := List.Nodup.of_map _ hdistinct
  have hdel : ∀ k ∈ scanner.Columns.1, hasValueMap env rm k = true →
      rawValueOf env rm (.struct name fs) scanner k =
        deliveredFor env rm (.struct name fs) scanner k :=
    fun k hk hv => rawValueOf_eq_deliveredFor env rm name fs scanner hall hX.plain hnd k hk hv
  rw [← hdel key hkey htr] at hnn hhit
  have hM := Map_after_scan env rm name fs hT hperm scanner hall hX hscan
  obtain ⟨idx, hmem, -⟩ := holder_of_translated env rm scanner.Columns.1 key hkey htr
  have hraw := rawValueOf_of_mem env rm (.struct name fs) scanner (key, idx) hmem
  simp only at hraw
  have htrans : translate env rm fs key
      ((scannedStore env rm (.struct name fs) scanner).slots.getD idx Value.nil) =
      .ok (some v) := by
    rw [← hraw]
    simp only [translate, if_neg hnn, hhit, hf, hconv]
  have hlook := lookup_assignAll_of_mem env rm fs
    (scannedStore env rm (.struct name fs) scanner).slots key idx
    (env.mapRange (holdersOf env rm scanner.Columns.1))
    (scannedStore env rm (.struct name fs) scanner).fields
    (nodup_fields_mapRange env rm hperm _ hdistinct)
    ((hperm _).mem_iff.2 hmem)
    (scannedStore_has_field env rm name fs scanner _ f hf)
  rw [htrans] at hlook
  simp only at hlook
  constructor
  · intro res hres
    rw [hM] at hres
    cases hfe : firstError env rm fs (scannedStore env rm (.struct name fs) scanner).slots
        (env.mapRange (holdersOf env rm scanner.Columns.1)) with
    | some err => rw [hfe] at hres; simp at hres
    | none =>
      rw [hfe] at hres
      simp only [Outcome.ret.injEq, Prod.mk.injEq, and_true] at hres
      exact ⟨_, hres.symm, hlook⟩
  · intro hacc
    have hfe := firstError_eq_none env rm fs _ _
      (accepted_entries env rm name fs hperm scanner
        (fun k hk hv => by rw [hdel k hk hv]; exact hacc k hk hv))
    rw [hfe] at hM
    exact ⟨_, hM, hlook⟩

/-- The sample environment visits the holders in the order of the entries. -/
theorem demoEnv_mapRange : ∀ m, (demoEnv.mapRange m).Perm m :=
  fun m => List.Perm.refl m

/-- C5 on the table 1:ACTIVE, 0:INACTIVE: the raw value "1" gives the field
the value "ACTIVE". -/
theorem Map_translation_hit_witness :
    deliveredFor demoEnv userMapper userType
      (rowScanner ["id", "status"] [Value.int 7, Value.str "1"]) "status" = Value.str "1" ∧
    valueMapOf demoEnv userMapper "status" = [("1", "ACTIVE"), ("0", "INACTIVE")] ∧
    userMapper.Map demoEnv (rowScanner ["id", "status"] [Value.int 7, Value.str "1"]) =
      .ret (Result.structValue [("Id", Value.int 7), ("Status", Value.str "ACTIVE"),
        ("Kind", Value.str ""), ("Note", Value.nil)], none) ∧
    ∃ record,
      userMapper.Map demoEnv (rowScanner ["id", "status"] [Value.int 7, Value.str "1"]) =
        .ret (wrapRecord userMapper.usePointer record, none) ∧
      record.lookup (fieldNameOf demoEnv userMapper "status") = some (Value.str "ACTIVE") :=
  ⟨by decide, by decide, by decide,
   (Map_translation_hit demoEnv userMapper "User" userFields userMapper_structOf
      demoEnv_mapRange (rowScanner ["id", "status"] [Value.int 7, Value.str "1"])
      (by decide) (by decide) (by decide) (by decide) "status" (by decide) (by decide)
      (by decide) "ACTIVE" (by decide) ⟨"Status", Kind.String, true⟩ (by decide)
      (Value.str "ACTIVE") rfl).2 (by decide)⟩

/-- C5 as stated fails in two ways. On the mapper `accountMapper`, whose
translated field `state` is not exported, the raw value "1" of the column
state is a key of its table, yet `Map` assigns nothing: it panics at line 85,
where it takes the address of the field. On the row with the columns status
and STATUS, which map to the same field, the scanner delivers "0" for status,
a key of the table with the replacement "INACTIVE", yet the record `Map`
returns holds "ACTIVE", the replacement for the column STATUS, which the
translation step visits later. -/
theorem Map_translation_hit_counterexample :
    (hasValueMap demoEnv accountMapper "state" = true ∧
      deliveredFor demoEnv accountMapper accountType
        (rowScanner ["name", "state"] [Value.str "ann", Value.str "1"]) "state" =
          Value.str "1" ∧
      (valueMapOf demoEnv accountMapper "state").lookup (textOf demoEnv (Value.str "1")) =
        some "ACTIVE" ∧
      accountMapper.Map demoEnv
          (rowScanner ["name", "state"] [Value.str "ann", Value.str "1"]) =
        .panic "reflect.Value.Interface: cannot return value obtained from unexported field or method") ∧
    (hasValueMap demoEnv userMapper "status" = true ∧
      deliveredFor demoEnv userMapper userType
        (rowScanner ["status", "STATUS"] [Value.str "0", Value.str "1"]) "status" =
          Value.str "0" ∧
      (valueMapOf demoEnv userMapper "status").lookup (textOf demoEnv (Value.str "0")) =
        some "INACTIVE" ∧
      demoEnv.AssignConverted userMapper.converter ⟨"Status", Kind.String, true⟩ "INACTIVE" =
        .ok (Value.str "INACTIVE") ∧
      userMapper.Map demoEnv (rowScanner ["status", "STATUS"] [Value.str "0", Value.str "1"]) =
        .ret (Result.structValue [("Id", Value.int 0), ("Status", Value.str "ACTIVE"),
          ("Kind", Value.str ""), ("Note", Value.nil)], none)) := by
  refine ⟨⟨by decide, by decide, by decide, by decide⟩,
    ⟨by decide, by decide, by decide, rfl, by decide⟩⟩

/-- The struct type of `personMapper` resolves to the struct `Person`. -/
theorem personMapper_structOf : StructOf demoEnv personMapper "Person" personFields := rfl

/-- C4 on a row with the columns ID and Name of `Person`: the record returned
holds the two scanned values, and `Age`, which no column names, is zero. -/
theorem Map_zero_copy_round_trip_witness :
    personMapper.Map demoEnv (rowScanner ["ID", "Name"] [Value.int 7, Value.str "ann"]) =
      .ret (Result.structPointer
        [("Id", Value.int 7), ("Name", Value.str "ann"), ("Age", Value.int 0)], none) ∧
    bindTargets demoEnv personMapper (.struct "Person" personFields) []
        (rowScanner ["ID", "Name"] [Value.int 7, Value.str "ann"]).Columns.1 =
      .ret (.ok [some (Loc.field "Id"), some (Loc.field "Name")]) ∧
    ∃ record,
      personMapper.Map demoEnv (rowScanner ["ID", "Name"] [Value.int 7, Value.str "ann"]) =
        .ret (wrapRecord personMapper.usePointer record, none) ∧
      (∀ i (hi : i < (rowScanner ["ID", "Name"] [Value.int 7, Value.str "ann"]).Columns.1.length),
        ∃ f, findField personFields (fieldNameOf demoEnv personMapper
            ((rowScanner ["ID", "Name"] [Value.int 7, Value.str "ann"]).Columns.1.get ⟨i, hi⟩)) =
              some f ∧
          record.lookup (fieldNameOf demoEnv personMapper
            ((rowScanner ["ID", "Name"] [Value.int 7, Value.str "ann"]).Columns.1.get ⟨i, hi⟩)) =
            some ((lastWrite [(0, Value.int 7), (1, Value.str "ann")] i).getD
              (zeroValue f.kind))) ∧
      (∀ n f, findField personFields n = some f →
        n ∉ (rowScanner ["ID", "Name"] [Value.int 7, Value.str "ann"]).Columns.1.map
          (fieldNameOf demoEnv personMapper) →
        record.lookup n = some (zeroValue f.kind)) :=
  ⟨by decide,
   ((Map_zero_copy_round_trip demoEnv personMapper "Person" personFields personMapper_structOf
      (rowScanner ["ID", "Name"] [Value.int 7, Value.str "ann"])
      (by decide) (by decide) (by decide) rfl).1 (by decide)).1,
   ((Map_zero_copy_round_trip demoEnv personMapper "Person" personFields personMapper_structOf
      (rowScanner ["ID", "Name"] [Value.int 7, Value.str "ann"])
      (by decide) (by decide) (by decide) rfl).1 (by decide)).2⟩

/-- C4 as stated fails on the mapper the factory builds for the struct `Ledger`,
whose field `id` is not exported: the columns id and name match descriptors
without a translation table and map to distinct fields, and the scan would
succeed, yet `Map` returns no record. It panics at line 123, where it takes the
address of the field `id`, before it calls `Scan`. -/
theorem Map_zero_copy_round_trip_counterexample :
    NewRecordMapper demoEnv ledgerType = .ret (some (.meta ledgerMapper)) ∧
    (∀ key ∈ (rowScanner ["id", "name"] [Value.int 7, Value.str "ann"]).Columns.1,
      isMapped demoEnv ledgerMapper key = true ∧ hasValueMap demoEnv ledgerMapper key = false) ∧
    ((rowScanner ["id", "name"] [Value.int 7, Value.str "ann"]).Columns.1.map
      (fieldNameOf demoEnv ledgerMapper)).Nodup ∧
    ((rowScanner ["id", "name"] [Value.int 7, Value.str "ann"]).Scan
      [some (Loc.field "id"), some (Loc.field "Name")]).2 = none ∧
    ledgerMapper.Map demoEnv (rowScanner ["id", "name"] [Value.int 7, Value.str "ann"]) =
      .panic "reflect.Value.Interface: cannot return value obtained from unexported field or method" ∧
    (scanDataTraced demoEnv ledgerMapper
      (rowScanner ["id", "name"] [Value.int 7, Value.str "ann"])).1 = [] := by
  refine ⟨by decide, by decide, by decide, by decide, by decide, by decide⟩

/-! ## Holders the translation step rejects -/

theorem nodup_keys_mapRange (env : Env) (rm : metaRecordMapper)
    (hperm : ∀ m, (env.mapRange m).Perm m) (columns : List String) :
    ((env.mapRange (holdersOf env rm columns)).map Prod.fst).Nodup :=
  ((hperm _).map _).nodup_iff.2 (holdersOf_spec env rm columns).1

/-- A holder the translation step rejects makes `Map` fail: with the error of
that holder when it is the first rejected holder the step visits, which it is
when it is the only rejected holder of the row. -/
theorem Map_rejected_holder (env : Env) (rm : metaRecordMapper) (name : String)
    (fs : List Field) (hT : StructOf env rm name fs)
    (hperm : ∀ m, (env.mapRange m).Perm m) (scanner : Scanner)
    (hall : ∀ key ∈ scanner.Columns.1, isMapped env rm key = true)
    (hX : ExportedFields env rm fs scanner.Columns.1)
    (hscan : (scanner.Scan (targetsOf env rm (.struct name fs) scanner.Columns.1)).2 = none)
    (key : String) (hkey : key ∈ scanner.Columns.1) (htr : hasValueMap env rm key = true)
    (err : GoError)
    (hrej : translate env rm fs key (rawValueOf env rm (.struct name fs) scanner key) =
      .error err) :
    (∃ e, rm.Map env scanner = .ret (Result.nil, some e)) ∧
    (∀ pre idx post,
      env.mapRange (holdersOf env rm scanner.Columns.1) = pre ++ (key, idx) :: post →
      (∀ e ∈ pre, accepted env rm fs e.1
        (rawValueOf env rm (.struct name fs) scanner e.1) = true) →
      rm.Map env scanner = .ret (Result.nil, some err)) ∧
    ((∀ k ∈ scanner.Columns.1, k ≠ key → hasValueMap env rm k = true →
        accepted env rm fs k (rawValueOf env rm (.struct name fs) scanner k) = true) →
      rm.Map env scanner = .ret (Result.nil, some err)) := by
  have hM := Map_after_scan env rm name fs hT hperm scanner hall hX hscan
  obtain ⟨idx, hmem, -⟩ := holder_of_translated env rm scanner.Columns.1 key hkey htr
  have hmemE : (key, idx) ∈ env.mapRange (holdersOf env rm scanner.Columns.1) :=
    (hperm _).mem_iff.2 hmem
  have hsplit : ∀ pre idx post,
      env.mapRange (holdersOf env rm scanner.Columns.1) = pre ++ (key, idx) :: post →
      (∀ e ∈ pre, accepted env rm fs e.1
        (rawValueOf env rm (.struct name fs) scanner e.1) = true) →
      rm.Map env scanner = .ret (Result.nil, some err) := by
    intro pre idx2 post hsp hpre
    have hmem2 : (key, idx2) ∈ holdersOf env rm scanner.Columns.1 :=
      (hperm _).mem_iff.1 (by rw [hsp]; simp)
    have hraw := rawValueOf_of_mem env rm (.struct name fs) scanner (key, idx2) hmem2
    simp only at hraw
    rw [hraw] at hrej
    have hpre2 : ∀ e ∈ pre, accepted env rm fs e.1
        ((scannedStore env rm (.struct name fs) scanner).slots.getD e.2 Value.nil) = true := by
      intro e he
      have he2 : e ∈ holdersOf env rm scanner.Columns.1 :=
        (hperm _).mem_iff.1 (by rw [hsp]; simp [he])
      rw [← rawValueOf_of_mem env rm (.struct name fs) scanner e he2]
      exact hpre e he
    rw [hM, hsp, firstError_of_split env rm fs _ key idx2 post err hrej pre hpre2]
  refine ⟨?_, hsplit, ?_⟩
  · cases hfe : firstError env rm fs (scannedStore env rm (.struct name fs) scanner).slots
        (env.mapRange (holdersOf env rm scanner.Columns.1)) with
    | some e => exact ⟨e, by rw [hM, hfe]⟩
    | none =>
      exfalso
      have hacc := accepted_of_firstError_eq_none env rm fs _ _ hfe (key, idx) hmemE
      have hraw := rawValueOf_of_mem env rm (.struct name fs) scanner (key, idx) hmem
      simp only at hraw hacc
      rw [hraw] at hrej
      simp only [accepted] at hacc
      rw [hrej] at hacc
      cases hacc
  · intro honly
    obtain ⟨pre, post, hsp⟩ := List.append_of_mem hmemE
    apply hsplit pre idx post hsp
    intro e he
    have heE : e ∈ env.mapRange (holdersOf env rm scanner.Columns.1) := by
      rw [hsp]; simp [he]
    obtain ⟨-, h2, h3⟩ := mem_mapRange_holders env rm hperm _ e heE
    have hnd := nodup_keys_mapRange env rm hperm scanner.Columns.1
    rw [hsp, List.map_append, List.map_cons] at hnd
    have hne : e.1 ≠ key := by
      intro h
      have h4 := (List.nodup_append.1 hnd).2.2
      have h5 : e.1 ∈ pre.map Prod.fst := List.mem_map.2 ⟨e, he, rfl⟩
      exact h4 h5 (by rw [h]; simp)
    exact honly e.1 h2 hne h3

/-- The text of the translation-miss error of a column: the entries of the
table, each as key:replacement, in some order, followed by the text that was
looked up. -/
theorem missMessage_reports (env : Env) (rm : metaRecordMapper) (key : String) (raw : Value) :
    ∃ entries : List (String × String), entries.Perm (valueMapOf env rm key) ∧
      missMessage env rm key raw =
        "Failed to map record, unable to find valid mapping, want one of map["
          ++ (" ".intercalate (entries.map fun e => e.1 ++ ":" ++ e.2)
            ++ ("], but had " ++ textOf env raw)) := by
  refine ⟨sortedEntries (valueMapOf env rm key), List.perm_insertionSort _ _, ?_⟩
  simp only [missMessage, fmtStringMap, String.append_assoc]
  rfl

/-- The body of the loop of `applyFieldMapValuesIfNeeded` on a holder whose raw
value is not nil and has no replacement in the table of the column: it
returns the translation-miss error; it assigns nothing and returns no store. -/
theorem applyFieldMapValue_miss (env : Env) (rm : metaRecordMapper) (name : String)
    (fs : List Field) (st : Store) (key : String) (idx : Nat)
    (hnn : st.slots.getD idx Value.nil ≠ Value.nil)
    (hmiss : (valueMapOf env rm key).lookup (textOf env (st.slots.getD idx Value.nil)) = none) :
    applyFieldMapValue env rm (.struct name fs) st key idx =
      .ret (.error ⟨missMessage env rm key (st.slots.getD idx Value.nil)⟩) := by
  rw [applyFieldMapValue_eq env rm name fs st key idx
    (fun h => by unfold isHit at h; rw [hmiss] at h; simp at h)]
  simp only [translate, if_neg hnn, hmiss, missMessage]

/-- C6 (amended): in a fully mapped row whose column names are pairwise
distinct and name exported fields of the struct, and whose scan succeeds, for
a translated column for which the scanner delivers a value that is not nil
and whose text is not a key of the translation table of the column: `Map`
returns a nil record and an error. The error is the translation-miss error of
that column when its holder is the first holder the translation step
rejects, in particular when it is the only rejected holder of the row. The
text of that error holds the text that was looked up and every entry of the
table. The loop body returns the error for this holder without assigning to
the field. -/
theorem Map_translation_miss (env : Env) (rm : metaRecordMapper) (name : String)
    (fs : List Field) (hT : StructOf env rm name fs)
    (hperm : ∀ m, (env.mapRange m).Perm m) (scanner : Scanner)
    (hall : ∀ key ∈ scanner.Columns.1, isMapped env rm key = true)
    (hX : ExportedFields env rm fs scanner.Columns.1)
    (hnd : scanner.Columns.1.Nodup)
    (hscan : (scanner.Scan (targetsOf env rm (.struct name fs) scanner.Columns.1)).2 = none)
    (key : String) (hkey : key ∈ scanner.Columns.1) (htr : hasValueMap env rm key = true)
    (hnn : deliveredFor env rm (.struct name fs) scanner key ≠ Value.nil)
    (hmiss : (valueMapOf env rm key).lookup
      (textOf env (deliveredFor env rm (.struct name fs) scanner key)) = none) :
    (∃ e, rm.Map env scanner = .ret (Result.nil, some e)) ∧
    (∀ pre idx post,
      env.mapRange (holdersOf env rm scanner.Columns.1) = pre ++ (key, idx) :: post →
      (∀ e ∈ pre, accepted env rm fs e.1
        (deliveredFor env rm (.struct name fs) scanner e.1) = true) →
      rm.Map env scanner = .ret (Result.nil, some
        ⟨missMessage env rm key (deliveredFor env rm (.struct name fs) scanner key)⟩)) ∧
    ((∀ k ∈ scanner.Columns.1, k ≠ key → hasValueMap env rm k = true →
        accepted env rm fs k (deliveredFor env rm (.struct name fs) scanner k) = true) →
      rm.Map env scanner = .ret (Result.nil, some
        ⟨missMessage env rm key (deliveredFor env rm (.struct name fs) scanner key)⟩)) ∧
    (∃ entries : List (String × String), entries.Perm (valueMapOf env rm key) ∧
      missMessage env rm key (deliveredFor env rm (.struct name fs) scanner key) =
        "Failed to map record, unable to find valid mapping, want one of map["
          ++ (" ".intercalate (entries.map fun e => e.1 ++ ":" ++ e.2)
            ++ ("], but had "
              ++ textOf env (deliveredFor env rm (.struct name fs) scanner key)))) ∧
    (∀ st idx,
      st.slots.getD idx Value.nil = deliveredFor env rm (.struct name fs) scanner key →
      applyFieldMapValue env rm (.struct name fs) st key idx =
        .ret (.error
          ⟨missMessage env rm key (deliveredFor env rm (.struct name fs) scanner key)⟩)) := by
  have hdel : ∀ k ∈ scanner.Columns.1, hasValueMap env rm k = true →
      rawValueOf env rm (.struct name fs) scanner k =
        deliveredFor env rm (.struct name fs) scanner k :=
    fun k hk hv => rawValueOf_eq_deliveredFor env rm name fs scanner hall hX.plain hnd k hk hv
  have hrej : translate env rm fs key (rawValueOf env rm (.struct name fs) scanner key) =
      .error ⟨missMessage env rm key (deliveredFor env rm (.struct name fs) scanner key)⟩ := by
    rw [hdel key hkey htr]
    simp only [translate, if_neg hnn, hmiss, missMessage]
  obtain ⟨h1, h2, h3⟩ := Map_rejected_holder env rm name fs hT hperm scanner hall hX hscan key
    hkey htr _ hrej
  refine ⟨h1, ?_, ?_, missMessage_reports env rm key _, ?_⟩
  · intro pre idx post hsp hpre
    apply h2 pre idx post hsp
    intro e he
    have heE : e ∈ env.mapRange (holdersOf env rm scanner.Columns.1) := by
      rw [hsp]; simp [he]
    obtain ⟨-, h4, h5⟩ := mem_mapRange_holders env rm hperm _ e heE
    rw [hdel e.1 h4 h5]
    exact hpre e he
  · intro honly
    apply h3
    intro k hk hne hv
    rw [hdel k hk hv]
    exact honly k hk hne hv
  · intro st idx hst
    rw [← hst] at hnn hmiss ⊢
    exact applyFieldMapValue_miss env rm name fs st key idx hnn hmiss

/-- C6 on the table 1:ACTIVE, 0:INACTIVE: the raw value "2" makes `Map` fail
with the error that reports "2" and the entries with the keys 0 and 1. -/
theorem Map_translation_miss_witness :
    deliveredFor demoEnv userMapper userType
      (rowScanner ["id", "status"] [Value.int 7, Value.str "2"]) "status" = Value.str "2" ∧
    valueMapOf demoEnv userMapper "status" = [("1", "ACTIVE"), ("0", "INACTIVE")] ∧
    missMessage demoEnv userMapper "status" (Value.str "2") =
      "Failed to map record, unable to find valid mapping, want one of map[0:INACTIVE 1:ACTIVE], but had 2" ∧
    userMapper.Map demoEnv (rowScanner ["id", "status"] [Value.int 7, Value.str "2"]) =
      .ret (Result.nil, some ⟨missMessage demoEnv userMapper "status"
        (deliveredFor demoEnv userMapper userType
          (rowScanner ["id", "status"] [Value.int 7, Value.str "2"]) "status")⟩) :=
  ⟨by decide, by decide, by decide,
   (Map_translation_miss demoEnv userMapper "User" userFields userMapper_structOf
      demoEnv_mapRange (rowScanner ["id", "status"] [Value.int 7, Value.str "2"])
      (by decide) (by decide) (by decide) (by decide) "status" (by decide) (by decide)
      (by decide) (by decide)).2.2.1 (by decide)⟩

/-- C6 as stated fails in three ways. On a row with two translated columns that
both miss, the column `kind` holds "C", which is not a key of its table, yet
the error `Map` returns is the one of the column `status` and reports neither
"C" nor the table of `kind`: in whatever order the holders are visited, `Map`
returns one error and so cannot report both columns. On the mapper
`accountMapper`, whose translated field `state` is not exported, the column
`kind` misses, yet `Map` returns no error: it panics at line 85 for the
column `state`, visited before. On a row that names the column `status`
twice, the scanner delivers "2" at the first position, not a key of the
table, yet `Map` returns a record: both positions are bound to one holder,
which ends with the "1" delivered at the second position. -/
theorem Map_translation_miss_counterexample :
    (hasValueMap demoEnv userMapper "status" = true ∧
      hasValueMap demoEnv userMapper "kind" = true ∧
      deliveredFor demoEnv userMapper userType
        (rowScanner ["status", "kind"] [Value.str "2", Value.str "C"]) "status" =
          Value.str "2" ∧
      deliveredFor demoEnv userMapper userType
        (rowScanner ["status", "kind"] [Value.str "2", Value.str "C"]) "kind" = Value.str "C" ∧
      (valueMapOf demoEnv userMapper "status").lookup (textOf demoEnv (Value.str "2")) = none ∧
      (valueMapOf demoEnv userMapper "kind").lookup (textOf demoEnv (Value.str "C")) = none ∧
      missMessage demoEnv userMapper "kind" (Value.str "C") =
        "Failed to map record, unable to find valid mapping, want one of map[A:alpha B:beta], but had C" ∧
      userMapper.Map demoEnv (rowScanner ["status", "kind"] [Value.str "2", Value.str "C"]) =
        .ret (Result.nil, some
          ⟨"Failed to map record, unable to find valid mapping, want one of map[0:INACTIVE 1:ACTIVE], but had 2"⟩) ∧
      userMapper.Map demoEnv (rowScanner ["status", "kind"] [Value.str "2", Value.str "C"]) ≠
        .ret (Result.nil, some ⟨missMessage demoEnv userMapper "kind" (Value.str "C")⟩) ∧
      ∀ order : List (String × Nat) → List (String × Nat),
        ¬ (userMapper.Map (demoEnvWith order)
              (rowScanner ["status", "kind"] [Value.str "2", Value.str "C"]) =
            .ret (Result.nil, some ⟨missMessage demoEnv userMapper "status" (Value.str "2")⟩) ∧
          userMapper.Map (demoEnvWith order)
              (rowScanner ["status", "kind"] [Value.str "2", Value.str "C"]) =
            .ret (Result.nil, some ⟨missMessage demoEnv userMapper "kind" (Value.str "C")⟩))) ∧
    (hasValueMap demoEnv accountMapper "kind" = true ∧
      deliveredFor demoEnv accountMapper accountType
        (rowScanner ["state", "kind"] [Value.str "1", Value.str "C"]) "kind" = Value.str "C" ∧
      (valueMapOf demoEnv accountMapper "kind").lookup (textOf demoEnv (Value.str "C")) =
        none ∧
      accountMapper.Map demoEnv (rowScanner ["state", "kind"] [Value.str "1", Value.str "C"]) =
        .panic "reflect.Value.Interface: cannot return value obtained from unexported field or method") ∧
    (deliveredAt demoEnv userMapper userType
        (rowScanner ["status", "status"] [Value.str "2", Value.str "1"]) 0 = Value.str "2" ∧
      (valueMapOf demoEnv userMapper "status").lookup (textOf demoEnv (Value.str "2")) = none ∧
      userMapper.Map demoEnv (rowScanner ["status", "status"] [Value.str "2", Value.str "1"]) =
        .ret (Result.structValue [("Id", Value.int 0), ("Status", Value.str "ACTIVE"),
          ("Kind", Value.str ""), ("Note", Value.nil)], none)) := by
  refine ⟨⟨by decide, by decide, by decide, by decide, by decide, by decide, by decide,
    by decide, by decide, ?_⟩, ⟨by decide, by decide, by decide, by decide⟩,
    ⟨by decide, by decide, by decide⟩⟩
  rintro order ⟨h1, h2⟩
  rw [h1] at h2
  exact absurd h2 (by decide)

/-! ## Nil holders -/

/-- The field of a translated column is no scan target when the columns of the
row map to pairwise distinct fields: after the scan it is still zero. -/
theorem scanned_field_of_translated (env : Env) (rm : metaRecordMapper) (name : String)
    (fs : List Field) (scanner : Scanner)
    (hall : ∀ key ∈ scanner.Columns.1, isMapped env rm key = true)
    (hP : PlainExported env rm fs scanner.Columns.1)
    (hdistinct : (scanner.Columns.1.map (fieldNameOf env rm)).Nodup)
    (key : String) (hkey : key ∈ scanner.Columns.1) (htr : hasValueMap env rm key = true)
    (f : Field) (hf : findField fs (fieldNameOf env rm key) = some f) :
    (scannedStore env rm (.struct name fs) scanner).fields.lookup (fieldNameOf env rm key) =
      some (zeroValue f.kind) := by
  have hz := lookup_zeroFields name fs (fieldNameOf env rm key)
  rw [hf] at hz
  have hhas : (Store.mk (zeroFields (.struct name fs))
      (List.replicate (getValueMappingCount env rm scanner.Columns.1) Value.nil)).has
      (Loc.field (fieldNameOf env rm key)) = true := by
    simp [Store.has, hz]
  have hnot : ∀ j, (targetsOf env rm (.struct name fs) scanner.Columns.1).getD j none ≠
      some (Loc.field (fieldNameOf env rm key)) := by
    intro j h
    rw [targetsOf_eq env rm name fs _ hall hP] at h
    simp only [List.getD_eq_getElem?_getD, List.getElem?_map] at h
    cases hc : scanner.Columns.1[j]? with
    | none => simp [hc] at h
    | some k =>
      have hk : k ∈ scanner.Columns.1 := List.getElem?_mem hc
      simp only [hc, Option.map_some', Option.getD_some, boundTarget] at h
      cases hv : hasValueMap env rm k with
      | true =>
        simp only [hv, if_true] at h
        cases hl : (holdersOf env rm scanner.Columns.1).lookup k with
        | none => simp [hl] at h
        | some i => simp [hl] at h
      | false =>
        simp only [hv, Bool.false_eq_true, if_false, Option.some.injEq, Loc.field.injEq] at h
        have := List.inj_on_of_nodup_map hdistinct hk hkey h
        rw [this, htr] at hv
        cases hv
  have hr := read_applyWrites_of_not_target _ _ hnot
    (scanner.Scan (targetsOf env rm (.struct name fs) scanner.Columns.1)).1 _ hhas
  have hhas2 := scannedStore_has_field env rm name fs scanner _ f hf
  rw [lookup_eq_some_read _ _ hhas2]
  unfold scannedStore
  rw [hr]
  simp [Store.read, hz]

/-- C7 (amended): in a fully mapped row whose columns name exported fields of
the struct and whose scan succeeds, for a translated column whose holder is
nil after the scan. If the field of the column is not of pointer kind, `Map`
returns a nil record and an error, which is the cannot-assign-nil error naming
the field when the holder is the first holder the translation step rejects,
in particular when it is the only rejected holder of the row. If the field is
of pointer kind, the translation step returns no error for the holder, looks
nothing up and leaves the store as it is; when moreover the columns of the
row map to pairwise distinct fields, every record `Map` returns holds nil in
that field, and `Map` returns a record when every holder of the row is
accepted. -/
theorem Map_nil_holder (env : Env) (rm : metaRecordMapper) (name : String)
    (fs : List Field) (hT : StructOf env rm name fs)
    (hperm : ∀ m, (env.mapRange m).Perm m) (scanner : Scanner)
    (hall : ∀ key ∈ scanner.Columns.1, isMapped env rm key = true)
    (hX : ExportedFields env rm fs scanner.Columns.1)
    (hscan : (scanner.Scan (targetsOf env rm (.struct name fs) scanner.Columns.1)).2 = none)
    (key : String) (hkey : key ∈ scanner.Columns.1) (htr : hasValueMap env rm key = true)
    (hnil : rawValueOf env rm (.struct name fs) scanner key = Value.nil) :
    (fieldKind (findField fs (fieldNameOf env rm key)) ≠ Kind.Ptr →
      (∃ e, rm.Map env scanner = .ret (Result.nil, some e)) ∧
      (∀ pre idx post,
        env.mapRange (holdersOf env rm scanner.Columns.1) = pre ++ (key, idx) :: post →
        (∀ e ∈ pre, accepted env rm fs e.1
          (rawValueOf env rm (.struct name fs) scanner e.1) = true) →
        rm.Map env scanner = .ret (Result.nil, some ⟨nilMessage env rm key⟩)) ∧
      ((∀ k ∈ scanner.Columns.1, k ≠ key → hasValueMap env rm k = true →
          accepted env rm fs k (rawValueOf env rm (.struct name fs) scanner k) = true) →
        rm.Map env scanner = .ret (Result.nil, some ⟨nilMessage env rm key⟩))) ∧
    (fieldKind (findField fs (fieldNameOf env rm key)) = Kind.Ptr →
      translate env rm fs key Value.nil = .ok none ∧
      (∀ st idx, st.slots.getD idx Value.nil = Value.nil →
        applyFieldMapValue env rm (.struct name fs) st key idx = .ret (.ok st)) ∧
      ((scanner.Columns.1.map (fieldNameOf env rm)).Nodup →
        (∀ res, rm.Map env scanner = .ret (res, none) →
          ∃ record, res = wrapRecord rm.usePointer record ∧
            record.lookup (fieldNameOf env rm key) = some Value.nil) ∧
        ((∀ k ∈ scanner.Columns.1, hasValueMap env rm k = true →
            accepted env rm fs k (rawValueOf env rm (.struct name fs) scanner k) = true) →
          ∃ record, rm.Map env scanner = .ret (wrapRecord rm.usePointer record, none) ∧
            record.lookup (fieldNameOf env rm key) = some Value.nil))) := by
  constructor
  · intro hk
    have hrej : translate env rm fs key (rawValueOf env rm (.struct name fs) scanner key) =
        .error ⟨nilMessage env rm key⟩ := by
      rw [hnil]
      simp only [translate, if_true, if_pos hk, nilMessage]
    exact Map_rejected_holder env rm name fs hT hperm scanner hall hX hscan key hkey htr _ hrej
  · intro hk
    have hskip : translate env rm fs key Value.nil = .ok none := by
      simp [translate, hk]
    refine ⟨hskip, ?_, ?_⟩
    · intro st idx hst
      rw [applyFieldMapValue_eq env rm name fs st key idx
        (fun h => by rw [hst] at h; simp [isHit] at h), hst, hskip]
    · intro hdistinct
      have hM := Map_after_scan env rm name fs hT hperm scanner hall hX hscan
      obtain ⟨idx, hmem, -⟩ := holder_of_translated env rm scanner.Columns.1 key hkey htr
      have hraw := rawValueOf_of_mem env rm (.struct name fs) scanner (key, idx) hmem
      simp only at hraw
      obtain ⟨f, hf, -, -⟩ := fieldAddr_of_usable fs _
        (hX key hkey (isMapped_of_hasValueMap env rm key htr))
      have hkind : f.kind = Kind.Ptr := by
        rw [hf] at hk
        exact hk
      have hlook := lookup_assignAll_of_mem env rm fs
        (scannedStore env rm (.struct name fs) scanner).slots key idx
        (env.mapRange (holdersOf env rm scanner.Columns.1))
        (scannedStore env rm (.struct name fs) scanner).fields
        (nodup_fields_mapRange env rm hperm _ hdistinct)
        ((hperm _).mem_iff.2 hmem)
        (scannedStore_has_field env rm name fs scanner _ f hf)
      rw [← hraw, hnil, hskip] at hlook
      simp only at hlook
      rw [scanned_field_of_translated env rm name fs scanner hall hX.plain hdistinct key hkey
        htr f hf, hkind] at hlook
      constructor
      · intro res hres
        rw [hM] at hres
        cases hfe : firstError env rm fs (scannedStore env rm (.struct name fs) scanner).slots
            (env.mapRange (holdersOf env rm scanner.Columns.1)) with
        | some err => rw [hfe] at hres; simp at hres
        | none =>
          rw [hfe] at hres
          simp only [Outcome.ret.injEq, Prod.mk.injEq, and_true] at hres
          exact ⟨_, hres.symm, hlook⟩
      · intro hacc
        have hfe := firstError_eq_none env rm fs _ _
          (accepted_entries env rm name fs hperm scanner hacc)
        rw [hfe] at hM
        exact ⟨_, hM, hlook⟩

/-- C7 on two rows: a nil holder for the string field `Status` makes `Map`
fail with the error naming `Status`; a nil holder for the pointer field `Note`
raises no error and leaves `Note` nil. -/
theorem Map_nil_holder_witness :
    nilMessage demoEnv userMapper "status" =
      "Failed to apply value map on Status, unable to set nil" ∧
    userMapper.Map demoEnv (rowScanner ["id", "status"] [Value.int 7, Value.nil]) =
      .ret (Result.nil, some ⟨nilMessage demoEnv userMapper "status"⟩) ∧
    userMapper.Map demoEnv (rowScanner ["id", "note"] [Value.int 7, Value.nil]) =
      .ret (Result.structValue [("Id", Value.int 7), ("Status", Value.str ""),
        ("Kind", Value.str ""), ("Note", Value.nil)], none) ∧
    ∃ record,
      userMapper.Map demoEnv (rowScanner ["id", "note"] [Value.int 7, Value.nil]) =
        .ret (wrapRecord userMapper.usePointer record, none) ∧
      record.lookup (fieldNameOf demoEnv userMapper "note") = some Value.nil :=
  ⟨by decide,
   ((Map_nil_holder demoEnv userMapper "User" userFields userMapper_structOf
      demoEnv_mapRange (rowScanner ["id", "status"] [Value.int 7, Value.nil])
      (by decide) (by decide) (by decide) "status" (by decide) (by decide) (by decide)).1
        (by decide)).2.2 (by decide),
   by decide,
   (((Map_nil_holder demoEnv userMapper "User" userFields userMapper_structOf
      demoEnv_mapRange (rowScanner ["id", "note"] [Value.int 7, Value.nil])
      (by decide) (by decide) (by decide) "note" (by decide) (by decide) (by decide)).2
        (by decide)).2.2 (by decide)).2 (by decide)⟩

/-- C7 as stated fails in three ways. On a row with two translated columns
whose holders are both nil and whose fields are both strings, the field of
`kind` is not of pointer kind, yet the error `Map` returns is the one naming
`Status`, not the cannot-assign-nil error naming `Kind`: in whatever order the
holders are visited, `Map` returns one error and so cannot name both fields.
On the mapper `accountMapper`, whose field `id` is not exported, the holder of
`kind` is nil for a string field, yet `Map` returns no error: it panics at
line 123 for the column `id`. On the row with the columns note and NOTE, which
map to the same pointer field, the holder of `note` is nil, yet the field is
not left nil: it receives the replacement for the column NOTE. -/
theorem Map_nil_holder_counterexample :
    (hasValueMap demoEnv userMapper "status" = true ∧
      hasValueMap demoEnv userMapper "kind" = true ∧
      rawValueOf demoEnv userMapper userType
        (rowScanner ["status", "kind"] [Value.nil, Value.nil]) "status" = Value.nil ∧
      rawValueOf demoEnv userMapper userType
        (rowScanner ["status", "kind"] [Value.nil, Value.nil]) "kind" = Value.nil ∧
      fieldKind (findField userFields (fieldNameOf demoEnv userMapper "status")) =
        Kind.String ∧
      fieldKind (findField userFields (fieldNameOf demoEnv userMapper "kind")) = Kind.String ∧
      nilMessage demoEnv userMapper "kind" =
        "Failed to apply value map on Kind, unable to set nil" ∧
      userMapper.Map demoEnv (rowScanner ["status", "kind"] [Value.nil, Value.nil]) =
        .ret (Result.nil, some ⟨"Failed to apply value map on Status, unable to set nil"⟩) ∧
      userMapper.Map demoEnv (rowScanner ["status", "kind"] [Value.nil, Value.nil]) ≠
        .ret (Result.nil, some ⟨nilMessage demoEnv userMapper "kind"⟩) ∧
      ∀ order : List (String × Nat) → List (String × Nat),
        ¬ (userMapper.Map (demoEnvWith order)
              (rowScanner ["status", "kind"] [Value.nil, Value.nil]) =
            .ret (Result.nil, some ⟨nilMessage demoEnv userMapper "status"⟩) ∧
          userMapper.Map (demoEnvWith order)
              (rowScanner ["status", "kind"] [Value.nil, Value.nil]) =
            .ret (Result.nil, some ⟨nilMessage demoEnv userMapper "kind"⟩))) ∧
    (hasValueMap demoEnv accountMapper "kind" = true ∧
      rawValueOf demoEnv accountMapper accountType
        (rowScanner ["id", "kind"] [Value.int 7, Value.nil]) "kind" = Value.nil ∧
      fieldKind (findField accountFields (fieldNameOf demoEnv accountMapper "kind")) =
        Kind.String ∧
      accountMapper.Map demoEnv (rowScanner ["id", "kind"] [Value.int 7, Value.nil]) =
        .panic "reflect.Value.Interface: cannot return value obtained from unexported field or method") ∧
    (hasValueMap demoEnv userMapper "note" = true ∧
      rawValueOf demoEnv userMapper userType
        (rowScanner ["note", "NOTE"] [Value.nil, Value.str "1"]) "note" = Value.nil ∧
      fieldKind (findField userFields (fieldNameOf demoEnv userMapper "note")) = Kind.Ptr ∧
      userMapper.Map demoEnv (rowScanner ["note", "NOTE"] [Value.nil, Value.str "1"]) =
        .ret (Result.structValue [("Id", Value.int 0), ("Status", Value.str ""),
          ("Kind", Value.str ""), ("Note", Value.other "ACTIVE")], none)) := by
  refine ⟨⟨by decide, by decide, by decide, by decide, by decide, by decide, by decide,
    by decide, by decide, ?_⟩, ⟨by decide, by decide, by decide, by decide⟩,
    ⟨by decide, by decide, by decide, by decide⟩⟩
  rintro order ⟨h1, h2⟩
  rw [h1] at h2
  exact absurd h2 (by decide)

/-! ## Byte sequences and text -/

theorem bytesToText_idem (v : Value) : bytesToText (bytesToText v) = bytesToText v := by
  cases v <;> rfl

theorem bytesToText_eq_nil (v : Value) : bytesToText v = Value.nil ↔ v = Value.nil := by
  cases v <;> simp [bytesToText]

/-- When `toolbox.AsString` returns a string unchanged, a byte sequence and
its text are looked up under the same text. -/
theorem textOf_bytesToText (env : Env) (hAs : ∀ s, env.AsString (Value.str s) = s)
    (v : Value) : textOf env (bytesToText v) = textOf env v := by
  cases v <;> simp [bytesToText, textOf, hAs]

theorem asText_slots_getD (st : Store) (idx : Nat) :
    st.asText.slots.getD idx Value.nil = bytesToText (st.slots.getD idx Value.nil) := by
  have := @List.getD_map _ _ st.slots Value.nil idx bytesToText
  simpa [Store.asText, bytesToText] using this

/-- Two scans that differ only in that one writes a byte sequence and the
other its text, through a target that is not the storage of a field, leave
stores that agree once byte sequences in holders are read as text. -/
theorem asText_applyWrites_textAt (targets : List Target) (i : Nat)
    (hi : ∀ n, targets.getD i none ≠ some (Loc.field n)) :
    ∀ (writes : List (Nat × Value)) (sA sB : Store), sA.asText = sB.asText →
      (applyWrites targets sA writes).asText =
        (applyWrites targets sB (textAt i writes)).asText := by
  intro writes
  induction writes with
  | nil => intro sA sB h; exact h
  | cons w rest ih =>
    intro sA sB h
    obtain ⟨j, v⟩ := w
    have key : ∀ (t : Target) (v1 v2 : Value), bytesToText v1 = bytesToText v2 →
        (∀ n, t = some (Loc.field n) → v1 = v2) →
        (sA.write t v1).asText = (sB.write t v2).asText := by
      intro t v1 v2 hv hf
      cases t with
      | none => exact h
      | some l =>
        cases l with
        | field n =>
          have := hf n rfl
          subst this
          show (sA.asText).write (some (Loc.field n)) v1 =
            (sB.asText).write (some (Loc.field n)) v1
          rw [h]
        | slot k =>
          have e1 : (sA.write (some (Loc.slot k)) v1).asText =
              sA.asText.write (some (Loc.slot k)) (bytesToText v1) := by
            simp [Store.write, Store.asText, List.map_set]
          have e2 : (sB.write (some (Loc.slot k)) v2).asText =
              sB.asText.write (some (Loc.slot k)) (bytesToText v2) := by
            simp [Store.write, Store.asText, List.map_set]
          rw [e1, e2, h, hv]
    by_cases hj : j = i
    · have e : textAt i ((j, v) :: rest) = (j, bytesToText v) :: textAt i rest := by
        simp [textAt, hj]
      rw [e]
      simp only [applyWrites]
      apply ih
      subst hj
      exact key _ _ _ (bytesToText_idem v).symm (fun n hn => absurd hn (hi n))
    · have e : textAt i ((j, v) :: rest) = (j, v) :: textAt i rest := by
        simp [textAt, hj]
      rw [e]
      simp only [applyWrites]
      apply ih
      exact key _ _ _ rfl (fun _ _ => rfl)

/-- The body of the loop of `applyFieldMapValuesIfNeeded` does the same on a
store and on the store with byte sequences in holders read as text. -/
theorem applyFieldMapValue_asText (env : Env) (hAs : ∀ s, env.AsString (Value.str s) = s)
    (rm : metaRecordMapper) (structType : GoType) (st : Store) (key : String) (idx : Nat) :
    applyFieldMapValue env rm structType st.asText key idx =
      match applyFieldMapValue env rm structType st key idx with
      | .panic m => .panic m
      | .ret (.error e) => .ret (.error e)
      | .ret (.ok s) => .ret (.ok s.asText) := by
  simp only [applyFieldMapValue, asText_slots_getD, bytesToText_eq_nil,
    textOf_bytesToText env hAs]
  cases FieldByName structType
      ((((rm.columnToFieldMap.lookup (env.ToLower key)).getD []).lookup "fieldName").getD "") with
  | panic m => rfl
  | ret field =>
    simp only
    by_cases hnil : st.slots.getD idx Value.nil = Value.nil
    · simp only [hnil, if_true]
      by_cases hk : fieldKind field ≠ Kind.Ptr
      · simp only [if_pos hk]
      · simp only [if_neg hk]
    · simp only [if_neg hnil]
      cases (env.MakeStringMap
          ((((rm.columnToFieldMap.lookup (env.ToLower key)).getD []).lookup "valueMap").getD "")
          ":" ",").lookup (textOf env (st.slots.getD idx Value.nil)) with
      | none => rfl
      | some mapped =>
        simp only
        cases fieldAddr field with
        | panic m => rfl
        | ret p =>
          simp only
          cases env.AssignConverted rm.converter p mapped with
          | error e => rfl
          | ok v => rfl

/-- The method `applyFieldMapValuesIfNeeded` does the same on a store and on the
store with byte sequences in holders read as text. -/
theorem applyFieldMapValuesIfNeeded_asText (env : Env)
    (hAs : ∀ s, env.AsString (Value.str s) = s) (rm : metaRecordMapper)
    (structType : GoType) :
    ∀ (entries : List (String × Nat)) (st : Store),
      applyFieldMapValuesIfNeeded env rm structType entries st.asText =
        match applyFieldMapValuesIfNeeded env rm structType entries st with
        | .panic m => .panic m
        | .ret (s, e) => .ret (s.asText, e) := by
  intro entries
  induction entries with
  | nil => intro st; rfl
  | cons e rest ih =>
    intro st
    obtain ⟨key, idx⟩ := e
    simp only [applyFieldMapValuesIfNeeded, applyFieldMapValue_asText env hAs]
    cases applyFieldMapValue env rm structType st key idx with
    | panic m => rfl
    | ret r =>
      cases r with
      | error err => rfl
      | ok s => exact ih s

theorem asText_fields (st : Store) : st.asText.fields = st.fields := rfl

/-- The target bound to a translated column is a holder, never the storage of
a field. -/
theorem boundTarget_translated (env : Env) (rm : metaRecordMapper)
    (fvm : List (String × Nat)) (key : String) (htr : hasValueMap env rm key = true)
    (n : String) : boundTarget env rm fvm key ≠ some (Loc.field n) := by
  simp only [boundTarget, htr, if_true]
  cases fvm.lookup key <;> simp

/-- A call of `scanData` on a row where the scanner writes a byte sequence for
a translated column and a call on the row that differs only in that the
scanner writes the text of the byte sequence instead, both visiting the
holders in the order of `env`, have the same outcome. -/
theorem scanData_bytes_as_text (env : Env) (rm : metaRecordMapper)
    (hAs : ∀ s, env.AsString (Value.str s) = s) (sc1 sc2 : Scanner) (i : Nat) (key : String)
    (hi : sc1.Columns.1[i]? = some key) (htr : hasValueMap env rm key = true)
    (hcols : sc2.Columns.1 = sc1.Columns.1)
    (hscan : ∀ ts, sc2.Scan ts = (textAt i (sc1.Scan ts).1, (sc1.Scan ts).2)) :
    scanData env rm sc2 = scanData env rm sc1 := by
  simp only [scanData, hcols]
  cases env.DiscoverTypeByKind rm.structType Kind.Struct with
  | panic m => rfl
  | ret structType =>
    simp only
    cases (if decide (getValueMappingCount env rm sc1.Columns.1 > 0) = true then
        allocateValueMapByKey env rm sc1.Columns.1 else Outcome.ret ([], [])) with
    | panic m => rfl
    | ret a =>
      obtain ⟨fvm, vp⟩ := a
      simp only
      cases hb : bindTargets env rm structType fvm sc1.Columns.1 with
      | panic m => rfl
      | ret r =>
        cases r with
        | error err => rfl
        | ok ts =>
          simp only [hscan ts]
          cases (sc1.Scan ts).2 with
          | some err => rfl
          | none =>
            simp only
            have hts := bindTargets_ok env rm structType fvm _ ts hb
            have hnf : ∀ n, ts.getD i none ≠ some (Loc.field n) := by
              intro n
              rw [hts, List.getD_eq_getElem?_getD, List.getElem?_map, hi]
              exact boundTarget_translated env rm fvm key htr n
            have hst := asText_applyWrites_textAt ts i hnf (sc1.Scan ts).1
              { fields := zeroFields structType, slots := vp }
              { fields := zeroFields structType, slots := vp } rfl
            generalize applyWrites ts { fields := zeroFields structType, slots := vp }
              (sc1.Scan ts).1 = stA at hst
            generalize applyWrites ts { fields := zeroFields structType, slots := vp }
              (textAt i (sc1.Scan ts).1) = stB at hst
            by_cases hc : getValueMappingCount env rm sc1.Columns.1 > 0
            · simp only [hc, decide_True, if_true]
              have hA := applyFieldMapValuesIfNeeded_asText env hAs rm structType
                (env.mapRange fvm) stA
              have hB := applyFieldMapValuesIfNeeded_asText env hAs rm structType
                (env.mapRange fvm) stB
              rw [hst] at hA
              rw [hA] at hB
              cases hlA : applyFieldMapValuesIfNeeded env rm structType (env.mapRange fvm) stA with
              | panic m =>
                cases hlB : applyFieldMapValuesIfNeeded env rm structType (env.mapRange fvm)
                    stB with
                | panic m2 =>
                  rw [hlA, hlB] at hB
                  simp only [Outcome.panic.injEq] at hB
                  rw [hB]
                | ret rB =>
                  rw [hlA, hlB] at hB
                  cases hB
              | ret rA =>
                cases hlB : applyFieldMapValuesIfNeeded env rm structType (env.mapRange fvm)
                    stB with
                | panic m2 =>
                  rw [hlA, hlB] at hB
                  cases hB
                | ret rB =>
                  rw [hlA, hlB] at hB
                  obtain ⟨sA, eA⟩ := rA
                  obtain ⟨sB, eB⟩ := rB
                  simp only [Outcome.ret.injEq, Prod.mk.injEq] at hB
                  have hf : sB.fields = sA.fields := by
                    rw [← asText_fields sA, ← asText_fields sB, hB.1]
                  have he : eB = eA := hB.2.symm
                  subst he
                  cases eB with
                  | some err => rfl
                  | none => simp only [hf]
            · simp only [hc, decide_False, Bool.false_eq_true, if_false]
              have hf : stB.fields = stA.fields := by
                rw [← asText_fields stA, ← asText_fields stB, hst]
              simp only [hf]

/-- C8 (amended): for a translated column, a call of `Map` on a row where the
scanner writes a byte sequence for that column and a call of `Map` on the row
that differs only in that the scanner writes the text of the byte sequence
instead have the same outcome (the same record, the same error or the same
panic) whenever the two calls visit the holders in the same order `order`. It
is assumed that `toolbox.AsString` returns a string unchanged. -/
theorem Map_bytes_as_text (env : Env) (rm : metaRecordMapper)
    (hAs : ∀ s, env.AsString (Value.str s) = s) (sc1 sc2 : Scanner) (i : Nat) (key : String)
    (hi : sc1.Columns.1[i]? = some key) (htr : hasValueMap env rm key = true)
    (hcols : sc2.Columns.1 = sc1.Columns.1)
    (hscan : ∀ ts, sc2.Scan ts = (textAt i (sc1.Scan ts).1, (sc1.Scan ts).2))
    (order : List (String × Nat) → List (String × Nat)) :
    rm.Map { env with mapRange := order } sc2 = rm.Map { env with mapRange := order } sc1 :=
  scanData_bytes_as_text { env with mapRange := order } rm hAs sc1 sc2 i key hi htr hcols hscan

/-- The sample environment converts a string to itself. -/
theorem demoEnv_AsString : ∀ s, demoEnv.AsString (Value.str s) = s :=
  fun _ => rfl

/-- C8 on the byte sequence of "1" and the text "1" for the translated column
`status`: both rows give the record with the status "ACTIVE". -/
theorem Map_bytes_as_text_witness :
    userMapper.Map demoEnv (rowScanner ["id", "status"] [Value.int 7, Value.bytes "1"]) =
      .ret (Result.structValue [("Id", Value.int 7), ("Status", Value.str "ACTIVE"),
        ("Kind", Value.str ""), ("Note", Value.nil)], none) ∧
    userMapper.Map { demoEnv with mapRange := List.reverse }
        (rowScanner ["id", "status"] [Value.int 7, Value.str "1"]) =
      userMapper.Map { demoEnv with mapRange := List.reverse }
        (rowScanner ["id", "status"] [Value.int 7, Value.bytes "1"]) :=
  ⟨by decide,
   Map_bytes_as_text demoEnv userMapper demoEnv_AsString
     (rowScanner ["id", "status"] [Value.int 7, Value.bytes "1"])
     (rowScanner ["id", "status"] [Value.int 7, Value.str "1"]) 1 "status"
     rfl (by decide) rfl (fun _ => rfl) List.reverse⟩

/-- C8 as stated fails when the two calls visit the holders in different
orders, which Go is free to do: on the row where the scanner delivers the
byte sequence of "2" for `status` and "C" for `kind`, a call that visits the
holder of `status` first returns the translation-miss error of `status`; on
the row that differs only in that the scanner delivers the text "2", a call
that visits the holder of `kind` first returns the translation-miss error of
`kind`. Both orders are orders of the holders of the row. -/
theorem Map_bytes_as_text_counterexample :
    hasValueMap demoEnv userMapper "status" = true ∧
    (∀ ts, (rowScanner ["status", "kind"] [Value.str "2", Value.str "C"]).Scan ts =
      (textAt 0 ((rowScanner ["status", "kind"] [Value.bytes "2", Value.str "C"]).Scan ts).1,
        ((rowScanner ["status", "kind"] [Value.bytes "2", Value.str "C"]).Scan ts).2)) ∧
    holdersOf demoEnv userMapper ["status", "kind"] = [("status", 0), ("kind", 1)] ∧
    (List.reverse [("status", 0), ("kind", 1)]).Perm [("status", 0), ("kind", 1)] ∧
    userMapper.Map demoEnv (rowScanner ["status", "kind"] [Value.bytes "2", Value.str "C"]) =
      .ret (Result.nil, some ⟨missMessage demoEnv userMapper "status" (Value.str "2")⟩) ∧
    userMapper.Map (demoEnvWith List.reverse)
        (rowScanner ["status", "kind"] [Value.str "2", Value.str "C"]) =
      .ret (Result.nil, some ⟨missMessage demoEnv userMapper "kind" (Value.str "C")⟩) ∧
    userMapper.Map (demoEnvWith List.reverse)
        (rowScanner ["status", "kind"] [Value.str "2", Value.str "C"]) ≠
      userMapper.Map demoEnv (rowScanner ["status", "kind"] [Value.bytes "2", Value.str "C"]) := by
  refine ⟨by decide, fun _ => rfl, by decide, by decide, by decide, by decide, by decide⟩

/-! ## Scan failures and the calls of a run -/

/-- The traced run returns what `scanData` returns. -/
theorem scanDataTraced_result (env : Env) (rm : metaRecordMapper) (scanner : Scanner) :
    (scanDataTraced env rm scanner).2 = scanData env rm scanner := by
  simp only [scanDataTraced, scanData]
  cases env.DiscoverTypeByKind rm.structType Kind.Struct with
  | panic m => rfl
  | ret structType =>
    simp only
    cases (if decide (getValueMappingCount env rm scanner.Columns.1 > 0) = true then
        allocateValueMapByKey env rm scanner.Columns.1 else Outcome.ret ([], [])) with
    | panic m => rfl
    | ret a =>
      obtain ⟨fvm, vp⟩ := a
      simp only
      cases bindTargets env rm structType fvm scanner.Columns.1 with
      | panic m => rfl
      | ret r =>
        cases r with
        | error err => rfl
        | ok ts =>
          simp only
          cases (scanner.Scan ts).2 with
          | some err => rfl
          | none =>
            simp only
            by_cases hc : getValueMappingCount env rm scanner.Columns.1 > 0
            · simp only [hc, decide_True, if_true]
              cases applyFieldMapValuesIfNeeded env rm structType (env.mapRange fvm)
                  (applyWrites ts { fields := zeroFields structType, slots := vp }
                    (scanner.Scan ts).1) with
              | panic m => rfl
              | ret r =>
                obtain ⟨s, e⟩ := r
                cases e <;> rfl
            · simp only [hc, decide_False, Bool.false_eq_true, if_false]

/-- The calls of a run of a structured mapper on a fully mapped row: one call
to `Scan`, with the targets bound for the row, followed by one call to
`applyFieldMapValuesIfNeeded` when the scan succeeds and the row has a
translated column. -/
theorem scanDataTraced_events (env : Env) (rm : metaRecordMapper) (name : String)
    (fs : List Field) (hT : StructOf env rm name fs) (scanner : Scanner)
    (hall : ∀ key ∈ scanner.Columns.1, isMapped env rm key = true)
    (hP : PlainExported env rm fs scanner.Columns.1) :
    (scanDataTraced env rm scanner).1 =
      match (scanner.Scan (targetsOf env rm (.struct name fs) scanner.Columns.1)).2 with
      | some _ => [Event.scan (targetsOf env rm (.struct name fs) scanner.Columns.1)]
      | none =>
        if getValueMappingCount env rm scanner.Columns.1 > 0 then
          [Event.scan (targetsOf env rm (.struct name fs) scanner.Columns.1),
            Event.applyFieldMapValues (holdersOf env rm scanner.Columns.1)]
        else [Event.scan (targetsOf env rm (.struct name fs) scanner.Columns.1)] := by
  have hTg := targetsOf_eq env rm name fs scanner.Columns.1 hall hP
  have hB := bindTargets_all_mapped env rm name fs (holdersOf env rm scanner.Columns.1)
    scanner.Columns.1 hall hP
  rw [← hTg] at hB
  have hTs : env.DiscoverTypeByKind rm.structType Kind.Struct = .ret (.struct name fs) := hT
  simp only [scanDataTraced, hTs, allocated_eq, hB]
  cases (scanner.Scan (targetsOf env rm (.struct name fs) scanner.Columns.1)).2 with
  | some err => rfl
  | none =>
    simp only
    by_cases hc : getValueMappingCount env rm scanner.Columns.1 > 0
    · simp only [hc, decide_True, if_true]
      cases applyFieldMapValuesIfNeeded env rm (.struct name fs)
          (env.mapRange (holdersOf env rm scanner.Columns.1))
          (applyWrites (targetsOf env rm (.struct name fs) scanner.Columns.1)
            { fields := zeroFields (.struct name fs),
              slots := List.replicate (getValueMappingCount env rm scanner.Columns.1) Value.nil }
            (scanner.Scan (targetsOf env rm (.struct name fs) scanner.Columns.1)).1) with
      | panic m => rfl
      | ret r =>
        obtain ⟨s, e⟩ := r
        cases e <;> rfl
    · simp only [hc, decide_False, Bool.false_eq_true, if_false]

/-- The method `scanData` on a structured mapper and a fully mapped row whose
scan fails. -/
theorem scanData_scan_error (env : Env) (rm : metaRecordMapper) (name : String)
    (fs : List Field) (hT : StructOf env rm name fs) (scanner : Scanner)
    (hall : ∀ key ∈ scanner.Columns.1, isMapped env rm key = true)
    (hP : PlainExported env rm fs scanner.Columns.1) (e : GoError)
    (hscan : (scanner.Scan (targetsOf env rm (.struct name fs) scanner.Columns.1)).2 = some e) :
    scanData env rm scanner = .ret (Result.nil, some e) := by
  have hTg := targetsOf_eq env rm name fs scanner.Columns.1 hall hP
  have hB := bindTargets_all_mapped env rm name fs (holdersOf env rm scanner.Columns.1)
    scanner.Columns.1 hall hP
  rw [← hTg] at hB
  have hTs : env.DiscoverTypeByKind rm.structType Kind.Struct = .ret (.struct name fs) := hT
  simp only [scanData, hTs, allocated_eq, hB, hscan]

/-- A fully mapped row one of whose columns without a translation table names
a field that is missing or not exported: `scanData` panics while it binds the
targets, before any call to `Scan`. -/
theorem scanDataTraced_unusable (env : Env) (rm : metaRecordMapper) (name : String)
    (fs : List Field) (hT : StructOf env rm name fs) (scanner : Scanner)
    (hall : ∀ key ∈ scanner.Columns.1, isMapped env rm key = true)
    (hno : ¬ PlainExported env rm fs scanner.Columns.1) :
    ∃ m, scanData env rm scanner = .panic m ∧ (scanDataTraced env rm scanner).1 = [] := by
  have hTs : env.DiscoverTypeByKind rm.structType Kind.Struct = .ret (.struct name fs) := hT
  obtain ⟨m, hm⟩ := bindTargets_panics_of_unusable env rm name fs
    (holdersOf env rm scanner.Columns.1) [] scanner.Columns.1 hall hno
  rw [List.append_nil] at hm
  exact ⟨m, by simp only [scanData, hTs, allocated_eq, hm],
    by simp only [scanDataTraced, hTs, allocated_eq, hm]⟩

/-- C11 (amended): for a structured mapper and a row whose columns are all
mapped. When every column without a translation table names an exported field
of the struct and the `Scan` of the scanner returns an error `e`, `Map`
returns a nil record together with `e` itself, and the run makes no call to
`applyFieldMapValuesIfNeeded`: its only call is the one to `Scan`. When some
column without a translation table names a field that is missing or not
exported, `Map` panics before it calls `Scan`. -/
theorem Map_scan_error (env : Env) (rm : metaRecordMapper) (name : String)
    (fs : List Field) (hT : StructOf env rm name fs) (scanner : Scanner)
    (hall : ∀ key ∈ scanner.Columns.1, isMapped env rm key = true) :
    (PlainExported env rm fs scanner.Columns.1 → ∀ e,
      (scanner.Scan (targetsOf env rm (.struct name fs) scanner.Columns.1)).2 = some e →
      rm.Map env scanner = .ret (Result.nil, some e) ∧
      (scanDataTraced env rm scanner).2 = rm.Map env scanner ∧
      (scanDataTraced env rm scanner).1 =
        [Event.scan (targetsOf env rm (.struct name fs) scanner.Columns.1)] ∧
      applyCalls (scanDataTraced env rm scanner).1 = []) ∧
    (¬ PlainExported env rm fs scanner.Columns.1 →
      ∃ m, rm.Map env scanner = .panic m ∧ (scanDataTraced env rm scanner).1 = []) := by
  constructor
  · intro hP e hscan
    have hE := scanDataTraced_events env rm name fs hT scanner hall hP
    rw [hscan] at hE
    simp only at hE
    refine ⟨scanData_scan_error env rm name fs hT scanner hall hP e hscan,
      scanDataTraced_result env rm scanner, hE, ?_⟩
    rw [hE]
    rfl
  · intro hno
    exact scanDataTraced_unusable env rm name fs hT scanner hall hno

/-- C11 on a row whose scan fails after it has left the holder of `status`
nil: `Map` returns the error of the scan, not a translation error. -/
theorem Map_scan_error_witness :
    (∀ key ∈ (brokenScanner ["id", "status"] [Value.int 7] "connection lost").Columns.1,
      isMapped demoEnv userMapper key = true) ∧
    rawValueOf demoEnv userMapper userType
      (brokenScanner ["id", "status"] [Value.int 7] "connection lost") "status" = Value.nil ∧
    userMapper.Map demoEnv (brokenScanner ["id", "status"] [Value.int 7] "connection lost") =
      .ret (Result.nil, some ⟨"connection lost"⟩) ∧
    applyCalls (scanDataTraced demoEnv userMapper
      (brokenScanner ["id", "status"] [Value.int 7] "connection lost")).1 = [] :=
  ⟨by decide, by decide,
   ((Map_scan_error demoEnv userMapper "User" userFields userMapper_structOf
      (brokenScanner ["id", "status"] [Value.int 7] "connection lost") (by decide)).1
      (by decide) ⟨"connection lost"⟩ rfl).1,
   ((Map_scan_error demoEnv userMapper "User" userFields userMapper_structOf
      (brokenScanner ["id", "status"] [Value.int 7] "connection lost") (by decide)).1
      (by decide) ⟨"connection lost"⟩ rfl).2.2.2⟩

/-- C11 as stated fails on the mapper the factory builds for the struct
`Ledger`, whose field `id` is not exported: the columns id and name are both
mapped and the `Scan` of the scanner returns an error on whatever targets it
is given, yet `Map` does not return that error. It panics at line 123, before
it calls `Scan`. -/
theorem Map_scan_error_counterexample :
    NewRecordMapper demoEnv ledgerType = .ret (some (.meta ledgerMapper)) ∧
    (∀ key ∈ (brokenScanner ["id", "name"] [] "connection lost").Columns.1,
      isMapped demoEnv ledgerMapper key = true) ∧
    (∀ ts, ((brokenScanner ["id", "name"] [] "connection lost").Scan ts).2 =
      some ⟨"connection lost"⟩) ∧
    ledgerMapper.Map demoEnv (brokenScanner ["id", "name"] [] "connection lost") =
      .panic "reflect.Value.Interface: cannot return value obtained from unexported field or method" ∧
    ledgerMapper.Map demoEnv (brokenScanner ["id", "name"] [] "connection lost") ≠
      .ret (Result.nil, some ⟨"connection lost"⟩) ∧
    scanCalls (scanDataTraced demoEnv ledgerMapper
      (brokenScanner ["id", "name"] [] "connection lost")).1 = [] := by
  refine ⟨by decide, by decide, fun _ => rfl, by decide, by decide, by decide⟩

/-! ## No partial record -/

/-- Whatever `scanData` returns is a nil record with an error, or a record
(by value or by pointer, as `usePointer` says) without an error. -/
theorem scanData_forms (env : Env) (rm : metaRecordMapper) (scanner : Scanner)
    (res : Result) (err : Option GoError)
    (h : scanData env rm scanner = .ret (res, err)) :
    (res = Result.nil ∧ err ≠ none) ∨
      (∃ record, res = wrapRecord rm.usePointer record ∧ err = none) := by
  simp only [scanData] at h
  cases hd : env.DiscoverTypeByKind rm.structType Kind.Struct with
  | panic m => rw [hd] at h; cases h
  | ret structType =>
    rw [hd] at h
    simp only at h
    cases ha : (if decide (getValueMappingCount env rm scanner.Columns.1 > 0) = true then
        allocateValueMapByKey env rm scanner.Columns.1 else Outcome.ret ([], [])) with
    | panic m => rw [ha] at h; cases h
    | ret a =>
      obtain ⟨fvm, vp⟩ := a
      rw [ha] at h
      simp only at h
      cases hb : bindTargets env rm structType fvm scanner.Columns.1 with
      | panic m => rw [hb] at h; cases h
      | ret r =>
        rw [hb] at h
        cases r with
        | error e =>
          simp only [Outcome.ret.injEq, Prod.mk.injEq] at h
          exact Or.inl ⟨h.1.symm, by rw [← h.2]; simp⟩
        | ok ts =>
          simp only at h
          cases hs : (scanner.Scan ts).2 with
          | some e =>
            rw [hs] at h
            simp only [Outcome.ret.injEq, Prod.mk.injEq] at h
            exact Or.inl ⟨h.1.symm, by rw [← h.2]; simp⟩
          | none =>
            rw [hs] at h
            simp only at h
            cases hl : (if decide (getValueMappingCount env rm scanner.Columns.1 > 0) = true then
                applyFieldMapValuesIfNeeded env rm structType (env.mapRange fvm)
                  (applyWrites ts { fields := zeroFields structType, slots := vp }
                    (scanner.Scan ts).1)
              else Outcome.ret (applyWrites ts { fields := zeroFields structType, slots := vp }
                    (scanner.Scan ts).1, none)) with
            | panic m => rw [hl] at h; cases h
            | ret r =>
              obtain ⟨s, e⟩ := r
              rw [hl] at h
              cases e with
              | some e =>
                simp only [Outcome.ret.injEq, Prod.mk.injEq] at h
                exact Or.inl ⟨h.1.symm, by rw [← h.2]; simp⟩
              | none =>
                right
                refine ⟨s.fields, ?_⟩
                simp only [wrapRecord]
                cases hu : rm.usePointer <;>
                  simp only [hu, Bool.not_false, Bool.not_true, if_true, Bool.false_eq_true,
                    if_false, Outcome.ret.injEq, Prod.mk.injEq] at h ⊢ <;>
                  exact ⟨h.1.symm, h.2.symm⟩

/-- C12: for the structured mapper and for the columnar mapper, every scanner
and every row: whenever `Map` returns a non-nil error the record it returns is
nil, and whenever it returns a non-nil record the error is nil. -/
theorem Map_no_partial_record (env : Env) (rm : metaRecordMapper)
    (cm : columnarRecordMapper) (scanner : Scanner) (res : Result) (err : Option GoError) :
    (rm.Map env scanner = .ret (res, err) →
      (err ≠ none → res = Result.nil) ∧ (res ≠ Result.nil → err = none)) ∧
    (cm.Map scanner = .ret (res, err) →
      (err ≠ none → res = Result.nil) ∧ (res ≠ Result.nil → err = none)) := by
  constructor
  · intro h
    rcases scanData_forms env rm scanner res err h with ⟨h1, h2⟩ | ⟨record, h1, h2⟩
    · exact ⟨fun _ => h1, fun h3 => absurd h1 h3⟩
    · exact ⟨fun h3 => absurd h2 h3, fun _ => h2⟩
  · intro h
    simp only [columnarRecordMapper.Map, ScanRow] at h
    cases hs : (scanner.Scan (rowTargets scanner.Columns.1.length)).2 with
    | some e =>
      rw [hs] at h
      simp only [Outcome.ret.injEq, Prod.mk.injEq] at h
      exact ⟨fun _ => h.1.symm, fun h3 => absurd h.1.symm h3⟩
    | none =>
      rw [hs] at h
      simp only [ite_self, Outcome.ret.injEq, Prod.mk.injEq] at h
      exact ⟨fun h3 => absurd h.2.symm h3, fun _ => h.2.symm⟩

/-- C12 on a translation miss of the structured mapper and on a failing scan of
the columnar mapper: both return a nil record with the error. -/
theorem Map_no_partial_record_witness :
    userMapper.Map demoEnv (rowScanner ["id", "status"] [Value.int 7, Value.str "2"]) =
      .ret (Result.nil, some ⟨missMessage demoEnv userMapper "status" (Value.str "2")⟩) ∧
    (columnarRecordMapper.mk false (.slice userType)).Map
        (failingScanner ["id", "name"] "connection lost") =
      .ret (Result.nil, some ⟨"Failed to scan row due to connection lost"⟩) ∧
    ((some ⟨missMessage demoEnv userMapper "status" (Value.str "2")⟩ : Option GoError) ≠ none →
      Result.nil = Result.nil) ∧
    ((some ⟨"Failed to scan row due to connection lost"⟩ : Option GoError) ≠ none →
      Result.nil = Result.nil) :=
  ⟨by decide, by decide,
   ((Map_no_partial_record demoEnv userMapper (columnarRecordMapper.mk false (.slice userType))
      (rowScanner ["id", "status"] [Value.int 7, Value.str "2"]) Result.nil
      (some ⟨missMessage demoEnv userMapper "status" (Value.str "2")⟩)).1 (by decide)).1,
   ((Map_no_partial_record demoEnv userMapper (columnarRecordMapper.mk false (.slice userType))
      (failingScanner ["id", "name"] "connection lost") Result.nil
      (some ⟨"Failed to scan row due to connection lost"⟩)).2 (by decide)).1⟩

/-! ## Value and reference output -/

theorem getValueMappingCountLoop_usePointer (env : Env) (rm : metaRecordMapper) (b : Bool) :
    ∀ (columns : List String) (result : Nat),
      getValueMappingCountLoop env { rm with usePointer := b } columns result =
        getValueMappingCountLoop env rm columns result := by
  intro columns
  induction columns with
  | nil => intro result; rfl
  | cons key rest ih =>
    intro result
    have hk : hasValueMap env { rm with usePointer := b } key = hasValueMap env rm key := rfl
    simp only [getValueMappingCountLoop, hk, ih]

theorem allocateLoop_usePointer (env : Env) (rm : metaRecordMapper) (b : Bool) (count : Nat) :
    ∀ (columns : List String) (index : Nat) (result : List (String × Nat)),
      allocateLoop env { rm with usePointer := b } count columns index result =
        allocateLoop env rm count columns index result := by
  intro columns
  induction columns with
  | nil => intro index result; rfl
  | cons key rest ih =>
    intro index result
    have hk : hasValueMap env { rm with usePointer := b } key = hasValueMap env rm key := rfl
    simp only [allocateLoop, hk, ih]

theorem bindTargets_usePointer (env : Env) (rm : metaRecordMapper) (b : Bool)
    (structType : GoType) (fvm : List (String × Nat)) :
    ∀ (columns : List String),
      bindTargets env { rm with usePointer := b } structType fvm columns =
        bindTargets env rm structType fvm columns := by
  intro columns
  induction columns with
  | nil => rfl
  | cons key rest ih =>
    simp only [bindTargets, ih]

theorem applyFieldMapValuesIfNeeded_usePointer (env : Env) (rm : metaRecordMapper) (b : Bool)
    (structType : GoType) :
    ∀ (entries : List (String × Nat)) (st : Store),
      applyFieldMapValuesIfNeeded env { rm with usePointer := b } structType entries st =
        applyFieldMapValuesIfNeeded env rm structType entries st := by
  intro entries
  induction entries with
  | nil => intro st; rfl
  | cons e rest ih =>
    intro st
    obtain ⟨key, idx⟩ := e
    have hk : applyFieldMapValue env { rm with usePointer := b } structType st key idx =
        applyFieldMapValue env rm structType st key idx := rfl
    simp only [applyFieldMapValuesIfNeeded, hk, ih]

/-- The flag `usePointer` decides only the form in which `scanData` returns the
record: a run with the flag set to `b` is the run with the flag cleared, the
record being returned as the flag `b` says. -/
theorem scanData_usePointer (env : Env) (rm : metaRecordMapper) (b : Bool)
    (scanner : Scanner) :
    scanData env { rm with usePointer := b } scanner =
      match scanData env { rm with usePointer := false } scanner with
      | .panic m => .panic m
      | .ret (Result.structValue record, none) => .ret (wrapRecord b record, none)
      | .ret (res, err) => .ret (res, err) := by
  have hcount : ∀ c, getValueMappingCount env { rm with usePointer := c } scanner.Columns.1 =
      getValueMappingCount env rm scanner.Columns.1 := fun c =>
    getValueMappingCountLoop_usePointer env rm c _ _
  have halloc : ∀ c, allocateValueMapByKey env { rm with usePointer := c } scanner.Columns.1 =
      allocateValueMapByKey env rm scanner.Columns.1 := by
    intro c
    simp only [allocateValueMapByKey, hcount, allocateLoop_usePointer]
  simp only [scanData, hcount, halloc, bindTargets_usePointer,
    applyFieldMapValuesIfNeeded_usePointer]
  cases env.DiscoverTypeByKind rm.structType Kind.Struct with
  | panic m => rfl
  | ret structType =>
    simp only
    cases (if decide (getValueMappingCount env rm scanner.Columns.1 > 0) = true then
        allocateValueMapByKey env rm scanner.Columns.1 else Outcome.ret ([], [])) with
    | panic m => rfl
    | ret a =>
      obtain ⟨fvm, vp⟩ := a
      simp only
      cases bindTargets env rm structType fvm scanner.Columns.1 with
      | panic m => rfl
      | ret r =>
        cases r with
        | error err => rfl
        | ok ts =>
          simp only
          cases (scanner.Scan ts).2 with
          | some err => rfl
          | none =>
            simp only
            cases (if decide (getValueMappingCount env rm scanner.Columns.1 > 0) = true then
                applyFieldMapValuesIfNeeded env rm structType (env.mapRange fvm)
                  (applyWrites ts { fields := zeroFields structType, slots := vp }
                    (scanner.Scan ts).1)
              else Outcome.ret (applyWrites ts { fields := zeroFields structType, slots := vp }
                    (scanner.Scan ts).1, none)) with
            | panic m => rfl
            | ret r =>
              obtain ⟨s, e⟩ := r
              cases e with
              | some e => rfl
              | none => cases b <;> rfl

/-- A call of `scanData` with `usePointer = false` and a call with `usePointer =
true`, for the same metadata and the same row, both visiting the holders in
the order of `env`, have outcomes that differ only in the form of the record. -/
theorem Map_usePointer_outcomes (env : Env) (rm : metaRecordMapper) (scanner : Scanner) :
    (∀ record,
      metaRecordMapper.Map env { rm with usePointer := false } scanner =
          .ret (Result.structValue record, none) ↔
        metaRecordMapper.Map env { rm with usePointer := true } scanner =
          .ret (Result.structPointer record, none)) ∧
    (∀ e,
      metaRecordMapper.Map env { rm with usePointer := false } scanner =
          .ret (Result.nil, some e) ↔
        metaRecordMapper.Map env { rm with usePointer := true } scanner =
          .ret (Result.nil, some e)) ∧
    (∀ m,
      metaRecordMapper.Map env { rm with usePointer := false } scanner = .panic m ↔
        metaRecordMapper.Map env { rm with usePointer := true } scanner = .panic m) ∧
    ((∃ record, metaRecordMapper.Map env { rm with usePointer := false } scanner =
        .ret (Result.structValue record, none)) ∨
      (∃ e, metaRecordMapper.Map env { rm with usePointer := false } scanner =
        .ret (Result.nil, some e)) ∨
      (∃ m, metaRecordMapper.Map env { rm with usePointer := false } scanner = .panic m)) := by
  have hP := scanData_usePointer env rm true scanner
  simp only [metaRecordMapper.Map]
  cases hV : scanData env { rm with usePointer := false } scanner with
  | panic m =>
    rw [hV] at hP
    simp only at hP
    rw [hP]
    simp
  | ret r =>
    obtain ⟨res, err⟩ := r
    rcases scanData_forms env _ scanner res err hV with ⟨h1, h2⟩ | ⟨record, h1, h2⟩
    · subst h1
      cases err with
      | none => exact absurd rfl h2
      | some e =>
        rw [hV] at hP
        simp only at hP
        rw [hP]
        simp
    · simp only [wrapRecord, Bool.not_false, if_true] at h1
      subst h1 h2
      rw [hV] at hP
      simp only [wrapRecord, Bool.not_true, Bool.false_eq_true, if_false] at hP
      rw [hP]
      simp

/-- C13 (amended): for the same metadata and the same row, and whenever the
two calls visit the holders in the same order `order`, the structured mapper
with `usePointer = false` returns the record by value exactly when the one
with `usePointer = true` returns a pointer to a record with the same content;
both return the same error (with a nil record) on exactly the same rows, and
both panic on the same rows; `Map` has no other outcome. -/
theorem Map_value_versus_reference (env : Env) (rm : metaRecordMapper) (scanner : Scanner)
    (order : List (String × Nat) → List (String × Nat)) :
    (∀ record,
      metaRecordMapper.Map { env with mapRange := order } { rm with usePointer := false }
          scanner = .ret (Result.structValue record, none) ↔
        metaRecordMapper.Map { env with mapRange := order } { rm with usePointer := true }
          scanner = .ret (Result.structPointer record, none)) ∧
    (∀ e,
      metaRecordMapper.Map { env with mapRange := order } { rm with usePointer := false }
          scanner = .ret (Result.nil, some e) ↔
        metaRecordMapper.Map { env with mapRange := order } { rm with usePointer := true }
          scanner = .ret (Result.nil, some e)) ∧
    (∀ m,
      metaRecordMapper.Map { env with mapRange := order } { rm with usePointer := false }
          scanner = .panic m ↔
        metaRecordMapper.Map { env with mapRange := order } { rm with usePointer := true }
          scanner = .panic m) ∧
    ((∃ record, metaRecordMapper.Map { env with mapRange := order }
        { rm with usePointer := false } scanner = .ret (Result.structValue record, none)) ∨
      (∃ e, metaRecordMapper.Map { env with mapRange := order }
        { rm with usePointer := false } scanner = .ret (Result.nil, some e)) ∨
      (∃ m, metaRecordMapper.Map { env with mapRange := order }
        { rm with usePointer := false } scanner = .panic m)) :=
  Map_usePointer_outcomes { env with mapRange := order } rm scanner

/-- C13 on a row of `userMapper`: by value and by pointer, the same record. -/
theorem Map_value_versus_reference_witness :
    metaRecordMapper.Map demoEnv { userMapper with usePointer := false }
        (rowScanner ["id", "status"] [Value.int 7, Value.str "1"]) =
      .ret (Result.structValue [("Id", Value.int 7), ("Status", Value.str "ACTIVE"),
        ("Kind", Value.str ""), ("Note", Value.nil)], none) ∧
    metaRecordMapper.Map { demoEnv with mapRange := id } { userMapper with usePointer := true }
        (rowScanner ["id", "status"] [Value.int 7, Value.str "1"]) =
      .ret (Result.structPointer [("Id", Value.int 7), ("Status", Value.str "ACTIVE"),
        ("Kind", Value.str ""), ("Note", Value.nil)], none) :=
  ⟨by decide,
   ((Map_value_versus_reference demoEnv userMapper
      (rowScanner ["id", "status"] [Value.int 7, Value.str "1"]) id).1 _).1 (by decide)⟩

/-- C13 as stated fails when the two calls visit the holders in different
orders, which Go is free to do: on the row with "2" for `status` and "C" for
`kind`, the mapper with `usePointer = false`, visiting the holder of `status`
first, returns the translation-miss error of `status`, and the mapper with
`usePointer = true`, visiting the holder of `kind` first, returns the
translation-miss error of `kind`. Both orders are orders of the holders of
the row. -/
theorem Map_value_versus_reference_counterexample :
    holdersOf demoEnv userMapper ["status", "kind"] = [("status", 0), ("kind", 1)] ∧
    (List.reverse [("status", 0), ("kind", 1)]).Perm [("status", 0), ("kind", 1)] ∧
    metaRecordMapper.Map demoEnv { userMapper with usePointer := false }
        (rowScanner ["status", "kind"] [Value.str "2", Value.str "C"]) =
      .ret (Result.nil, some ⟨missMessage demoEnv userMapper "status" (Value.str "2")⟩) ∧
    metaRecordMapper.Map (demoEnvWith List.reverse) { userMapper with usePointer := true }
        (rowScanner ["status", "kind"] [Value.str "2", Value.str "C"]) =
      .ret (Result.nil, some ⟨missMessage demoEnv userMapper "kind" (Value.str "C")⟩) ∧
    missMessage demoEnv userMapper "status" (Value.str "2") ≠
      missMessage demoEnv userMapper "kind" (Value.str "C") := by
  refine ⟨by decide, by decide, by decide, by decide, by decide⟩

/-! ## The columnar mapper -/

/-- C14: for every scanner, every target slice type and both values of
`usePointer`, `columnarRecordMapper.Map` returns the values `ScanRow` returns,
with a nil error, when `ScanRow` returns no error, and a nil record with the
error of `ScanRow`, unchanged, when `ScanRow` returns one; the result is the
same for every `usePointer` and every `targetSlice`. -/
theorem columnar_Map_delegates (rm : columnarRecordMapper) (scanner : Scanner) :
    (∀ vals cols, ScanRow scanner = (some vals, cols, none) →
      rm.Map scanner = .ret (Result.values vals, none)) ∧
    (∀ vals cols e, ScanRow scanner = (vals, cols, some e) →
      rm.Map scanner = .ret (Result.nil, some e)) ∧
    ((∃ vals cols, ScanRow scanner = (some vals, cols, none)) ∨
      (∃ e, ScanRow scanner = (none, none, some e))) ∧
    (∀ other : columnarRecordMapper, other.Map scanner = rm.Map scanner) := by
  refine ⟨?_, ?_, ?_, ?_⟩
  · intro vals cols h
    simp only [columnarRecordMapper.Map, h, ite_self]
  · intro vals cols e h
    simp only [columnarRecordMapper.Map, h]
  · simp only [ScanRow]
    cases (scanner.Scan (rowTargets scanner.Columns.1.length)).2 with
    | some e => exact Or.inr ⟨_, rfl⟩
    | none => exact Or.inl ⟨_, _, rfl⟩
  · intro other
    simp only [columnarRecordMapper.Map, ite_self]

/-- C14 on a row of three columns and on a failing scan, for both values of
`usePointer`. -/
theorem columnar_Map_delegates_witness :
    (columnarRecordMapper.mk true (.slice userType)).Map
        (rowScanner ["id", "name", "flag"] [Value.int 1, Value.bytes "bob", Value.bool true]) =
      .ret (Result.values [Value.int 1, Value.str "bob", Value.bool true], none) ∧
    (columnarRecordMapper.mk false (.slice userType)).Map
        (failingScanner ["id", "name"] "connection lost") =
      .ret (Result.nil, some ⟨"Failed to scan row due to connection lost"⟩) :=
  ⟨(columnar_Map_delegates (columnarRecordMapper.mk true (.slice userType))
      (rowScanner ["id", "name", "flag"] [Value.int 1, Value.bytes "bob", Value.bool true])).1
      [Value.int 1, Value.str "bob", Value.bool true] (some ["id", "name", "flag"]) (by decide),
   (columnar_Map_delegates (columnarRecordMapper.mk false (.slice userType))
      (failingScanner ["id", "name"] "connection lost")).2.1 none none
      ⟨"Failed to scan row due to connection lost"⟩ (by decide)⟩

/-! ## How often `Scan` is called -/

/-- A run of `scanData` calls `Scan` at most once, for every mapper. -/
theorem scanCalls_le_one (env : Env) (rm : metaRecordMapper) (scanner : Scanner) :
    (scanCalls (scanDataTraced env rm scanner).1).length ≤ 1 := by
  simp only [scanDataTraced]
  cases env.DiscoverTypeByKind rm.structType Kind.Struct with
  | panic m => simp [scanCalls]
  | ret structType =>
    simp only
    cases (if decide (getValueMappingCount env rm scanner.Columns.1 > 0) = true then
        allocateValueMapByKey env rm scanner.Columns.1 else Outcome.ret ([], [])) with
    | panic m => simp [scanCalls]
    | ret a =>
      obtain ⟨fvm, vp⟩ := a
      simp only
      cases bindTargets env rm structType fvm scanner.Columns.1 with
      | panic m => simp [scanCalls]
      | ret r =>
        cases r with
        | error err => simp [scanCalls]
        | ok ts =>
          simp only
          cases (scanner.Scan ts).2 with
          | some err => simp [scanCalls]
          | none =>
            simp only
            by_cases hc : getValueMappingCount env rm scanner.Columns.1 > 0
            · simp only [hc, decide_True, if_true]
              cases applyFieldMapValuesIfNeeded env rm structType (env.mapRange fvm)
                  (applyWrites ts { fields := zeroFields structType, slots := vp }
                    (scanner.Scan ts).1) with
              | panic m => simp [scanCalls]
              | ret r =>
                obtain ⟨s, e⟩ := r
                cases e <;> simp [scanCalls]
            · simp only [hc, decide_False, Bool.false_eq_true, if_false]
              simp [scanCalls]

/-- The target bound to each column of a fully mapped row: the holder of the
column when it is translated, the storage of its field otherwise. -/
theorem boundTarget_cases (env : Env) (rm : metaRecordMapper) (columns : List String)
    (key : String) (hkey : key ∈ columns) :
    (hasValueMap env rm key = true →
      ∃ idx, (holdersOf env rm columns).lookup key = some idx ∧
        boundTarget env rm (holdersOf env rm columns) key = some (Loc.slot idx)) ∧
    (hasValueMap env rm key = false →
      boundTarget env rm (holdersOf env rm columns) key =
        some (Loc.field (fieldNameOf env rm key))) := by
  constructor
  · intro h
    obtain ⟨idx, -, hl⟩ := holder_of_translated env rm columns key hkey h
    exact ⟨idx, hl, by simp [boundTarget, h, hl]⟩
  · intro h
    simp [boundTarget, h]

/-- Whenever the loop of lines 112-128 binds all the columns, every column is
mapped. -/
theorem bindTargets_ok_mapped (env : Env) (rm : metaRecordMapper) (structType : GoType)
    (fvm : List (String × Nat)) :
    ∀ (columns : List String) (ts : List Target),
      bindTargets env rm structType fvm columns = .ret (.ok ts) →
      ∀ key ∈ columns, isMapped env rm key = true := by
  intro columns
  induction columns with
  | nil => intro ts _ key hk; simp at hk
  | cons k rest ih =>
    intro ts h key hkey
    cases hl : rm.columnToFieldMap.lookup (env.ToLower k) with
    | none => simp [bindTargets, hl] at h
    | some d =>
      have hkm : isMapped env rm k = true := by simp [isMapped, hl]
      rcases List.mem_cons.1 hkey with h1 | h1
      · rw [h1]; exact hkm
      · cases hr : bindTargets env rm structType fvm rest with
        | panic m =>
          exfalso
          cases hfb : FieldByName structType ((d.lookup "fieldName").getD "") with
          | panic m2 => simp [bindTargets, hl, hfb] at h
          | ret field =>
            cases hvm : (d.lookup "valueMap").isSome <;>
              cases hfa : fieldAddr field <;>
                simp [bindTargets, hl, hfb, hvm, hr, hfa] at h
        | ret r =>
          cases r with
          | error e =>
            exfalso
            cases hfb : FieldByName structType ((d.lookup "fieldName").getD "") with
            | panic m2 => simp [bindTargets, hl, hfb] at h
            | ret field =>
              cases hvm : (d.lookup "valueMap").isSome <;>
                cases hfa : fieldAddr field <;>
                  simp [bindTargets, hl, hfb, hvm, hr, hfa] at h
          | ok ts0 => exact ih ts0 hr key h1

/-- A row with an unmapped column: `scanData` makes no call to `Scan`, for
every mapper. -/
theorem scanDataTraced_unmapped (env : Env) (rm : metaRecordMapper) (scanner : Scanner)
    (hex : ∃ key ∈ scanner.Columns.1, isMapped env rm key = false) :
    (scanDataTraced env rm scanner).1 = [] := by
  simp only [scanDataTraced, allocated_eq]
  cases env.DiscoverTypeByKind rm.structType Kind.Struct with
  | panic m => rfl
  | ret structType =>
    simp only
    cases hb : bindTargets env rm structType (holdersOf env rm scanner.Columns.1)
        scanner.Columns.1 with
    | panic m => rfl
    | ret r =>
      cases r with
      | error err => rfl
      | ok ts =>
        exfalso
        obtain ⟨key, hk, hm⟩ := hex
        have := bindTargets_ok_mapped env rm structType _ _ ts hb key hk
        rw [hm] at this
        cases this

/-- C17 (amended): for a structured mapper and every row, a run of `Map` calls
`Scan` at most once. When every column is mapped and every column without a
translation table names an exported field of the struct, it calls `Scan`
exactly once, with as many targets as the row has columns, in column order,
each of them non-nil: the holder of the column when the column is translated,
the storage of the field of the column otherwise. When every column is mapped
and some column without a translation table names a field that is missing or
not exported, it panics without a call to `Scan`. When some column is
unmapped it does not call `Scan`. -/
theorem Map_scan_calls (env : Env) (rm : metaRecordMapper) (name : String)
    (fs : List Field) (hT : StructOf env rm name fs) (scanner : Scanner) :
    (scanDataTraced env rm scanner).2 = rm.Map env scanner ∧
    (scanCalls (scanDataTraced env rm scanner).1).length ≤ 1 ∧
    ((∀ key ∈ scanner.Columns.1, isMapped env rm key = true) →
      (PlainExported env rm fs scanner.Columns.1 →
        ∃ ts, scanCalls (scanDataTraced env rm scanner).1 = [ts] ∧
          ts.length = scanner.Columns.1.length ∧
          ∀ i (hi : i < scanner.Columns.1.length),
            (hasValueMap env rm scanner.Columns.1[i] = true →
              ∃ idx, (holdersOf env rm scanner.Columns.1).lookup scanner.Columns.1[i] =
                  some idx ∧
                ts[i]? = some (some (Loc.slot idx))) ∧
            (hasValueMap env rm scanner.Columns.1[i] = false →
              ts[i]? = some (some (Loc.field (fieldNameOf env rm scanner.Columns.1[i]))))) ∧
      (¬ PlainExported env rm fs scanner.Columns.1 →
        scanCalls (scanDataTraced env rm scanner).1 = [] ∧
          ∃ m, rm.Map env scanner = .panic m)) ∧
    ((∃ key ∈ scanner.Columns.1, isMapped env rm key = false) →
      scanCalls (scanDataTraced env rm scanner).1 = []) := by
  refine ⟨scanDataTraced_result env rm scanner, scanCalls_le_one env rm scanner, ?_, ?_⟩
  · intro hall
    constructor
    · intro hP
      have hE := scanDataTraced_events env rm name fs hT scanner hall hP
      have hTg := targetsOf_eq env rm name fs scanner.Columns.1 hall hP
      refine ⟨targetsOf env rm (.struct name fs) scanner.Columns.1, ?_, ?_, ?_⟩
      · rw [hE]
        cases (scanner.Scan (targetsOf env rm (.struct name fs) scanner.Columns.1)).2 with
        | some e => rfl
        | none =>
          simp only
          split <;> rfl
      · rw [hTg, List.length_map]
      · intro i hi
        have hc := boundTarget_cases env rm scanner.Columns.1 scanner.Columns.1[i]
          (List.getElem_mem _)
        rw [hTg, List.getElem?_map, List.getElem?_eq_getElem hi]
        constructor
        · intro h
          obtain ⟨idx, h1, h2⟩ := hc.1 h
          exact ⟨idx, h1, by simp [h2]⟩
        · intro h
          simp [hc.2 h]
    · intro hno
      obtain ⟨m, h1, h2⟩ := scanDataTraced_unusable env rm name fs hT scanner hall hno
      exact ⟨by rw [h2]; rfl, m, h1⟩
  · intro hex
    rw [scanDataTraced_unmapped env rm scanner hex]
    rfl

/-- C17 on a fully mapped row with one translated column, and on a row with an
unmapped column. -/
theorem Map_scan_calls_witness :
    (∃ ts, scanCalls (scanDataTraced demoEnv userMapper
        (rowScanner ["id", "status"] [Value.int 7, Value.str "1"])).1 = [ts] ∧
      ts.length = (rowScanner ["id", "status"] [Value.int 7, Value.str "1"]).Columns.1.length ∧
      ∀ i (hi : i < (rowScanner ["id", "status"] [Value.int 7, Value.str "1"]).Columns.1.length),
        (hasValueMap demoEnv userMapper
            ((rowScanner ["id", "status"] [Value.int 7, Value.str "1"]).Columns.1.get ⟨i, hi⟩) =
              true →
          ∃ idx, (holdersOf demoEnv userMapper
              (rowScanner ["id", "status"] [Value.int 7, Value.str "1"]).Columns.1).lookup
                ((rowScanner ["id", "status"] [Value.int 7, Value.str "1"]).Columns.1.get
                  ⟨i, hi⟩) = some idx ∧
            ts[i]? = some (some (Loc.slot idx))) ∧
        (hasValueMap demoEnv userMapper
            ((rowScanner ["id", "status"] [Value.int 7, Value.str "1"]).Columns.1.get ⟨i, hi⟩) =
              false →
          ts[i]? = some (some (Loc.field (fieldNameOf demoEnv userMapper
            ((rowScanner ["id", "status"] [Value.int 7, Value.str "1"]).Columns.1.get
              ⟨i, hi⟩)))))) ∧
    scanCalls (scanDataTraced demoEnv userMapper
      (rowScanner ["id", "status"] [Value.int 7, Value.str "1"])).1 =
        [[some (Loc.field "Id"), some (Loc.slot 0)]] ∧
    scanCalls (scanDataTraced demoEnv userMapper
      (rowScanner ["id", "bogus"] [Value.int 7, Value.str "1"])).1 = [] :=
  ⟨((Map_scan_calls demoEnv userMapper "User" userFields userMapper_structOf
      (rowScanner ["id", "status"] [Value.int 7, Value.str "1"])).2.2.1 (by decide)).1
      (by decide),
   by decide,
   (Map_scan_calls demoEnv userMapper "User" userFields userMapper_structOf
      (rowScanner ["id", "bogus"] [Value.int 7, Value.str "1"])).2.2.2
      ⟨"bogus", by decide, by decide⟩⟩

/-- C17 as stated fails on the mapper the factory builds for the struct
`Ledger`, whose field `id` is not exported: every column of the row with the
columns id and name is mapped, yet the run makes no call to `Scan`. `Map`
panics at line 123, where it takes the address of the field `id`. -/
theorem Map_scan_calls_counterexample :
    NewRecordMapper demoEnv ledgerType = .ret (some (.meta ledgerMapper)) ∧
    (∀ key ∈ (rowScanner ["id", "name"] [Value.int 7, Value.str "ann"]).Columns.1,
      isMapped demoEnv ledgerMapper key = true) ∧
    scanCalls (scanDataTraced demoEnv ledgerMapper
      (rowScanner ["id", "name"] [Value.int 7, Value.str "ann"])).1 = [] ∧
    (scanDataTraced demoEnv ledgerMapper
      (rowScanner ["id", "name"] [Value.int 7, Value.str "ann"])).2 =
      .panic "reflect.Value.Interface: cannot return value obtained from unexported field or method" := by
  refine ⟨by decide, by decide, by decide, by decide⟩

/-! ## Holder allocation covers the translated columns -/

/-- C18: for every column list, `allocateValueMapByKey` returns without
indexing out of range; the keys of the map it returns are exactly the column
names whose lower-cased form has a descriptor carrying a `valueMap`;
`getValueMappingCount` is the number of positions of the list with such a
descriptor, and is the length of `valuesPointers`; every holder of the map is
an element of `valuesPointers`; and when the column names are pairwise
distinct the map has as many holders as `getValueMappingCount` says, pairwise
distinct. -/
theorem allocateValueMapByKey_covers (env : Env) (rm : metaRecordMapper)
    (columns : List String) :
    ∃ m valuesPointers,
      allocateValueMapByKey env rm columns = .ret (m, valuesPointers) ∧
      (∀ k, k ∈ m.map Prod.fst ↔ (k ∈ columns ∧ hasValueMap env rm k = true)) ∧
      (m.map Prod.fst).Nodup ∧
      getValueMappingCount env rm columns = columns.countP (hasValueMap env rm) ∧
      valuesPointers.length = getValueMappingCount env rm columns ∧
      (∀ e ∈ m, e.2 < valuesPointers.length) ∧
      (columns.Nodup →
        m.length = getValueMappingCount env rm columns ∧ (m.map Prod.snd).Nodup) := by
  obtain ⟨hnd, hkeys⟩ := holdersOf_spec env rm columns
  refine ⟨holdersOf env rm columns, _, allocateValueMapByKey_eq env rm columns, hkeys, hnd,
    getValueMappingCount_eq env rm columns, by simp, ?_, ?_⟩
  · obtain ⟨m, hm, -, -⟩ := allocateLoop_spec env rm (getValueMappingCount env rm columns)
      columns 0 [] (by rw [getValueMappingCount_eq]; omega)
    have hmeq : holdersOf env rm columns = m := by
      simp only [holdersOf, allocateValueMapByKey, hm]
    rw [hmeq, List.length_replicate]
    exact allocateLoop_bound env rm _ columns 0 [] m hm (by simp)
  · intro hcols
    have hs := holdersFrom_snd env rm columns 0
    rw [holdersOf_of_nodup env rm columns hcols]
    constructor
    · have := congrArg List.length hs
      simpa [getValueMappingCount_eq] using this
    · rw [hs]
      exact List.nodup_range' _ _

/-- C18 on a list of distinct columns, two of them translated, and on a list
that repeats a translated column. -/
theorem allocateValueMapByKey_covers_witness :
    allocateValueMapByKey demoEnv userMapper ["id", "status", "kind"] =
      .ret ([("status", 0), ("kind", 1)], [Value.nil, Value.nil]) ∧
    allocateValueMapByKey demoEnv userMapper ["status", "id", "STATUS", "status"] =
      .ret ([("status", 2), ("STATUS", 1)], [Value.nil, Value.nil, Value.nil]) ∧
    ∃ m valuesPointers,
      allocateValueMapByKey demoEnv userMapper ["id", "status", "kind"] =
        .ret (m, valuesPointers) ∧
      (∀ k, k ∈ m.map Prod.fst ↔
        (k ∈ ["id", "status", "kind"] ∧ hasValueMap demoEnv userMapper k = true)) ∧
      (m.map Prod.fst).Nodup ∧
      getValueMappingCount demoEnv userMapper ["id", "status", "kind"] =
        ["id", "status", "kind"].countP (hasValueMap demoEnv userMapper) ∧
      valuesPointers.length = getValueMappingCount demoEnv userMapper ["id", "status", "kind"] ∧
      (∀ e ∈ m, e.2 < valuesPointers.length) ∧
      (["id", "status", "kind"].Nodup →
        m.length = getValueMappingCount demoEnv userMapper ["id", "status", "kind"] ∧
          (m.map Prod.snd).Nodup) :=
  ⟨by decide, by decide, allocateValueMapByKey_covers demoEnv userMapper ["id", "status", "kind"]⟩

/-! ## The order in which the holders are visited -/

theorem setField_comm (fields : List (String × Value)) (a b : String) (x y : Value)
    (h : a ≠ b) :
    setField (setField fields a x) b y = setField (setField fields b y) a x := by
  induction fields with
  | nil => rfl
  | cons e rest ih =>
    obtain ⟨n, v⟩ := e
    by_cases ha : n = a
    · have hb : ¬ n = b := fun h2 => h (ha.symm.trans h2)
      simp [setField, ha, hb, h]
    · by_cases hb : n = b
      · subst hb
        simp [setField, Ne.symm h]
      · simp [setField, ha, hb, ih]

theorem assignAll_eq_foldl (env : Env) (rm : metaRecordMapper) (fs : List Field)
    (slots : List Value) :
    ∀ (entries : List (String × Nat)) (fields : List (String × Value)),
      assignAll env rm fs slots entries fields =
        entries.foldl (assignStep env rm fs slots) fields := by
  intro entries
  induction entries with
  | nil => intro fields; rfl
  | cons e rest ih =>
    intro fields
    obtain ⟨key, idx⟩ := e
    simp only [assignAll, List.foldl_cons, assignStep]
    split <;> exact ih _

/-- The assignments of two holders of distinct fields can be exchanged. -/
theorem assignStep_comm (env : Env) (rm : metaRecordMapper) (fs : List Field)
    (slots : List Value) (fields : List (String × Value)) (x y : String × Nat)
    (h : x = y ∨ fieldNameOf env rm x.1 ≠ fieldNameOf env rm y.1) :
    assignStep env rm fs slots (assignStep env rm fs slots fields x) y =
      assignStep env rm fs slots (assignStep env rm fs slots fields y) x := by
  rcases h with h | h
  · rw [h]
  · simp only [assignStep]
    cases translate env rm fs x.1 (slots.getD x.2 Value.nil) with
    | error e => rfl
    | ok r =>
      cases r with
      | none => rfl
      | some v =>
        cases translate env rm fs y.1 (slots.getD y.2 Value.nil) with
        | error e => rfl
        | ok r2 =>
          cases r2 with
          | none => rfl
          | some w => exact setField_comm _ _ _ _ _ h

/-- The fields the translation step leaves do not depend on the order in which
it visits holders of pairwise distinct fields. -/
theorem assignAll_perm (env : Env) (rm : metaRecordMapper) (fs : List Field)
    (slots : List Value) (l₁ l₂ : List (String × Nat)) (hp : l₁.Perm l₂)
    (hd : (l₁.map fun e => fieldNameOf env rm e.1).Nodup) (fields : List (String × Value)) :
    assignAll env rm fs slots l₁ fields = assignAll env rm fs slots l₂ fields := by
  rw [assignAll_eq_foldl, assignAll_eq_foldl]
  apply List.Perm.foldl_eq' hp
  intro x hx y hy z
  apply assignStep_comm
  by_cases h : fieldNameOf env rm x.1 = fieldNameOf env rm y.1
  · exact Or.inl (List.inj_on_of_nodup_map hd hx hy h)
  · exact Or.inr h

/-- The method `applyFieldMapValuesIfNeeded` on holders whose columns name
exported fields wherever the step takes the address of the field, with the
store it returns: the holders are left as scanned. -/
theorem applyFieldMapValuesIfNeeded_store (env : Env) (rm : metaRecordMapper) (name : String)
    (fs : List Field) :
    ∀ (entries : List (String × Nat)) (st : Store),
      (∀ e ∈ entries, isHit env rm e.1 (st.slots.getD e.2 Value.nil) = true →
        usableField fs (fieldNameOf env rm e.1) = true) →
      ∃ fields', applyFieldMapValuesIfNeeded env rm (.struct name fs) entries st =
          .ret ({ fields := fields', slots := st.slots },
            firstError env rm fs st.slots entries) ∧
        (firstError env rm fs st.slots entries = none →
          fields' = assignAll env rm fs st.slots entries st.fields) := by
  intro entries
  induction entries with
  | nil =>
    intro st _
    exact ⟨st.fields, rfl, fun _ => rfl⟩
  | cons e rest ih =>
    intro st hu
    obtain ⟨key, idx⟩ := e
    have hk := hu (key, idx) (by simp)
    have hrest : ∀ e ∈ rest, isHit env rm e.1 (st.slots.getD e.2 Value.nil) = true →
        usableField fs (fieldNameOf env rm e.1) = true :=
      fun e he => hu e (List.mem_cons_of_mem _ he)
    simp only [applyFieldMapValuesIfNeeded, applyFieldMapValue_eq env rm name fs st key idx hk,
      firstError, assignAll]
    cases ht : translate env rm fs key (st.slots.getD idx Value.nil) with
    | error err => exact ⟨st.fields, rfl, fun h => by simp at h⟩
    | ok r =>
      cases r with
      | none => exact ih st hrest
      | some v =>
        obtain ⟨f', h1, h2⟩ := ih (st.write (some (Loc.field (fieldNameOf env rm key))) v) hrest
        rw [slots_write_field] at h1 h2
        rw [fields_write_field] at h2
        exact ⟨f', h1, h2⟩

/-- The holders the translation step rejects: a nil raw value for a field that
is not of pointer kind, a text that is not a key of the table, or a
replacement that cannot be converted for the field. -/
theorem accepted_eq_false_iff (env : Env) (rm : metaRecordMapper) (fs : List Field)
    (key : String) (raw : Value) :
    accepted env rm fs key raw = false ↔
      (raw = Value.nil ∧ fieldKind (findField fs (fieldNameOf env rm key)) ≠ Kind.Ptr) ∨
      (raw ≠ Value.nil ∧ (valueMapOf env rm key).lookup (textOf env raw) = none) ∨
      (raw ≠ Value.nil ∧ ∃ mapped f err,
        (valueMapOf env rm key).lookup (textOf env raw) = some mapped ∧
        findField fs (fieldNameOf env rm key) = some f ∧
        env.AssignConverted rm.converter f mapped = .error err) := by
  simp only [accepted, translate]
  by_cases hnil : raw = Value.nil
  · simp only [hnil, if_true]
    by_cases hk : fieldKind (findField fs (fieldNameOf env rm key)) ≠ Kind.Ptr
    · simp [hk]
    · simp [hk]
  · simp only [if_neg hnil]
    cases hl : (valueMapOf env rm key).lookup (textOf env raw) with
    | none => simp [hnil]
    | some mapped =>
      cases hf : findField fs (fieldNameOf env rm key) with
      | none => simp [hnil]
      | some f =>
        cases hc : env.AssignConverted rm.converter f mapped with
        | error err => simp [hnil, hc]
        | ok v => simp [hnil, hc]

theorem firstError_eq_none_iff (env : Env) (rm : metaRecordMapper) (fs : List Field)
    (slots : List Value) (entries : List (String × Nat)) :
    firstError env rm fs slots entries = none ↔
      ∀ e ∈ entries, accepted env rm fs e.1 (slots.getD e.2 Value.nil) = true :=
  ⟨accepted_of_firstError_eq_none env rm fs slots entries,
   firstError_eq_none env rm fs slots entries⟩

/-- C19 (amended): for holders whose columns map to pairwise distinct fields
and name an exported field of the struct wherever the raw value of the holder
has a replacement in its table, and for every order `visit` in which the
holders are visited: `applyFieldMapValuesIfNeeded` returns an error if and
only if some holder is bad, that is, holds nil for a field that is not of
pointer kind, or holds a text that is not a key of its table, or has a
replacement that cannot be converted; and when no holder is bad it returns no
error and the same store, hence the same record, as for any other order. -/
theorem applyFieldMapValuesIfNeeded_order_independent (env : Env) (rm : metaRecordMapper)
    (name : String) (fs : List Field) (holders visit : List (String × Nat))
    (hperm : visit.Perm holders) (st : Store)
    (husable : ∀ e ∈ holders, isHit env rm e.1 (st.slots.getD e.2 Value.nil) = true →
      usableField fs (fieldNameOf env rm e.1) = true)
    (hdistinct : (holders.map fun e => fieldNameOf env rm e.1).Nodup) :
    ((∃ st' err, applyFieldMapValuesIfNeeded env rm (.struct name fs) visit st =
        .ret (st', some err)) ↔
      ∃ e ∈ holders, accepted env rm fs e.1 (st.slots.getD e.2 Value.nil) = false) ∧
    ((∀ e ∈ holders, accepted env rm fs e.1 (st.slots.getD e.2 Value.nil) = true) →
      ∃ st', applyFieldMapValuesIfNeeded env rm (.struct name fs) visit st = .ret (st', none) ∧
        applyFieldMapValuesIfNeeded env rm (.struct name fs) holders st = .ret (st', none)) ∧
    (∀ key raw, accepted env rm fs key raw = false ↔
      (raw = Value.nil ∧ fieldKind (findField fs (fieldNameOf env rm key)) ≠ Kind.Ptr) ∨
      (raw ≠ Value.nil ∧ (valueMapOf env rm key).lookup (textOf env raw) = none) ∨
      (raw ≠ Value.nil ∧ ∃ mapped f err,
        (valueMapOf env rm key).lookup (textOf env raw) = some mapped ∧
        findField fs (fieldNameOf env rm key) = some f ∧
        env.AssignConverted rm.converter f mapped = .error err)) := by
  have huv : ∀ e ∈ visit, isHit env rm e.1 (st.slots.getD e.2 Value.nil) = true →
      usableField fs (fieldNameOf env rm e.1) = true :=
    fun e he => husable e (hperm.mem_iff.1 he)
  obtain ⟨fv, hv1, hv2⟩ := applyFieldMapValuesIfNeeded_store env rm name fs visit st huv
  obtain ⟨fh, hh1, hh2⟩ := applyFieldMapValuesIfNeeded_store env rm name fs holders st husable
  refine ⟨?_, ?_, accepted_eq_false_iff env rm fs⟩
  · constructor
    · rintro ⟨st', err, h⟩
      rw [hv1] at h
      simp only [Outcome.ret.injEq, Prod.mk.injEq] at h
      by_contra hno
      have hall : ∀ e ∈ visit, accepted env rm fs e.1 (st.slots.getD e.2 Value.nil) = true := by
        intro e he
        by_contra hne
        exact hno ⟨e, hperm.mem_iff.1 he, by simpa using hne⟩
      rw [(firstError_eq_none_iff env rm fs st.slots visit).2 hall] at h
      cases h.2
    · rintro ⟨e, he, hbad⟩
      cases hfe : firstError env rm fs st.slots visit with
      | some err => exact ⟨_, err, by rw [hv1, hfe]⟩
      | none =>
        have := (firstError_eq_none_iff env rm fs st.slots visit).1 hfe e (hperm.mem_iff.2 he)
        rw [this] at hbad
        cases hbad
  · intro hall
    have hfv := (firstError_eq_none_iff env rm fs st.slots visit).2
      (fun e he => hall e (hperm.mem_iff.1 he))
    have hfh := (firstError_eq_none_iff env rm fs st.slots holders).2 hall
    have hdv : (visit.map fun e => fieldNameOf env rm e.1).Nodup :=
      ((hperm.map _).nodup_iff).2 hdistinct
    have heq : fv = fh := by
      rw [hv2 hfv, hh2 hfh]
      exact assignAll_perm env rm fs st.slots visit holders hperm hdv st.fields
    rw [hfv] at hv1
    rw [hfh, ← heq] at hh1
    exact ⟨_, hv1, hh1⟩

/-- C19 on two holders visited in both orders: without a bad holder the store
returned is the same; with two bad holders only the error reported differs. -/
theorem applyFieldMapValuesIfNeeded_order_independent_witness :
    applyFieldMapValuesIfNeeded demoEnv userMapper userType [("kind", 1), ("status", 0)]
        { fields := zeroFields userType, slots := [Value.str "1", Value.str "A"] } =
      .ret (Store.mk [("Id", Value.int 0), ("Status", Value.str "ACTIVE"),
          ("Kind", Value.str "alpha"), ("Note", Value.nil)]
        [Value.str "1", Value.str "A"], none) ∧
    (∃ st',
      applyFieldMapValuesIfNeeded demoEnv userMapper userType [("kind", 1), ("status", 0)]
          { fields := zeroFields userType, slots := [Value.str "1", Value.str "A"] } =
        .ret (st', none) ∧
      applyFieldMapValuesIfNeeded demoEnv userMapper userType [("status", 0), ("kind", 1)]
          { fields := zeroFields userType, slots := [Value.str "1", Value.str "A"] } =
        .ret (st', none)) ∧
    applyFieldMapValuesIfNeeded demoEnv userMapper userType [("status", 0), ("kind", 1)]
        { fields := zeroFields userType, slots := [Value.str "2", Value.str "C"] } =
      .ret ({ fields := zeroFields userType, slots := [Value.str "2", Value.str "C"] },
        some ⟨missMessage demoEnv userMapper "status" (Value.str "2")⟩) ∧
    applyFieldMapValuesIfNeeded demoEnv userMapper userType [("kind", 1), ("status", 0)]
        { fields := zeroFields userType, slots := [Value.str "2", Value.str "C"] } =
      .ret ({ fields := zeroFields userType, slots := [Value.str "2", Value.str "C"] },
        some ⟨missMessage demoEnv userMapper "kind" (Value.str "C")⟩) :=
  ⟨by decide,
   (applyFieldMapValuesIfNeeded_order_independent demoEnv userMapper "User" userFields
      [("status", 0), ("kind", 1)] [("kind", 1), ("status", 0)]
      (List.Perm.swap _ _ _) { fields := zeroFields userType, slots := [Value.str "1", Value.str "A"] }
      (by decide) (by decide)).2.1 (by decide),
   by decide, by decide⟩

/-- C19 as stated fails on holders one of which has a replacement for a field
that is not exported: the columns `state` and `kind` of `accountMapper` map to
distinct fields, the holder of `state` holds "1", a key of its table, and the
holder of `kind` holds "C", which is not a key of its table and so is bad.
Visited in the order kind, state, `applyFieldMapValuesIfNeeded` returns the
translation-miss error of `kind`; visited in the order state, kind, it
returns no error: it panics at line 85, where it takes the address of the
field `state`. -/
theorem applyFieldMapValuesIfNeeded_order_independent_counterexample :
    ([("state", 0), ("kind", 1)].map fun e => fieldNameOf demoEnv accountMapper e.1).Nodup ∧
    accepted demoEnv accountMapper accountFields "kind" (Value.str "C") = false ∧
    applyFieldMapValuesIfNeeded demoEnv accountMapper accountType [("kind", 1), ("state", 0)]
        { fields := zeroFields accountType, slots := [Value.str "1", Value.str "C"] } =
      .ret ({ fields := zeroFields accountType, slots := [Value.str "1", Value.str "C"] },
        some ⟨missMessage demoEnv accountMapper "kind" (Value.str "C")⟩) ∧
    applyFieldMapValuesIfNeeded demoEnv accountMapper accountType [("state", 0), ("kind", 1)]
        { fields := zeroFields accountType, slots := [Value.str "1", Value.str "C"] } =
      .panic "reflect.Value.Interface: cannot return value obtained from unexported field or method" := by
  refine ⟨by decide, by decide, by decide, by decide⟩

/-! ## Letter case of the column names -/

theorem hasValueMap_of_lower (env : Env) (rm : metaRecordMapper) (k₁ k₂ : String)
    (h : env.ToLower k₁ = env.ToLower k₂) : hasValueMap env rm k₁ = hasValueMap env rm k₂ := by
  simp only [hasValueMap, h]

theorem isMapped_of_lower (env : Env) (rm : metaRecordMapper) (k₁ k₂ : String)
    (h : env.ToLower k₁ = env.ToLower k₂) : isMapped env rm k₁ = isMapped env rm k₂ := by
  simp only [isMapped, h]

theorem fieldNameOf_of_lower (env : Env) (rm : metaRecordMapper) (k₁ k₂ : String)
    (h : env.ToLower k₁ = env.ToLower k₂) : fieldNameOf env rm k₁ = fieldNameOf env rm k₂ := by
  simp only [fieldNameOf, descriptorOf, h]

theorem translate_of_lower (env : Env) (rm : metaRecordMapper) (fs : List Field)
    (k₁ k₂ : String) (h : env.ToLower k₁ = env.ToLower k₂) (raw : Value) :
    translate env rm fs k₁ raw = translate env rm fs k₂ raw := by
  simp only [translate, fieldNameOf, valueMapOf, descriptorOf, h]

theorem holdersFrom_keys (env : Env) (rm : metaRecordMapper) :
    ∀ (columns : List String) (index : Nat) (e : String × Nat),
      e ∈ holdersFrom env rm index columns → e.1 ∈ columns := by
  intro columns
  induction columns with
  | nil => intro index e h; simp [holdersFrom] at h
  | cons key rest ih =>
    intro index e h
    by_cases hk : hasValueMap env rm key = true
    · simp only [holdersFrom, if_pos hk, List.mem_cons] at h
      rcases h with h | h
      · rw [h]; simp
      · exact List.mem_cons_of_mem _ (ih _ _ h)
    · simp only [holdersFrom, if_neg hk] at h
      exact List.mem_cons_of_mem _ (ih _ _ h)

/-- The targets, the holders' verdicts and the fields assigned depend on the
column names through their lower-cased form only. -/
theorem lower_invariance (env : Env) (rm : metaRecordMapper) (fs : List Field)
    (slots : List Value) :
    ∀ (c₁ c₂ : List String), c₁.map env.ToLower = c₂.map env.ToLower → ∀ (index : Nat),
      targetsFrom env rm index c₁ = targetsFrom env rm index c₂ ∧
      c₁.countP (hasValueMap env rm) = c₂.countP (hasValueMap env rm) ∧
      c₁.map (fieldNameOf env rm) = c₂.map (fieldNameOf env rm) ∧
      c₁.map (isMapped env rm) = c₂.map (isMapped env rm) ∧
      firstError env rm fs slots (holdersFrom env rm index c₁) =
        firstError env rm fs slots (holdersFrom env rm index c₂) ∧
      ∀ fields, assignAll env rm fs slots (holdersFrom env rm index c₁) fields =
        assignAll env rm fs slots (holdersFrom env rm index c₂) fields := by
  intro c₁
  induction c₁ with
  | nil =>
    intro c₂ h index
    have : c₂ = [] := by simpa using h.symm
    subst this
    exact ⟨rfl, rfl, rfl, rfl, rfl, fun _ => rfl⟩
  | cons k₁ r₁ ih =>
    intro c₂ h index
    cases c₂ with
    | nil => simp at h
    | cons k₂ r₂ =>
      simp only [List.map_cons, List.cons.injEq] at h
      have hv := hasValueMap_of_lower env rm k₁ k₂ h.1
      have hf := fieldNameOf_of_lower env rm k₁ k₂ h.1
      have hm := isMapped_of_lower env rm k₁ k₂ h.1
      have ht := translate_of_lower env rm fs k₁ k₂ h.1
      by_cases hk : hasValueMap env rm k₂ = true
      · have hk1 : hasValueMap env rm k₁ = true := by rw [hv]; exact hk
        obtain ⟨i1, i2, i3, i4, i5, i6⟩ := ih r₂ h.2 (index + 1)
        refine ⟨?_, ?_, ?_, ?_, ?_, ?_⟩
        · simp only [targetsFrom, if_pos hk, if_pos hk1, i1]
        · rw [List.countP_cons_of_pos _ _ hk, List.countP_cons_of_pos _ _ hk1, i2]
        · simp only [List.map_cons, hf, i3]
        · simp only [List.map_cons, hm, i4]
        · simp only [holdersFrom, if_pos hk, if_pos hk1, firstError, ht, i5]
        · intro fields
          simp only [holdersFrom, if_pos hk, if_pos hk1, assignAll, ht, hf, i6]
      · have hk1 : ¬ hasValueMap env rm k₁ = true := by rw [hv]; exact hk
        obtain ⟨i1, i2, i3, i4, i5, i6⟩ := ih r₂ h.2 index
        refine ⟨?_, ?_, ?_, ?_, ?_, ?_⟩
        · simp only [targetsFrom, if_neg hk, if_neg hk1, i1, hf]
        · rw [List.countP_cons_of_neg _ _ hk, List.countP_cons_of_neg _ _ hk1, i2]
        · simp only [List.map_cons, hf, i3]
        · simp only [List.map_cons, hm, i4]
        · simp only [holdersFrom, if_neg hk, if_neg hk1, i5]
        · intro fields
          simp only [holdersFrom, if_neg hk, if_neg hk1, i6]

/-- The holders of two column lists that agree up to letter case are the same
up to letter case, slot by slot. -/
theorem holdersFrom_of_lower (env : Env) (rm : metaRecordMapper) :
    ∀ (c₁ c₂ : List String), c₁.map env.ToLower = c₂.map env.ToLower → ∀ (index : Nat),
      (holdersFrom env rm index c₁).map (lowerKey env) =
        (holdersFrom env rm index c₂).map (lowerKey env) := by
  intro c₁
  induction c₁ with
  | nil =>
    intro c₂ h index
    have : c₂ = [] := by simpa using h.symm
    subst this
    rfl
  | cons k₁ r₁ ih =>
    intro c₂ h index
    cases c₂ with
    | nil => simp at h
    | cons k₂ r₂ =>
      simp only [List.map_cons, List.cons.injEq] at h
      have hv := hasValueMap_of_lower env rm k₁ k₂ h.1
      by_cases hk : hasValueMap env rm k₂ = true
      · have hk1 : hasValueMap env rm k₁ = true := by rw [hv]; exact hk
        simp only [holdersFrom, if_pos hk, if_pos hk1, List.map_cons, lowerKey, h.1]
        congr 1
        exact ih r₂ h.2 (index + 1)
      · have hk1 : ¬ hasValueMap env rm k₁ = true := by rw [hv]; exact hk
        simp only [holdersFrom, if_neg hk, if_neg hk1]
        exact ih r₂ h.2 index

/-- A reordering of the image of a list under a function is the image of a
reordering of the list. -/
theorem exists_perm_of_map_perm {α β : Type} (f : α → β) {l₁ l₂ : List β} (h : l₁.Perm l₂) :
    ∀ m : List α, m.map f = l₂ → ∃ l : List α, l.Perm m ∧ l.map f = l₁ := by
  induction h with
  | nil =>
    intro m hm
    exact ⟨m, List.Perm.refl m, hm⟩
  | cons x _ ih =>
    intro m hm
    cases m with
    | nil => simp at hm
    | cons a m' =>
      simp only [List.map_cons, List.cons.injEq] at hm
      obtain ⟨l, hl1, hl2⟩ := ih m' hm.2
      exact ⟨a :: l, List.Perm.cons a hl1, by simp [hm.1, hl2]⟩
  | swap x y l =>
    intro m hm
    cases m with
    | nil => simp at hm
    | cons a m' =>
      cases m' with
      | nil => simp at hm
      | cons b m'' =>
        simp only [List.map_cons, List.cons.injEq] at hm
        exact ⟨b :: a :: m'', List.Perm.swap a b m'', by simp [hm.1, hm.2.1, hm.2.2]⟩
  | trans _ _ ih1 ih2 =>
    intro m hm
    obtain ⟨k, hk1, hk2⟩ := ih2 m hm
    obtain ⟨l, hl1, hl2⟩ := ih1 k hk2
    exact ⟨l, hl1.trans hk1, hl2⟩

/-- The body of the loop of `applyFieldMapValuesIfNeeded` reads the name of the
column through its lower-cased form only. -/
theorem applyFieldMapValue_of_lower (env : Env) (rm : metaRecordMapper) (structType : GoType)
    (st : Store) (k₁ k₂ : String) (idx : Nat) (h : env.ToLower k₁ = env.ToLower k₂) :
    applyFieldMapValue env rm structType st k₁ idx =
      applyFieldMapValue env rm structType st k₂ idx := by
  simp only [applyFieldMapValue, h]

/-- Two visits of holders that agree up to the letter case of the column names
make `applyFieldMapValuesIfNeeded` do the same. -/
theorem applyFieldMapValuesIfNeeded_of_lower (env : Env) (rm : metaRecordMapper)
    (structType : GoType) :
    ∀ (v₁ v₂ : List (String × Nat)), v₁.map (lowerKey env) = v₂.map (lowerKey env) →
      ∀ st, applyFieldMapValuesIfNeeded env rm structType v₁ st =
        applyFieldMapValuesIfNeeded env rm structType v₂ st := by
  intro v₁
  induction v₁ with
  | nil =>
    intro v₂ h st
    have : v₂ = [] := by simpa using h.symm
    subst this
    rfl
  | cons e₁ r₁ ih =>
    intro v₂ h st
    cases v₂ with
    | nil => simp at h
    | cons e₂ r₂ =>
      obtain ⟨k₁, i₁⟩ := e₁
      obtain ⟨k₂, i₂⟩ := e₂
      simp only [List.map_cons, List.cons.injEq, lowerKey, Prod.mk.injEq] at h
      obtain ⟨⟨hk, hi⟩, hr⟩ := h
      subst hi
      simp only [applyFieldMapValuesIfNeeded,
        applyFieldMapValue_of_lower env rm structType st k₁ k₂ i₁ hk]
      cases applyFieldMapValue env rm structType st k₂ i₁ with
      | panic m => rfl
      | ret r =>
        cases r with
        | error err => rfl
        | ok st1 => exact ih r₂ hr st1

/-- The loop of lines 112-128 on two column lists that agree up to letter
case and are bound to the same targets: the same result, apart from the
spelling of the column in the unmapped-column error. -/
theorem bindTargets_of_lower (env : Env) (rm : metaRecordMapper) (structType : GoType)
    (fvm₁ fvm₂ : List (String × Nat)) :
    ∀ (c₁ c₂ : List String), c₁.map env.ToLower = c₂.map env.ToLower →
      c₁.map (boundTarget env rm fvm₁) = c₂.map (boundTarget env rm fvm₂) →
      bindTargets env rm structType fvm₂ c₂ = bindTargets env rm structType fvm₁ c₁ ∨
      ∃ pre₁ k₁ post₁ pre₂ k₂ post₂, c₁ = pre₁ ++ k₁ :: post₁ ∧ c₂ = pre₂ ++ k₂ :: post₂ ∧
        pre₂.length = pre₁.length ∧ env.ToLower k₂ = env.ToLower k₁ ∧
        (∀ k ∈ pre₁, isMapped env rm k = true) ∧ isMapped env rm k₁ = false ∧
        bindTargets env rm structType fvm₁ c₁ = .ret (.error ⟨unmappedMessage k₁⟩) ∧
        bindTargets env rm structType fvm₂ c₂ = .ret (.error ⟨unmappedMessage k₂⟩) := by
  intro c₁
  induction c₁ with
  | nil =>
    intro c₂ h _
    have : c₂ = [] := by simpa using h.symm
    subst this
    exact Or.inl rfl
  | cons k₁ r₁ ih =>
    intro c₂ h hb
    cases c₂ with
    | nil => simp at h
    | cons k₂ r₂ =>
      simp only [List.map_cons, List.cons.injEq] at h hb
      obtain ⟨hk, hr⟩ := h
      obtain ⟨hbk, hbr⟩ := hb
      cases hl : rm.columnToFieldMap.lookup (env.ToLower k₁) with
      | none =>
        right
        have hl2 : rm.columnToFieldMap.lookup (env.ToLower k₂) = none := by rw [← hk]; exact hl
        refine ⟨[], k₁, r₁, [], k₂, r₂, rfl, rfl, rfl, hk.symm, by simp, ?_, ?_, ?_⟩
        · simp [isMapped, hl]
        · simp only [bindTargets, hl, unmappedMessage]
        · simp only [bindTargets, hl2, unmappedMessage]
      | some d =>
        have hl2 : rm.columnToFieldMap.lookup (env.ToLower k₂) = some d := by rw [← hk]; exact hl
        have hm1 : isMapped env rm k₁ = true := by simp [isMapped, hl]
        have hv1 : hasValueMap env rm k₁ = (d.lookup "valueMap").isSome := by
          simp [hasValueMap, hl]
        have hv2 : hasValueMap env rm k₂ = (d.lookup "valueMap").isSome := by
          simp [hasValueMap, hl2]
        cases hfb : FieldByName structType ((d.lookup "fieldName").getD "") with
        | panic m =>
          left
          simp only [bindTargets, hl, hl2, hfb]
        | ret field =>
          cases hvm : (d.lookup "valueMap").isSome with
          | true =>
            have ht : (fvm₂.lookup k₂).map Loc.slot = (fvm₁.lookup k₁).map Loc.slot := by
              have := hbk
              simp only [boundTarget, hv1, hv2, hvm, if_true] at this
              exact this.symm
            rcases ih r₂ hr hbr with h1 | ⟨p₁, x₁, q₁, p₂, x₂, q₂, e1, e2, e3, e4, e5, e6, e7, e8⟩
            · left
              simp only [bindTargets, hl, hl2, hfb, hvm, if_true, ht, h1]
            · right
              refine ⟨k₁ :: p₁, x₁, q₁, k₂ :: p₂, x₂, q₂, by rw [e1]; rfl, by rw [e2]; rfl,
                by simp [e3], e4, ?_, e6, ?_, ?_⟩
              · intro k hk2
                rcases List.mem_cons.1 hk2 with h3 | h3
                · rw [h3]; exact hm1
                · exact e5 k h3
              · simp only [bindTargets, hl, hfb, hvm, if_true, e7]
              · simp only [bindTargets, hl2, hfb, hvm, if_true, e8]
          | false =>
            cases hfa : fieldAddr field with
            | panic m =>
              left
              simp only [bindTargets, hl, hl2, hfb, hvm, hfa]
              simp
            | ret p =>
              rcases ih r₂ hr hbr with h1 | ⟨p₁, x₁, q₁, p₂, x₂, q₂, e1, e2, e3, e4, e5, e6, e7, e8⟩
              · left
                simp only [bindTargets, hl, hl2, hfb, hvm, hfa, h1]
                simp
              · right
                refine ⟨k₁ :: p₁, x₁, q₁, k₂ :: p₂, x₂, q₂, by rw [e1]; rfl, by rw [e2]; rfl,
                  by simp [e3], e4, ?_, e6, ?_, ?_⟩
                · intro k hk2
                  rcases List.mem_cons.1 hk2 with h3 | h3
                  · rw [h3]; exact hm1
                  · exact e5 k h3
                · simp only [bindTargets, hl, hfb, hvm, hfa, e7]
                  simp
                · simp only [bindTargets, hl2, hfb, hvm, hfa, e8]
                  simp

/-- The method `scanData`, step by step: the holders of the row, the targets,
the scan, the translation step, the record. -/
theorem scanData_unfold (env : Env) (rm : metaRecordMapper) (scanner : Scanner) :
    scanData env rm scanner =
      match env.DiscoverTypeByKind rm.structType Kind.Struct with
      | .panic m => .panic m
      | .ret structType =>
        match bindTargets env rm structType (holdersOf env rm scanner.Columns.1)
            scanner.Columns.1 with
        | .panic m => .panic m
        | .ret (.error err) => .ret (Result.nil, some err)
        | .ret (.ok ts) =>
          match (scanner.Scan ts).2 with
          | some err => .ret (Result.nil, some err)
          | none =>
            match (if getValueMappingCount env rm scanner.Columns.1 > 0 then
                applyFieldMapValuesIfNeeded env rm structType
                  (env.mapRange (holdersOf env rm scanner.Columns.1))
                  (applyWrites ts
                    { fields := zeroFields structType
                      slots := List.replicate
                        (getValueMappingCount env rm scanner.Columns.1) Value.nil }
                    (scanner.Scan ts).1)
              else .ret (applyWrites ts
                    { fields := zeroFields structType
                      slots := List.replicate
                        (getValueMappingCount env rm scanner.Columns.1) Value.nil }
                    (scanner.Scan ts).1, none)) with
            | .panic m => .panic m
            | .ret (_, some err) => .ret (Result.nil, some err)
            | .ret (st2, none) => .ret (wrapRecord rm.usePointer st2.fields, none) := by
  simp only [scanData, allocated_eq]
  cases env.DiscoverTypeByKind rm.structType Kind.Struct with
  | panic m => rfl
  | ret structType =>
    simp only
    cases bindTargets env rm structType (holdersOf env rm scanner.Columns.1)
        scanner.Columns.1 with
    | panic m => rfl
    | ret r =>
      cases r with
      | error err => rfl
      | ok ts =>
        simp only
        cases (scanner.Scan ts).2 with
        | some err => rfl
        | none =>
          simp only
          by_cases hc : getValueMappingCount env rm scanner.Columns.1 > 0
          · simp only [hc, decide_True, if_true]
            cases applyFieldMapValuesIfNeeded env rm structType
                (env.mapRange (holdersOf env rm scanner.Columns.1))
                (applyWrites ts
                  { fields := zeroFields structType
                    slots := List.replicate
                      (getValueMappingCount env rm scanner.Columns.1) Value.nil }
                  (scanner.Scan ts).1) with
            | panic m => rfl
            | ret r =>
              obtain ⟨s, e⟩ := r
              cases e with
              | some e => rfl
              | none => simp only [wrapRecord]; cases rm.usePointer <;> rfl
          · simp only [hc, decide_False, Bool.false_eq_true, if_false, wrapRecord]
            cases rm.usePointer <;> rfl

theorem getValueMappingCountLoop_order (env : Env)
    (order : List (String × Nat) → List (String × Nat)) (rm : metaRecordMapper) :
    ∀ (columns : List String) (result : Nat),
      getValueMappingCountLoop { env with mapRange := order } rm columns result =
        getValueMappingCountLoop env rm columns result := by
  intro columns
  induction columns with
  | nil => intro result; rfl
  | cons key rest ih =>
    intro result
    have hk : hasValueMap { env with mapRange := order } rm key = hasValueMap env rm key := rfl
    simp only [getValueMappingCountLoop, hk, ih]

theorem allocateLoop_order (env : Env) (order : List (String × Nat) → List (String × Nat))
    (rm : metaRecordMapper) (count : Nat) :
    ∀ (columns : List String) (index : Nat) (result : List (String × Nat)),
      allocateLoop { env with mapRange := order } rm count columns index result =
        allocateLoop env rm count columns index result := by
  intro columns
  induction columns with
  | nil => intro index result; rfl
  | cons key rest ih =>
    intro index result
    have hk : hasValueMap { env with mapRange := order } rm key = hasValueMap env rm key := rfl
    simp only [allocateLoop, hk, ih]

theorem getValueMappingCount_order (env : Env)
    (order : List (String × Nat) → List (String × Nat)) (rm : metaRecordMapper)
    (columns : List String) :
    getValueMappingCount { env with mapRange := order } rm columns =
      getValueMappingCount env rm columns :=
  getValueMappingCountLoop_order env order rm columns 0

theorem holdersOf_order (env : Env) (order : List (String × Nat) → List (String × Nat))
    (rm : metaRecordMapper) (columns : List String) :
    holdersOf { env with mapRange := order } rm columns = holdersOf env rm columns := by
  simp only [holdersOf, allocateValueMapByKey, getValueMappingCount_order, allocateLoop_order]

theorem bindTargets_order (env : Env) (order : List (String × Nat) → List (String × Nat))
    (rm : metaRecordMapper) (structType : GoType) (fvm : List (String × Nat)) :
    ∀ (columns : List String),
      bindTargets { env with mapRange := order } rm structType fvm columns =
        bindTargets env rm structType fvm columns := by
  intro columns
  induction columns with
  | nil => rfl
  | cons key rest ih =>
    simp only [bindTargets, ih]

theorem applyFieldMapValuesIfNeeded_mapRange (env : Env)
    (order : List (String × Nat) → List (String × Nat)) (rm : metaRecordMapper)
    (structType : GoType) :
    ∀ (entries : List (String × Nat)) (st : Store),
      applyFieldMapValuesIfNeeded { env with mapRange := order } rm structType entries st =
        applyFieldMapValuesIfNeeded env rm structType entries st := by
  intro entries
  induction entries with
  | nil => intro st; rfl
  | cons e rest ih =>
    intro st
    obtain ⟨key, idx⟩ := e
    have hk : applyFieldMapValue { env with mapRange := order } rm structType st key idx =
        applyFieldMapValue env rm structType st key idx := rfl
    simp only [applyFieldMapValuesIfNeeded, hk, ih]

/-- The method `scanData` in a call that visits the holders in the order
`order`, step by step. -/
theorem scanData_order (env : Env) (order : List (String × Nat) → List (String × Nat))
    (rm : metaRecordMapper) (scanner : Scanner) :
    scanData { env with mapRange := order } rm scanner =
      match env.DiscoverTypeByKind rm.structType Kind.Struct with
      | .panic m => .panic m
      | .ret structType =>
        match bindTargets env rm structType (holdersOf env rm scanner.Columns.1)
            scanner.Columns.1 with
        | .panic m => .panic m
        | .ret (.error err) => .ret (Result.nil, some err)
        | .ret (.ok ts) =>
          match (scanner.Scan ts).2 with
          | some err => .ret (Result.nil, some err)
          | none =>
            match (if getValueMappingCount env rm scanner.Columns.1 > 0 then
                applyFieldMapValuesIfNeeded env rm structType
                  (order (holdersOf env rm scanner.Columns.1))
                  (applyWrites ts
                    { fields := zeroFields structType
                      slots := List.replicate
                        (getValueMappingCount env rm scanner.Columns.1) Value.nil }
                    (scanner.Scan ts).1)
              else .ret (applyWrites ts
                    { fields := zeroFields structType
                      slots := List.replicate
                        (getValueMappingCount env rm scanner.Columns.1) Value.nil }
                    (scanner.Scan ts).1, none)) with
            | .panic m => .panic m
            | .ret (_, some err) => .ret (Result.nil, some err)
            | .ret (st2, none) => .ret (wrapRecord rm.usePointer st2.fields, none) := by
  rw [scanData_unfold]
  simp only [getValueMappingCount_order, holdersOf_order, bindTargets_order,
    applyFieldMapValuesIfNeeded_mapRange]

/-- C15 (amended): for a row whose column names are pairwise distinct after
lower-casing, and a second row whose column names differ from those of the
first in letter case only, the scanner delivering the same values in the same
positions: whenever the call of `Map` on the second row visits the holders in
the order that corresponds to the one of the call on the first row (holder by
holder the same slot and the same column up to letter case), the two calls
have the same outcome, the same record, the same error or the same panic,
except that an unmapped-column error names the column as its own row spells
it. Every order of the holders of the first row has a corresponding order of
the holders of the second row. -/
theorem Map_case_insensitive (env : Env) (rm : metaRecordMapper) (sc₁ sc₂ : Scanner)
    (hcase : sc₁.Columns.1.map env.ToLower = sc₂.Columns.1.map env.ToLower)
    (hnd : (sc₁.Columns.1.map env.ToLower).Nodup)
    (hscan : ∀ ts, sc₂.Scan ts = sc₁.Scan ts)
    (order₂ : List (String × Nat) → List (String × Nat))
    (hcorr : (order₂ (holdersOf env rm sc₂.Columns.1)).map (lowerKey env) =
      (env.mapRange (holdersOf env rm sc₁.Columns.1)).map (lowerKey env)) :
    (rm.Map { env with mapRange := order₂ } sc₂ = rm.Map env sc₁ ∨
      ∃ pre₁ k₁ post₁ pre₂ k₂ post₂,
        sc₁.Columns.1 = pre₁ ++ k₁ :: post₁ ∧ sc₂.Columns.1 = pre₂ ++ k₂ :: post₂ ∧
        pre₂.length = pre₁.length ∧ env.ToLower k₂ = env.ToLower k₁ ∧
        (∀ k ∈ pre₁, isMapped env rm k = true) ∧ isMapped env rm k₁ = false ∧
        rm.Map env sc₁ = .ret (Result.nil, some ⟨unmappedMessage k₁⟩) ∧
        rm.Map { env with mapRange := order₂ } sc₂ =
          .ret (Result.nil, some ⟨unmappedMessage k₂⟩)) ∧
    (∀ visit₁ : List (String × Nat), visit₁.Perm (holdersOf env rm sc₁.Columns.1) →
      ∃ visit₂ : List (String × Nat), visit₂.Perm (holdersOf env rm sc₂.Columns.1) ∧
        visit₂.map (lowerKey env) = visit₁.map (lowerKey env)) := by
  have hnd1 : sc₁.Columns.1.Nodup := List.Nodup.of_map _ hnd
  have hnd2 : sc₂.Columns.1.Nodup := List.Nodup.of_map env.ToLower (by rw [← hcase]; exact hnd)
  have hH1 := holdersOf_of_nodup env rm sc₁.Columns.1 hnd1
  have hH2 := holdersOf_of_nodup env rm sc₂.Columns.1 hnd2
  obtain ⟨i1, i2, -⟩ := lower_invariance env rm [] [] _ _ hcase 0
  have hcount : getValueMappingCount env rm sc₂.Columns.1 =
      getValueMappingCount env rm sc₁.Columns.1 := by
    rw [getValueMappingCount_eq, getValueMappingCount_eq, i2]
  have hbt : sc₁.Columns.1.map (boundTarget env rm (holdersOf env rm sc₁.Columns.1)) =
      sc₂.Columns.1.map (boundTarget env rm (holdersOf env rm sc₂.Columns.1)) := by
    have h1 := map_boundTarget_of_nodup env rm sc₁.Columns.1 0 [] hnd1 (by simp)
    have h2 := map_boundTarget_of_nodup env rm sc₂.Columns.1 0 [] hnd2 (by simp)
    simp only [List.nil_append] at h1 h2
    rw [hH1, hH2, h1, h2, i1]
  constructor
  · simp only [metaRecordMapper.Map]
    rw [scanData_order env order₂ rm sc₂, scanData_unfold env rm sc₁]
    cases env.DiscoverTypeByKind rm.structType Kind.Struct with
    | panic m => exact Or.inl rfl
    | ret structType =>
      simp only
      rcases bindTargets_of_lower env rm structType (holdersOf env rm sc₁.Columns.1)
          (holdersOf env rm sc₂.Columns.1) _ _ hcase hbt with
        hB | ⟨p₁, x₁, q₁, p₂, x₂, q₂, e1, e2, e3, e4, e5, e6, e7, e8⟩
      · left
        rw [hB]
        cases bindTargets env rm structType (holdersOf env rm sc₁.Columns.1)
            sc₁.Columns.1 with
        | panic m => rfl
        | ret r =>
          cases r with
          | error err => rfl
          | ok ts =>
            simp only [hscan, hcount]
            cases (sc₁.Scan ts).2 with
            | some err => rfl
            | none =>
              simp only
              rw [applyFieldMapValuesIfNeeded_of_lower env rm structType _ _ hcorr]
      · right
        exact ⟨p₁, x₁, q₁, p₂, x₂, q₂, e1, e2, e3, e4, e5, e6, by rw [e7], by rw [e8]⟩
  · intro visit₁ hp
    have hmap : (holdersOf env rm sc₂.Columns.1).map (lowerKey env) =
        (holdersOf env rm sc₁.Columns.1).map (lowerKey env) := by
      rw [hH1, hH2]
      exact (holdersFrom_of_lower env rm _ _ hcase 0).symm
    exact exists_perm_of_map_perm (lowerKey env) (hp.map (lowerKey env)) _ hmap

/-- C15 on the rows with the columns id, status and ID, Status: the same
record; and with the columns id, bogus and ID, BOGUS: the unmapped-column
error, each with the spelling of its row. -/
theorem Map_case_insensitive_witness :
    userMapper.Map demoEnv (rowScanner ["id", "status"] [Value.int 7, Value.str "1"]) =
      .ret (Result.structValue [("Id", Value.int 7), ("Status", Value.str "ACTIVE"),
        ("Kind", Value.str ""), ("Note", Value.nil)], none) ∧
    userMapper.Map demoEnv (rowScanner ["id", "bogus"] [Value.int 7, Value.str "1"]) =
      .ret (Result.nil, some ⟨unmappedMessage "bogus"⟩) ∧
    userMapper.Map { demoEnv with mapRange := id }
        (rowScanner ["ID", "BOGUS"] [Value.int 7, Value.str "1"]) =
      .ret (Result.nil, some ⟨unmappedMessage "BOGUS"⟩) ∧
    (userMapper.Map { demoEnv with mapRange := id }
        (rowScanner ["ID", "Status"] [Value.int 7, Value.str "1"]) =
      userMapper.Map demoEnv (rowScanner ["id", "status"] [Value.int 7, Value.str "1"]) ∨
      ∃ pre₁ k₁ post₁ pre₂ k₂ post₂,
        (rowScanner ["id", "status"] [Value.int 7, Value.str "1"]).Columns.1 =
          pre₁ ++ k₁ :: post₁ ∧
        (rowScanner ["ID", "Status"] [Value.int 7, Value.str "1"]).Columns.1 =
          pre₂ ++ k₂ :: post₂ ∧
        pre₂.length = pre₁.length ∧ demoEnv.ToLower k₂ = demoEnv.ToLower k₁ ∧
        (∀ k ∈ pre₁, isMapped demoEnv userMapper k = true) ∧
        isMapped demoEnv userMapper k₁ = false ∧
        userMapper.Map demoEnv (rowScanner ["id", "status"] [Value.int 7, Value.str "1"]) =
          .ret (Result.nil, some ⟨unmappedMessage k₁⟩) ∧
        userMapper.Map { demoEnv with mapRange := id }
            (rowScanner ["ID", "Status"] [Value.int 7, Value.str "1"]) =
          .ret (Result.nil, some ⟨unmappedMessage k₂⟩)) :=
  ⟨by decide, by decide, by decide,
   (Map_case_insensitive demoEnv userMapper
      (rowScanner ["id", "status"] [Value.int 7, Value.str "1"])
      (rowScanner ["ID", "Status"] [Value.int 7, Value.str "1"])
      (by decide) (by decide) (fun _ => rfl) id (by decide)).1⟩

/-- C15 as stated fails when the two calls visit the holders in orders that do
not correspond, which Go is free to do: the row with the columns status and
kind and the row with the columns STATUS and KIND differ in letter case only
and the scanner delivers "2" and "C" for both; a call on the first that
visits the holder of `status` first returns the translation-miss error of
`status`, a call on the second that visits the holder of `KIND` first returns
the translation-miss error of `kind`, a different error that is no
unmapped-column error. Both orders are orders of the holders of their row. -/
theorem Map_case_insensitive_counterexample :
    (["status", "kind"].map demoEnv.ToLower = ["STATUS", "KIND"].map demoEnv.ToLower) ∧
    (["status", "kind"].map demoEnv.ToLower).Nodup ∧
    holdersOf demoEnv userMapper ["STATUS", "KIND"] = [("STATUS", 0), ("KIND", 1)] ∧
    (List.reverse [("STATUS", 0), ("KIND", 1)]).Perm [("STATUS", 0), ("KIND", 1)] ∧
    userMapper.Map demoEnv (rowScanner ["status", "kind"] [Value.str "2", Value.str "C"]) =
      .ret (Result.nil, some
        ⟨"Failed to map record, unable to find valid mapping, want one of map[0:INACTIVE 1:ACTIVE], but had 2"⟩) ∧
    userMapper.Map (demoEnvWith List.reverse)
        (rowScanner ["STATUS", "KIND"] [Value.str "2", Value.str "C"]) =
      .ret (Result.nil, some
        ⟨"Failed to map record, unable to find valid mapping, want one of map[A:alpha B:beta], but had C"⟩) := by
  refine ⟨by decide, by decide, by decide, by decide, by decide, by decide⟩

/-! ## No state across rows -/

theorem updateAt_append_length (old : List Store) (st : Store) (f : Store → Store) :
    updateAt (old ++ [st]) old.length f = old ++ [f st] := by
  induction old with
  | nil => rfl
  | cons x rest ih =>
    show x :: updateAt (rest ++ [st]) rest.length f = x :: (rest ++ [f st])
    rw [ih]

/-- A store through a pointer into the last frame changes that frame only. -/
theorem heap_write_frame (m : metaRecordMapper) (old : List Store) (st : Store) (t : Target)
    (v : Value) :
    Heap.write ⟨m, old ++ [st]⟩ (t.map (Ptr.mk old.length)) v =
      ⟨m, old ++ [st.write t v]⟩ := by
  cases t with
  | none => rfl
  | some loc =>
    simp only [Option.map_some', Heap.write, updateAt_append_length]

theorem getD_map_ptr (ts : List Target) (a j : Nat) :
    (ts.map (Option.map (Ptr.mk a))).getD j none = (ts.getD j none).map (Ptr.mk a) := by
  simp only [List.getD_eq_getElem?_getD, List.getElem?_map]
  cases ts[j]? <;> rfl

/-- A scan whose targets all point into the last frame changes that frame
only, as the scan does on the store of the frame. -/
theorem heap_applyWrites_frame (m : metaRecordMapper) (old : List Store) (ts : List Target) :
    ∀ (writes : List (Nat × Value)) (st : Store),
      Heap.applyWrites (ts.map (Option.map (Ptr.mk old.length))) ⟨m, old ++ [st]⟩ writes =
        ⟨m, old ++ [applyWrites ts st writes]⟩ := by
  intro writes
  induction writes with
  | nil => intro st; rfl
  | cons w rest ih =>
    intro st
    obtain ⟨j, v⟩ := w
    simp only [Heap.applyWrites, applyWrites, getD_map_ptr, heap_write_frame, ih]

theorem heap_read_frame (m : metaRecordMapper) (old : List Store) (st : Store) (loc : Loc) :
    Heap.read ⟨m, old ++ [st]⟩ ⟨old.length, loc⟩ = st.read loc := by
  simp [Heap.read]

/-- The body of the loop of `applyFieldMapValuesIfNeeded` on the heap, for a
holder of the last frame: it changes that frame only, as the body does on the
store of the frame. -/
theorem applyFieldMapValueOn_frame (env : Env) (structType : GoType) (m : metaRecordMapper)
    (old : List Store) (st : Store) (key : String) (idx : Nat) :
    applyFieldMapValueOn env structType ⟨m, old ++ [st]⟩ old.length key
        ⟨old.length, Loc.slot idx⟩ =
      match applyFieldMapValue env m structType st key idx with
      | .panic msg => (⟨m, old ++ [st]⟩, .panic msg)
      | .ret (.error e) => (⟨m, old ++ [st]⟩, .ret (some e))
      | .ret (.ok st1) => (⟨m, old ++ [st1]⟩, .ret none) := by
  have hw : ∀ n v, Heap.write ⟨m, old ++ [st]⟩ (some ⟨old.length, Loc.field n⟩) v =
      ⟨m, old ++ [st.write (some (Loc.field n)) v]⟩ :=
    fun n v => heap_write_frame m old st (some (Loc.field n)) v
  simp only [applyFieldMapValueOn, applyFieldMapValue, heap_read_frame, Store.read]
  cases FieldByName structType
      ((((m.columnToFieldMap.lookup (env.ToLower key)).getD []).lookup "fieldName").getD "") with
  | panic msg => rfl
  | ret field =>
    simp only
    by_cases hnil : st.slots.getD idx Value.nil = Value.nil
    · simp only [hnil, if_true]
      by_cases hk : fieldKind field ≠ Kind.Ptr
      · simp only [if_pos hk]
      · simp only [if_neg hk]
    · simp only [if_neg hnil]
      cases (env.MakeStringMap
          ((((m.columnToFieldMap.lookup (env.ToLower key)).getD []).lookup "valueMap").getD "")
          ":" ",").lookup (textOf env (st.slots.getD idx Value.nil)) with
      | none => rfl
      | some mapped =>
        simp only
        cases fieldAddr field with
        | panic msg => rfl
        | ret p =>
          simp only
          cases env.AssignConverted m.converter p mapped with
          | error e => rfl
          | ok v => simp only [hw]

/-- The method `applyFieldMapValuesIfNeeded` on the heap, for holders of the
last frame: it changes that frame only, and returns what the method returns
on the store of the frame. -/
theorem applyFieldMapValuesIfNeededOn_frame (env : Env) (structType : GoType)
    (m : metaRecordMapper) (old : List Store) :
    ∀ (entries : List (String × Nat)) (st : Store),
      ∃ st', (applyFieldMapValuesIfNeededOn env structType old.length
          (entries.map fun e => (e.1, Ptr.mk old.length (Loc.slot e.2))) ⟨m, old ++ [st]⟩).1 =
            ⟨m, old ++ [st']⟩ ∧
        match applyFieldMapValuesIfNeeded env m structType entries st with
        | .panic msg =>
          (applyFieldMapValuesIfNeededOn env structType old.length
            (entries.map fun e => (e.1, Ptr.mk old.length (Loc.slot e.2)))
            ⟨m, old ++ [st]⟩).2 = .panic msg
        | .ret (st2, e) =>
          (applyFieldMapValuesIfNeededOn env structType old.length
            (entries.map fun e => (e.1, Ptr.mk old.length (Loc.slot e.2)))
            ⟨m, old ++ [st]⟩).2 = .ret e ∧ st' = st2 := by
  intro entries
  induction entries with
  | nil =>
    intro st
    exact ⟨st, rfl, rfl, rfl⟩
  | cons e rest ih =>
    intro st
    obtain ⟨key, idx⟩ := e
    simp only [List.map_cons, applyFieldMapValuesIfNeededOn, applyFieldMapValuesIfNeeded,
      applyFieldMapValueOn_frame]
    cases applyFieldMapValue env m structType st key idx with
    | panic msg => exact ⟨st, rfl, rfl⟩
    | ret r =>
      cases r with
      | error err => exact ⟨st, rfl, rfl, rfl⟩
      | ok st1 => exact ih st1

theorem getD_append_length (old : List Store) (st : Store) :
    (old ++ [st]).getD old.length { fields := [], slots := [] } = st := by
  simp [List.getD_eq_getElem?_getD]

/-- A call of `scanData` on the heap leaves the mapper and the frames it finds
as they are and adds at most one frame; what the caller sees of its result is
what `scanData` returns for the mapper and the row, whatever the heap held;
and a pointer it returns is the address of the frame it has added. -/
theorem scanDataOn_frame (env : Env) (m : metaRecordMapper) (old : List Store)
    (scanner : Scanner) :
    ∃ fr : List Store, fr.length ≤ 1 ∧
      (scanDataOn env ⟨m, old⟩ scanner).1 = ⟨m, old ++ fr⟩ ∧
      (scanDataOn env ⟨m, old⟩ scanner).1.observe (scanDataOn env ⟨m, old⟩ scanner).2 =
        scanData env m scanner ∧
      ∀ a e, (scanDataOn env ⟨m, old⟩ scanner).2 = .ret (HeapResult.structPointer a, e) →
        a = old.length ∧ fr.length = 1 := by
  simp only [scanDataOn, scanData, allocated_eq]
  cases env.DiscoverTypeByKind m.structType Kind.Struct with
  | panic msg =>
    exact ⟨[], by simp, by simp, rfl, fun a e h => by cases h⟩
  | ret structType =>
    simp only
    cases bindTargets env m structType (holdersOf env m scanner.Columns.1)
        scanner.Columns.1 with
    | panic msg => exact ⟨[_], by simp, rfl, rfl, fun a e h => by cases h⟩
    | ret r =>
      cases r with
      | error err => exact ⟨[_], by simp, rfl, rfl, fun a e h => by cases h⟩
      | ok ts =>
        simp only [heap_applyWrites_frame]
        cases (scanner.Scan ts).2 with
        | some err => exact ⟨[_], by simp, rfl, rfl, fun a e h => by cases h⟩
        | none =>
          simp only
          by_cases hc : getValueMappingCount env m scanner.Columns.1 > 0
          · simp only [hc, decide_True, if_true]
            obtain ⟨st', h1, h2⟩ := applyFieldMapValuesIfNeededOn_frame env structType m old
              (env.mapRange (holdersOf env m scanner.Columns.1))
              (applyWrites ts
                { fields := zeroFields structType
                  slots := List.replicate (getValueMappingCount env m scanner.Columns.1)
                    Value.nil }
                (scanner.Scan ts).1)
            generalize applyFieldMapValuesIfNeededOn env structType old.length
              ((env.mapRange (holdersOf env m scanner.Columns.1)).map fun e =>
                (e.1, Ptr.mk old.length (Loc.slot e.2)))
              ⟨m, old ++ [applyWrites ts
                { fields := zeroFields structType
                  slots := List.replicate (getValueMappingCount env m scanner.Columns.1)
                    Value.nil }
                (scanner.Scan ts).1]⟩ = res at h1 h2
            obtain ⟨h3, o⟩ := res
            simp only at h1 h2
            subst h1
            cases hp : applyFieldMapValuesIfNeeded env m structType
                (env.mapRange (holdersOf env m scanner.Columns.1))
                (applyWrites ts
                  { fields := zeroFields structType
                    slots := List.replicate (getValueMappingCount env m scanner.Columns.1)
                      Value.nil }
                  (scanner.Scan ts).1) with
            | panic msg =>
              rw [hp] at h2
              simp only at h2
              subst h2
              exact ⟨[st'], by simp, rfl, rfl, fun a e h => by cases h⟩
            | ret r =>
              obtain ⟨st2, e⟩ := r
              rw [hp] at h2
              simp only at h2
              obtain ⟨h4, h5⟩ := h2
              subst h4 h5
              cases e with
              | some err => exact ⟨[st'], by simp, rfl, rfl, fun a e h => by cases h⟩
              | none =>
                cases hu : m.usePointer with
                | false =>
                  refine ⟨[st'], by simp, by simp [hu], ?_, ?_⟩
                  · simp [hu, Heap.observe, getD_append_length]
                  · intro a e h
                    simp [hu] at h
                | true =>
                  refine ⟨[st'], by simp, by simp [hu], ?_, ?_⟩
                  · simp [hu, Heap.observe, getD_append_length]
                  · intro a e h
                    simp [hu] at h
                    exact ⟨h.1.symm, rfl⟩
          · simp only [hc, decide_False, Bool.false_eq_true, if_false]
            cases hu : m.usePointer with
            | false =>
              refine ⟨[applyWrites ts
                { fields := zeroFields structType
                  slots := List.replicate (getValueMappingCount env m scanner.Columns.1)
                    Value.nil }
                (scanner.Scan ts).1], by simp, by simp [hu], ?_, ?_⟩
              · simp [hu, Heap.observe, getD_append_length]
              · intro a e h
                simp [hu] at h
            | true =>
              refine ⟨[applyWrites ts
                { fields := zeroFields structType
                  slots := List.replicate (getValueMappingCount env m scanner.Columns.1)
                    Value.nil }
                (scanner.Scan ts).1], by simp, by simp [hu], ?_, ?_⟩
              · simp [hu, Heap.observe, getD_append_length]
              · intro a e h
                simp [hu] at h
                exact ⟨h.1.symm, rfl⟩

/-- The method `scanData` reads the scanner through its column names and its
`Scan` only. -/
theorem scanData_congr (env : Env) (rm : metaRecordMapper) (sc₁ sc₂ : Scanner)
    (hcols : sc₁.Columns.1 = sc₂.Columns.1) (hscan : ∀ ts, sc₁.Scan ts = sc₂.Scan ts) :
    scanData env rm sc₁ = scanData env rm sc₂ := by
  simp only [scanData, hcols, hscan]

/-- What the caller sees of a result does not change when frames are added to
the heap, provided a pointer in the result is an address of the heap. -/
theorem heap_observe_append (m : metaRecordMapper) (frames fr : List Store)
    (o : Outcome (HeapResult × Option GoError))
    (ha : ∀ a e, o = .ret (HeapResult.structPointer a, e) → a < frames.length) :
    Heap.observe ⟨m, frames ++ fr⟩ o = Heap.observe ⟨m, frames⟩ o := by
  cases o with
  | panic msg => rfl
  | ret r =>
    obtain ⟨res, e⟩ := r
    cases res with
    | nil => rfl
    | structValue fields => rfl
    | structPointer a =>
      have hlt := ha a e rfl
      simp only [Heap.observe, List.getD_eq_getElem?_getD, List.getElem?_append_left hlt]


/-- C16 (amended): a call of `Map` retains no state. On any heap `h`, a call
leaves the mapper as it is and leaves every frame of the heap as it is; a
pointer it returns is the address of a frame it has allocated itself, which
is no address of the heap before the call. What the caller sees of its result
is determined by the mapper, the column names of the row, what the scanner
delivers through the targets and the collaborators of the call `env₁`, among
them the order in which the call visits the holders: it is what `Map` gives
for the mapper and the row alone, whatever the heap holds, and two scanners
with the same column names and the same `Scan` give the same result. A second
call, after the first, gives what `Map` gives for its row alone, leaves every
frame of the heap after the first call as it is, and so leaves what the
caller sees of the result of the first call as it is. A row without
translated columns, whose columns name exported fields and whose scanner
writes nothing, gives the zero-valued record, whatever the heap holds. -/
theorem Map_retains_no_state (env₁ env₂ : Env) (h : Heap) (sc₁ sc₂ : Scanner) :
    ((scanDataOn env₁ h sc₁).1.mapper = h.mapper ∧
      (scanDataOn env₂ (scanDataOn env₁ h sc₁).1 sc₂).1.mapper = h.mapper) ∧
    (∀ a, a < h.frames.length → (scanDataOn env₁ h sc₁).1.frames[a]? = h.frames[a]?) ∧
    (∀ a e, (scanDataOn env₁ h sc₁).2 = .ret (HeapResult.structPointer a, e) →
      a = h.frames.length ∧ a < (scanDataOn env₁ h sc₁).1.frames.length) ∧
    (scanDataOn env₁ h sc₁).1.observe (scanDataOn env₁ h sc₁).2 = h.mapper.Map env₁ sc₁ ∧
    (scanDataOn env₂ (scanDataOn env₁ h sc₁).1 sc₂).1.observe
        (scanDataOn env₂ (scanDataOn env₁ h sc₁).1 sc₂).2 = h.mapper.Map env₂ sc₂ ∧
    (∀ a, a < (scanDataOn env₁ h sc₁).1.frames.length →
      (scanDataOn env₂ (scanDataOn env₁ h sc₁).1 sc₂).1.frames[a]? =
        (scanDataOn env₁ h sc₁).1.frames[a]?) ∧
    (scanDataOn env₂ (scanDataOn env₁ h sc₁).1 sc₂).1.observe (scanDataOn env₁ h sc₁).2 =
      (scanDataOn env₁ h sc₁).1.observe (scanDataOn env₁ h sc₁).2 ∧
    (∀ other : Scanner, other.Columns.1 = sc₁.Columns.1 →
      (∀ ts, other.Scan ts = sc₁.Scan ts) →
      h.mapper.Map env₁ other = h.mapper.Map env₁ sc₁) ∧
    (∀ name fs, StructOf env₁ h.mapper name fs →
      (∀ key ∈ sc₁.Columns.1, isMapped env₁ h.mapper key = true) →
      (∀ key ∈ sc₁.Columns.1, hasValueMap env₁ h.mapper key = false) →
      PlainExported env₁ h.mapper fs sc₁.Columns.1 →
      (∀ ts, sc₁.Scan ts = ([], none)) →
      (scanDataOn env₁ h sc₁).1.observe (scanDataOn env₁ h sc₁).2 =
        .ret (wrapRecord h.mapper.usePointer (zeroFields (.struct name fs)), none)) := by
  obtain ⟨m, old⟩ := h
  obtain ⟨fr1, l1, e1, o1, p1⟩ := scanDataOn_frame env₁ m old sc₁
  generalize scanDataOn env₁ ⟨m, old⟩ sc₁ = r₁ at e1 o1 p1 ⊢
  obtain ⟨h₁, out₁⟩ := r₁
  simp only at e1 o1 p1 ⊢
  subst e1
  obtain ⟨fr2, l2, e2, o2, p2⟩ := scanDataOn_frame env₂ m (old ++ fr1) sc₂
  generalize scanDataOn env₂ ⟨m, old ++ fr1⟩ sc₂ = r₂ at e2 o2 p2 ⊢
  obtain ⟨h₂, out₂⟩ := r₂
  simp only at e2 o2 p2 ⊢
  subst e2
  have hptr : ∀ a e, out₁ = .ret (HeapResult.structPointer a, e) →
      a < (old ++ fr1).length := by
    intro a e ha
    obtain ⟨h1, h2⟩ := p1 a e ha
    rw [List.length_append, h1, h2]
    omega
  refine ⟨?_, ?_, ?_, o1, o2, ?_, ?_, ?_, ?_⟩
  · simp
  · intro a ha
    exact List.getElem?_append_left ha
  · intro a e ha
    exact ⟨(p1 a e ha).1, hptr a e ha⟩
  · intro a ha
    exact List.getElem?_append_left ha
  · exact heap_observe_append m (old ++ fr1) fr2 out₁ hptr
  · intro other hcols hscan
    exact scanData_congr env₁ m other sc₁ hcols hscan
  · intro name fs hT hall hplain hP hsilent
    rw [o1]
    have := scanData_plain env₁ m name fs hT sc₁ hall hplain hP
    simp only [hsilent, applyWrites] at this
    exact this

/-- C16 on two rows of `personMapper`, mapped one after the other on an empty
heap: the second call returns a pointer to the frame at address 1, the frame
at address 0 still holds the record of the first row, and what the caller sees
of the second result is what `Map` gives for the second row alone. -/
theorem Map_retains_no_state_witness :
    scanDataOn demoEnv ⟨personMapper, []⟩
        (rowScanner ["ID", "Name"] [Value.int 7, Value.str "ann"]) =
      (⟨personMapper, [⟨[("Id", Value.int 7), ("Name", Value.str "ann"), ("Age", Value.int 0)],
          []⟩]⟩,
        .ret (HeapResult.structPointer 0, none)) ∧
    scanDataOn demoEnv
        (scanDataOn demoEnv ⟨personMapper, []⟩
          (rowScanner ["ID", "Name"] [Value.int 7, Value.str "ann"])).1
        (rowScanner ["id", "age"] [Value.int 8, Value.int 30]) =
      (⟨personMapper, [⟨[("Id", Value.int 7), ("Name", Value.str "ann"), ("Age", Value.int 0)],
          []⟩,
        ⟨[("Id", Value.int 8), ("Name", Value.str ""), ("Age", Value.int 30)], []⟩]⟩,
        .ret (HeapResult.structPointer 1, none)) ∧
    (scanDataOn demoEnv
        (scanDataOn demoEnv ⟨personMapper, []⟩
          (rowScanner ["ID", "Name"] [Value.int 7, Value.str "ann"])).1
        (rowScanner ["id", "age"] [Value.int 8, Value.int 30])).1.observe
      (scanDataOn demoEnv
        (scanDataOn demoEnv ⟨personMapper, []⟩
          (rowScanner ["ID", "Name"] [Value.int 7, Value.str "ann"])).1
        (rowScanner ["id", "age"] [Value.int 8, Value.int 30])).2 =
      personMapper.Map demoEnv (rowScanner ["id", "age"] [Value.int 8, Value.int 30]) ∧
    (scanDataOn demoEnv
        ⟨personMapper, [⟨[("Id", Value.int 7), ("Name", Value.str "ann"), ("Age", Value.int 0)],
          []⟩]⟩
        (silentScanner ["id", "name"])).1.observe
      (scanDataOn demoEnv
        ⟨personMapper, [⟨[("Id", Value.int 7), ("Name", Value.str "ann"), ("Age", Value.int 0)],
          []⟩]⟩
        (silentScanner ["id", "name"])).2 =
      .ret (wrapRecord personMapper.usePointer (zeroFields (.struct "Person" personFields)),
        none) :=
  ⟨by decide, by decide,
   (Map_retains_no_state demoEnv demoEnv ⟨personMapper, []⟩
      (rowScanner ["ID", "Name"] [Value.int 7, Value.str "ann"])
      (rowScanner ["id", "age"] [Value.int 8, Value.int 30])).2.2.2.2.1,
   (Map_retains_no_state demoEnv demoEnv
      ⟨personMapper, [⟨[("Id", Value.int 7), ("Name", Value.str "ann"), ("Age", Value.int 0)],
        []⟩]⟩
      (silentScanner ["id", "name"]) (silentScanner ["id", "name"])).2.2.2.2.2.2.2.2
      "Person" personFields personMapper_structOf (by decide) (by decide) (by decide)
      (fun _ => rfl)⟩

/-- C16 as stated fails: the result of `Map` is not a function of the metadata,
the column names and the values the scanner delivers alone. For the same
mapper and the same row, with "2" for `status` and "C" for `kind`, a call that
visits the holder of `status` first returns the translation-miss error of
`status` and a call that visits the holder of `kind` first returns the
translation-miss error of `kind`; Go draws the order at each call. So mapping
the row after another row need not give what mapping it alone gave. -/
theorem Map_retains_no_state_counterexample :
    holdersOf demoEnv userMapper ["status", "kind"] = [("status", 0), ("kind", 1)] ∧
    (List.reverse [("status", 0), ("kind", 1)]).Perm [("status", 0), ("kind", 1)] ∧
    userMapper.Map demoEnv (rowScanner ["status", "kind"] [Value.str "2", Value.str "C"]) =
      .ret (Result.nil, some ⟨missMessage demoEnv userMapper "status" (Value.str "2")⟩) ∧
    userMapper.Map (demoEnvWith List.reverse)
        (rowScanner ["status", "kind"] [Value.str "2", Value.str "C"]) =
      .ret (Result.nil, some ⟨missMessage demoEnv userMapper "kind" (Value.str "C")⟩) ∧
    (scanDataOn (demoEnvWith List.reverse)
        (scanDataOn demoEnv ⟨userMapper, []⟩
          (rowScanner ["id"] [Value.int 7])).1
        (rowScanner ["status", "kind"] [Value.str "2", Value.str "C"])).2 =
      .ret (HeapResult.nil, some ⟨missMessage demoEnv userMapper "kind" (Value.str "C")⟩) ∧
    (scanDataOn demoEnv ⟨userMapper, []⟩
        (rowScanner ["status", "kind"] [Value.str "2", Value.str "C"])).2 =
      .ret (HeapResult.nil, some ⟨missMessage demoEnv userMapper "status" (Value.str "2")⟩) ∧
    missMessage demoEnv userMapper "status" (Value.str "2") ≠
      missMessage demoEnv userMapper "kind" (Value.str "C") := by
  refine ⟨by decide, by decide, by decide, by decide, by decide, by decide, by decide⟩

end Dsc
